import Mathlib

/-!
# Feishu webhook client: a verification development

A shallow embedding of `common/feishu` (sign.go, message.go, feishu.go, api.go).

Conventions of the embedding:
* a Go `string` is any byte string; the `String` fields and arguments of the
  embedding stand for the Go strings that are well-formed UTF-8 (the string
  with the bytes `stringBytes s`), and where the code converts a string to
  `[]byte` the UTF-8 encoding is taken explicitly. What `json.Marshal` writes
  for a Go string that is not UTF-8 is given on its bytes by `quoteGoString`;
* a byte is a natural number below 256, a 32-bit word a natural number below
  `2^32`; every operation that can overflow reduces modulo the width;
* `int64` is `Int`; a `float64` decoded from JSON is the rational number it
  holds, obtained by rounding the literal to the nearest `float64`;
* a pointer is an `Option` (`none` is `nil`), a slice is an `Option` of a list
  (`none` is the `nil` slice);
* an `error` result is an `Option` (`none` is `nil`), a `(T, error)` result is
  an `Except`;
* the wall clock and the HTTP client are arguments: `now` is what
  `time.Now().Unix()` returns, a `Transport` is the POST capability of `resty`;
* the request body handed to the HTTP client is the value tree `json.Marshal`
  walks for the request struct (members in the order written); `jsonMarshal`
  gives the text written for it, or `none` when the tree holds a Go value that
  `json.Marshal` rejects; the response body is text;
* the library functions the package calls (`crypto/sha256`, `crypto/hmac`,
  `encoding/base64`, `encoding/json`, `strconv`) are embedded as executable
  definitions of their documented behaviour.
-/

namespace Feishu

/-! ## Bytes and words -/

/-- A byte string: every entry is meant to be below 256. -/
abbrev Bytes := List Nat

/-- UTF-8 encoding of one character, as in `[]byte(string(c))`. -/
def utf8EncodeChar (c : Char) : Bytes :=
  let v := c.val.toNat
  if v < 0x80 then [v]
  else if v < 0x800 then [0xC0 + v / 0x40, 0x80 + v % 0x40]
  else if v < 0x10000 then [0xE0 + v / 0x1000, 0x80 + (v / 0x40) % 0x40, 0x80 + v % 0x40]
  else [0xF0 + v / 0x40000, 0x80 + (v / 0x1000) % 0x40, 0x80 + (v / 0x40) % 0x40,
        0x80 + v % 0x40]

/-- The conversion `[]byte(s)`. -/
def stringBytes (s : String) : Bytes :=
  s.data.flatMap utf8EncodeChar

/-! ## `fmt` verbs for integers -/

/-- The decimal digit character of a number below ten. -/
def digitChar (d : Nat) : Char :=
  Char.ofNat (48 + d % 10)

/-- Decimal digits of `n`, most significant first, in front of `acc`. The fuel
bounds the number of digits. -/
def natDigits : Nat → Nat → List Char → List Char
  | 0, n, acc => digitChar n :: acc
  | fuel + 1, n, acc =>
    if n < 10 then digitChar n :: acc
    else natDigits fuel (n / 10) (digitChar n :: acc)

/-- Decimal rendering of a natural number (`strconv.FormatUint(n, 10)`). -/
def formatNat (n : Nat) : String :=
  ⟨natDigits n n []⟩

/-- Decimal rendering of an integer: what `%d` and `%v` print for an `int64`. -/
def formatInt (n : Int) : String :=
  if n < 0 then "-" ++ formatNat n.natAbs else formatNat n.natAbs

/-- The number written by a list of decimal digits. -/
def digitsValue (ds : List Char) : Nat :=
  ds.foldl (fun n c => n * 10 + (c.val.toNat - 48)) 0

/-- The integer a decimal numeral denotes: an optional minus sign, then one or
more decimal digits; `none` for any other text. -/
def decimalInt? (s : String) : Option Int :=
  match s.data with
  | '-' :: ds => if ds ≠ [] ∧ ds.all Char.isDigit = true then some (-(digitsValue ds : Int)) else none
  | ds => if ds ≠ [] ∧ ds.all Char.isDigit = true then some (digitsValue ds : Int) else none

/-! ## SHA-256 (`crypto/sha256`) -/

/-- Addition of 32-bit words. -/
def add32 (a b : Nat) : Nat := (a + b) % 2 ^ 32

/-- Rotation of a 32-bit word to the right by `n` bits (`bits.RotateLeft32(x, -n)`). -/
def rotr32 (x n : Nat) : Nat :=
  ((x >>> n) ||| (x <<< (32 - n))) % 2 ^ 32

/-- Bitwise complement of a 32-bit word. -/
def not32 (x : Nat) : Nat := (2 ^ 32 - 1) ^^^ (x % 2 ^ 32)

/-- The 64 round constants of SHA-256 (FIPS 180-4, section 4.2.2): the first 32
bits of the fractional parts of the cube roots of the first 64 primes. -/
def sha256K : List Nat :=
  [
   1116352408, 1899447441, 3049323471, 3921009573, 961987163, 1508970993,
   2453635748, 2870763221, 3624381080, 310598401, 607225278, 1426881987,
   1925078388, 2162078206, 2614888103, 3248222580, 3835390401, 4022224774,
   264347078, 604807628, 770255983, 1249150122, 1555081692, 1996064986,
   2554220882, 2821834349, 2952996808, 3210313671, 3336571891, 3584528711,
   113926993, 338241895, 666307205, 773529912, 1294757372, 1396182291,
   1695183700, 1986661051, 2177026350, 2456956037, 2730485921, 2820302411,
   3259730800, 3345764771, 3516065817, 3600352804, 4094571909, 275423344,
   430227734, 506948616, 659060556, 883997877, 958139571, 1322822218,
   1537002063, 1747873779, 1955562222, 2024104815, 2227730452, 2361852424,
   2428436474, 2756734187, 3204031479, 3329325298
  ]

/-- The eight chaining words of SHA-256. -/
structure Sha256State where
  a : Nat
  b : Nat
  c : Nat
  d : Nat
  e : Nat
  f : Nat
  g : Nat
  h : Nat
  deriving DecidableEq, Repr

/-- The initial chaining value (FIPS 180-4, section 5.3.3). -/
def sha256Init : Sha256State :=
  { a := 1779033703, b := 3144134277, c := 1013904242, d := 2773480762,
    e := 1359893119, f := 2600822924, g := 528734635, h := 1541459225 }

/-- Big-endian 32-bit words of a block of bytes (four bytes per word). -/
def beWords : Bytes → List Nat
  | b0 :: b1 :: b2 :: b3 :: rest =>
    (b0 % 256 * 2 ^ 24 + b1 % 256 * 2 ^ 16 + b2 % 256 * 2 ^ 8 + b3 % 256) :: beWords rest
  | _ => []

/-- Extends the message schedule: `rev` holds the words computed so far, newest
first; `n` more words are added. -/
def scheduleExtend : Nat → List Nat → List Nat
  | 0, rev => rev
  | n + 1, rev =>
    let v1 := rev.getD 1 0
    let t1 := (rotr32 v1 17) ^^^ (rotr32 v1 19) ^^^ (v1 >>> 10)
    let v2 := rev.getD 14 0
    let t2 := (rotr32 v2 7) ^^^ (rotr32 v2 18) ^^^ (v2 >>> 3)
    let w := add32 (add32 (add32 t1 (rev.getD 6 0)) t2) (rev.getD 15 0)
    scheduleExtend n (w :: rev)

/-- The 64 schedule words of one 64-byte block. -/
def schedule (block : Bytes) : List Nat :=
  (scheduleExtend 48 (beWords block).reverse).reverse

/-- One round of the compression function. -/
def sha256Round (s : Sha256State) (kw : Nat × Nat) : Sha256State :=
  let t1 := add32 (add32 (add32 (add32 s.h
      ((rotr32 s.e 6) ^^^ (rotr32 s.e 11) ^^^ (rotr32 s.e 25)))
      ((s.e &&& s.f) ^^^ (not32 s.e &&& s.g))) kw.1) kw.2
  let t2 := add32 ((rotr32 s.a 2) ^^^ (rotr32 s.a 13) ^^^ (rotr32 s.a 22))
      ((s.a &&& s.b) ^^^ (s.a &&& s.c) ^^^ (s.b &&& s.c))
  ⟨add32 t1 t2, s.a, s.b, s.c, add32 s.d t1, s.e, s.f, s.g⟩

/-- The compression function on one 64-byte block. -/
def sha256Block (s : Sha256State) (block : Bytes) : Sha256State :=
  let r := (sha256K.zip (schedule block)).foldl sha256Round s
  ⟨add32 s.a r.a, add32 s.b r.b, add32 s.c r.c, add32 s.d r.d,
   add32 s.e r.e, add32 s.f r.f, add32 s.g r.g, add32 s.h r.h⟩

/-- Runs the compression function over consecutive 64-byte blocks. -/
def sha256Blocks : Nat → Sha256State → Bytes → Sha256State
  | 0, s, _ => s
  | fuel + 1, s, data =>
    if data.length < 64 then s
    else sha256Blocks fuel (sha256Block s (data.take 64)) (data.drop 64)

/-- Big-endian bytes of a number, `n` bytes wide. -/
def beBytes : Nat → Nat → Bytes
  | 0, _ => []
  | n + 1, x => (x / 256 ^ n) % 256 :: beBytes n x

/-- The padding appended to a message of `len` bytes: `0x80`, zeros up to 56
modulo 64, then the bit length as a 64-bit big-endian number. -/
def sha256Padding (len : Nat) : Bytes :=
  0x80 :: List.replicate ((119 - len % 64) % 64) 0 ++ beBytes 8 ((len * 8) % 2 ^ 64)

/-- The 32-byte digest of a chaining value. -/
def Sha256State.digest (s : Sha256State) : Bytes :=
  beBytes 4 s.a ++ beBytes 4 s.b ++ beBytes 4 s.c ++ beBytes 4 s.d ++
  beBytes 4 s.e ++ beBytes 4 s.f ++ beBytes 4 s.g ++ beBytes 4 s.h

/-- The digest `sha256.Sum256(msg)`. -/
def sha256 (msg : Bytes) : Bytes :=
  let padded := msg ++ sha256Padding msg.length
  (sha256Blocks (padded.length / 64) sha256Init padded).digest

/-! ## HMAC (`crypto/hmac`) over SHA-256 -/

/-- A running SHA-256 hash (`hash.Hash`), given by the bytes written to it so far. -/
structure Sha256Hash where
  written : Bytes
  deriving DecidableEq, Repr

/-- The constructor `sha256.New()`: nothing written yet. -/
def Sha256Hash.new : Sha256Hash := ⟨[]⟩

/-- The method `Write(p)`: appends to the running hash. -/
def Sha256Hash.Write (h : Sha256Hash) (p : Bytes) : Sha256Hash := ⟨h.written ++ p⟩

/-- The method `Sum(b)`: appends the digest of what was written to `b`. -/
def Sha256Hash.Sum (h : Sha256Hash) (b : Bytes) : Bytes := b ++ sha256 h.written

/-- The block size of SHA-256 in bytes. -/
def sha256BlockSize : Nat := 64

/-- The keyed hash object built by `hmac.New`. -/
structure HMAC where
  opad : Bytes
  ipad : Bytes
  outer : Sha256Hash
  inner : Sha256Hash
  deriving DecidableEq, Repr

/-- Copies `key` into a zeroed buffer of `n` bytes and xors every byte with `x`. -/
def xorPad (n : Nat) (key : Bytes) (x : Nat) : Bytes :=
  ((key ++ List.replicate (n - key.length) 0).take n).map fun b => b ^^^ x

/-- The constructor `hmac.New(sha256.New, key)`: a key longer than the block size
is hashed first; the padded key xor `0x36` is written to the inner hash. -/
def HMAC.new (key : Bytes) : HMAC :=
  let outer := Sha256Hash.new
  let inner := Sha256Hash.new
  let key := if key.length > sha256BlockSize then (outer.Write key).Sum [] else key
  let ipad := xorPad sha256BlockSize key 0x36
  let opad := xorPad sha256BlockSize key 0x5c
  { opad := opad, ipad := ipad, outer := outer, inner := inner.Write ipad }

/-- The method `Write(p)` of the keyed hash: the message goes to the inner hash. -/
def HMAC.Write (h : HMAC) (p : Bytes) : HMAC := { h with inner := h.inner.Write p }

/-- The method `Sum(in)` of the keyed hash: the inner digest is hashed again
behind the outer pad, and the result is appended to `in`. -/
def HMAC.Sum (h : HMAC) (b : Bytes) : Bytes :=
  let innerSum := h.inner.Sum []
  let outer := (Sha256Hash.new.Write h.opad).Write innerSum
  outer.Sum b

/-- HMAC-SHA256 of a message under a key, as RFC 2104 defines it:
`H((K' xor opad) ++ H((K' xor ipad) ++ message))`, where `K'` is the key, hashed
first when longer than one block, and filled with zeros to one block. -/
def hmacSha256 (key message : Bytes) : Bytes :=
  let k := if 64 < key.length then sha256 key else key
  let k' := k ++ List.replicate (64 - k.length) 0
  sha256 (k'.map (fun b => b ^^^ 0x5c) ++ sha256 (k'.map (fun b => b ^^^ 0x36) ++ message))

/-! ## Base64 (`encoding/base64`, `StdEncoding`) -/

/-- The standard base64 alphabet. -/
def base64Alphabet : List Char :=
  "ABCDEFGHIJKLMNOPQRSTUVWXYZabcdefghijklmnopqrstuvwxyz0123456789+/".data

/-- The character of a 6-bit value. -/
def base64Char (v : Nat) : Char := base64Alphabet.getD (v % 64) 'A'

/-- Standard base64 with `=` padding, on bytes. -/
def base64EncodeChars : Bytes → List Char
  | [] => []
  | [a] => [base64Char (a / 4), base64Char (a % 4 * 16), '=', '=']
  | [a, b] => [base64Char (a / 4), base64Char (a % 4 * 16 + b / 16), base64Char (b % 16 * 4), '=']
  | a :: b :: c :: rest =>
    base64Char (a / 4) :: base64Char (a % 4 * 16 + b / 16) ::
      base64Char (b % 16 * 4 + c / 64) :: base64Char c :: base64EncodeChars rest

/-- The function `base64.StdEncoding.EncodeToString`. -/
def base64StdEncodeToString (src : Bytes) : String := ⟨base64EncodeChars src⟩

/-! ## JSON values (`encoding/json`) -/

/-- A value as `encoding/json` sees it. An object keeps its members in the
order they are written. The same type stands for a Go value decoded into
`interface{}`: `null` is `nil`, a number is a `float64` (given by its exact
value), an array is `[]interface{}` and an object is `map[string]interface{}`.
On the way out it is the tree `json.Marshal` walks, and there a Go value can
be one that `json.Marshal` rejects. -/
inductive JVal where
  | null
  | bool (b : Bool)
  | number (x : ℚ)
  | str (s : String)
  | arr (items : List JVal)
  | obj (members : List (String × JVal))
  /-- A Go value that `json.Marshal` rejects with an error: a channel, a
  function, a complex number, a `NaN` or an infinity. It has no JSON text, and
  no JSON text decodes to it. -/
  | unsupported
  deriving Repr, Inhabited

/-- The keys of a list of members, in order. -/
def memberKeys (members : List (String × JVal)) : List String :=
  members.map Prod.fst

/-- The value a list of members gives a key: the last member of that name, as
in a Go map filled member by member. -/
def memberLookup (members : List (String × JVal)) (key : String) : Option JVal :=
  (members.reverse.find? fun kv => kv.1 == key).map Prod.snd

/-- The keys of a JSON object (no keys for any other value). -/
def JVal.keys : JVal → List String
  | .obj members => memberKeys members
  | _ => []

/-- The member of a JSON object under a key. -/
def JVal.get? : JVal → String → Option JVal
  | .obj members, key => memberLookup members key
  | _, _ => none

/-- The Go map index expression `m[key]` on a decoded `map[string]interface{}`:
the zero value `nil` when the key is absent. -/
def mapIndex (m : List (String × JVal)) (key : String) : JVal :=
  (memberLookup m key).getD .null

/-! ### Numbers: `strconv.ParseFloat(s, 64)` -/

/-- Division of naturals rounded to the nearest integer, ties to even. -/
def divRoundHalfEven (n d : Nat) : Nat :=
  let q := n / d
  let r := n % d
  if 2 * r < d then q
  else if d < 2 * r then q + 1
  else if q % 2 = 0 then q else q + 1

/-- The position of the highest set bit of `n` (zero for `n < 2`), by halving;
the fuel bounds the number of halvings. -/
def log2Fuel : Nat → Nat → Nat
  | 0, _ => 0
  | fuel + 1, n => if 2 ≤ n then log2Fuel fuel (n / 2) + 1 else 0

/-- The `float64` nearest to a rational (IEEE 754 round to nearest, ties to
even), given by its exact value; `none` when the result is out of range. -/
def roundFloat64 (x : ℚ) : Option ℚ :=
  let n := x.num.natAbs
  let d := x.den
  if n = 0 then some 0
  else
    -- the binary exponent `e` of `n / d`: `2^e ≤ n / d < 2^(e+1)`
    let k : Int := (log2Fuel n n : Int) - (log2Fuel d d : Int)
    let below : Bool := if 0 ≤ k then decide (n < d * 2 ^ k.toNat) else decide (n * 2 ^ (-k).toNat < d)
    let e : Int := if below then k - 1 else k
    -- the exponent of the unit in the last place; subnormals share `-1074`
    let u : Int := max e (-1022) - 52
    let m : Nat := if 0 ≤ u then divRoundHalfEven n (d * 2 ^ u.toNat)
                   else divRoundHalfEven (n * 2 ^ (-u).toNat) d
    let sign : Int := if x.num < 0 then -1 else 1
    if 0 ≤ u then
      if 2 ^ 1024 ≤ m * 2 ^ u.toNat then none
      else some (mkRat (sign * (m * 2 ^ u.toNat : Nat)) 1)
    else some (mkRat (sign * (m : Int)) (2 ^ (-u).toNat))

/-- The binary exponent of `n / d` as `roundFloat64` finds it: the `e` with
`2^e ≤ n / d < 2^(e+1)`. -/
def binaryExponent (n d : Nat) : Int :=
  let k : Int := (log2Fuel n n : Int) - (log2Fuel d d : Int)
  let below : Bool := if 0 ≤ k then decide (n < d * 2 ^ k.toNat) else decide (n * 2 ^ (-k).toNat < d)
  if below then k - 1 else k

/-- The quotient `n / d` in units of `2^u`, rounded as `roundFloat64` rounds it. -/
def roundedMantissa (n d : Nat) (u : Int) : Nat :=
  if 0 ≤ u then divRoundHalfEven n (d * 2 ^ u.toNat) else divRoundHalfEven (n * 2 ^ (-u).toNat) d

/-- Whether a rational number is the value of a finite `float64`: zero, or of
magnitude `m * 2^u` with either a full 53-bit `m` and `-1074 ≤ u ≤ 971` (a
normal number) or a shorter `m` and `u = -1074` (a subnormal number). -/
def IsFloat64 (y : ℚ) : Prop :=
  y = 0 ∨ ∃ (m : ℕ) (u : ℤ),
    ((2 ^ 52 ≤ m ∧ m < 2 ^ 53 ∧ -1074 ≤ u ∧ u ≤ 971) ∨ (1 ≤ m ∧ m < 2 ^ 52 ∧ u = -1074)) ∧
    |y| = m * 2 ^ u

/-! ### Reading JSON text -/

/-- JSON white space. -/
def isJsonSpace (c : Char) : Bool :=
  c == ' ' || c == '\t' || c == '\r' || c == '\n'

/-- Drops leading white space. -/
def skipSpace : List Char → List Char
  | [] => []
  | c :: cs => if isJsonSpace c then skipSpace cs else c :: cs

/-- The value of a hexadecimal digit. -/
def hexDigit? (c : Char) : Option Nat :=
  let v := c.val.toNat
  if 48 ≤ v ∧ v ≤ 57 then some (v - 48)
  else if 97 ≤ v ∧ v ≤ 102 then some (v - 87)
  else if 65 ≤ v ∧ v ≤ 70 then some (v - 55)
  else none

/-- The number written by four hexadecimal digits. -/
def hex4? (a b c d : Char) : Option Nat :=
  match hexDigit? a, hexDigit? b, hexDigit? c, hexDigit? d with
  | some x, some y, some z, some w => some (((x * 16 + y) * 16 + z) * 16 + w)
  | _, _, _, _ => none

/-- The replacement character U+FFFD. -/
def replacementChar : Char := Char.ofNat 0xFFFD

/-- Reads the rest of a string literal, after its opening quote: the decoded
text (in reverse in `acc`) and what follows the closing quote. A `\u` escape
of a high surrogate joins a following low surrogate; a surrogate alone reads
as U+FFFD. The fuel bounds the number of characters read. -/
def parseStringBody : Nat → List Char → List Char → Option (String × List Char)
  | 0, _, _ => none
  | _ + 1, [], _ => none
  | _ + 1, '"' :: rest, acc => some (⟨acc.reverse⟩, rest)
  | fuel + 1, '\\' :: 'u' :: a :: b :: c :: d :: rest, acc =>
    match hex4? a b c d with
    | none => none
    | some v =>
      if 0xD800 ≤ v ∧ v < 0xDC00 then
        match rest with
        | '\\' :: 'u' :: a2 :: b2 :: c2 :: d2 :: rest2 =>
          match hex4? a2 b2 c2 d2 with
          | none => none
          | some lo =>
            if 0xDC00 ≤ lo ∧ lo < 0xE000 then
              parseStringBody fuel rest2
                (Char.ofNat (0x10000 + (v - 0xD800) * 0x400 + (lo - 0xDC00)) :: acc)
            else parseStringBody fuel rest (replacementChar :: acc)
        | _ => parseStringBody fuel rest (replacementChar :: acc)
      else if 0xDC00 ≤ v ∧ v < 0xE000 then parseStringBody fuel rest (replacementChar :: acc)
      else parseStringBody fuel rest (Char.ofNat v :: acc)
  | fuel + 1, '\\' :: e :: rest, acc =>
    if e = '"' then parseStringBody fuel rest ('"' :: acc)
    else if e = '\\' then parseStringBody fuel rest ('\\' :: acc)
    else if e = '/' then parseStringBody fuel rest ('/' :: acc)
    else if e = 'b' then parseStringBody fuel rest (Char.ofNat 8 :: acc)
    else if e = 'f' then parseStringBody fuel rest (Char.ofNat 12 :: acc)
    else if e = 'n' then parseStringBody fuel rest ('\n' :: acc)
    else if e = 'r' then parseStringBody fuel rest ('\r' :: acc)
    else if e = 't' then parseStringBody fuel rest ('\t' :: acc)
    else none
  | fuel + 1, c :: rest, acc =>
    if c.val.toNat < 0x20 ∨ c = '\\' then none else parseStringBody fuel rest (c :: acc)

/-- Reads a string literal after its opening quote. -/
def parseString (cs : List Char) : Option (String × List Char) :=
  parseStringBody cs.length cs []

/-- Reads the fraction of a number literal, if there is one: a point and one or
more digits. Gives the digits and what follows them. -/
def parseFraction (cs : List Char) : Option (List Char × List Char) :=
  if cs.head? = some '.' then
    let digits := cs.tail.takeWhile Char.isDigit
    if digits = [] then none else some (digits, cs.tail.dropWhile Char.isDigit)
  else some ([], cs)

/-- Reads the exponent of a number literal, if there is one: `e` or `E`, an
optional sign and one or more digits. Gives the exponent (zero when there is
none) and what follows it. -/
def parseExponent (cs : List Char) : Option (Int × List Char) :=
  if cs.head? = some 'e' ∨ cs.head? = some 'E' then
    let signed := cs.tail.head? = some '-' ∨ cs.tail.head? = some '+'
    let body := if signed then cs.tail.tail else cs.tail
    let digits := body.takeWhile Char.isDigit
    if digits = [] then none
    else
      let magnitude : Int := digitsValue digits
      some (if cs.tail.head? = some '-' then -magnitude else magnitude,
        body.dropWhile Char.isDigit)
  else some (0, cs)

/-- Reads a number literal
`-? (0 | [1-9][0-9]*) (. [0-9]+)? ([eE] [+-]? [0-9]+)?`: its exact value and
what follows it. -/
def parseNumber (cs : List Char) : Option (ℚ × List Char) :=
  let negative := cs.head? = some '-'
  let unsigned := if negative then cs.tail else cs
  let whole := unsigned.takeWhile Char.isDigit
  if whole = [] ∨ (whole.head? = some '0' ∧ whole.length ≠ 1) then none
  else
    match parseFraction (unsigned.dropWhile Char.isDigit) with
    | none => none
    | some (fraction, afterFraction) =>
      match parseExponent afterFraction with
      | none => none
      | some (exponent, afterExponent) =>
        let mantissa : Nat := digitsValue (whole ++ fraction)
        let e10 : Int := exponent - fraction.length
        let magnitude : ℚ :=
          if 0 ≤ e10 then ((mantissa * 10 ^ e10.toNat : Nat) : ℚ)
          else mkRat mantissa (10 ^ (-e10).toNat)
        some (if negative then -magnitude else magnitude, afterExponent)

/-- The deepest nesting of arrays and objects the decoder accepts. -/
def maxNestingDepth : Nat := 10000

mutual

/-- Reads one JSON value, with leading white space. `depth` counts the
enclosing arrays and objects. -/
def parseValue : Nat → Nat → List Char → Option (JVal × List Char)
  | 0, _, _ => none
  | fuel + 1, depth, cs =>
    match skipSpace cs with
    | [] => none
    | '{' :: rest =>
      if maxNestingDepth ≤ depth then none
      else match skipSpace rest with
        | '}' :: rest' => some (.obj [], rest')
        | rest' => (parseMembers fuel (depth + 1) rest' []).map fun r => (.obj r.1, r.2)
    | '[' :: rest =>
      if maxNestingDepth ≤ depth then none
      else match skipSpace rest with
        | ']' :: rest' => some (.arr [], rest')
        | rest' => (parseElements fuel (depth + 1) rest' []).map fun r => (.arr r.1, r.2)
    | '"' :: rest => (parseString rest).map fun r => (.str r.1, r.2)
    | 't' :: 'r' :: 'u' :: 'e' :: rest => some (.bool true, rest)
    | 'f' :: 'a' :: 'l' :: 's' :: 'e' :: rest => some (.bool false, rest)
    | 'n' :: 'u' :: 'l' :: 'l' :: rest => some (.null, rest)
    | c :: rest => (parseNumber (c :: rest)).map fun r => (.number r.1, r.2)

/-- Reads the elements of an array up to its closing bracket; `acc` holds the
elements read so far, newest first. -/
def parseElements : Nat → Nat → List Char → List JVal → Option (List JVal × List Char)
  | 0, _, _, _ => none
  | fuel + 1, depth, cs, acc =>
    match parseValue fuel depth cs with
    | none => none
    | some (v, rest) =>
      match skipSpace rest with
      | ',' :: rest' => parseElements fuel depth rest' (v :: acc)
      | ']' :: rest' => some ((v :: acc).reverse, rest')
      | _ => none

/-- Reads the members of an object up to its closing brace; `acc` holds the
members read so far, newest first. -/
def parseMembers : Nat → Nat → List Char → List (String × JVal) →
    Option (List (String × JVal) × List Char)
  | 0, _, _, _ => none
  | fuel + 1, depth, cs, acc =>
    match skipSpace cs with
    | '"' :: rest =>
      match parseString rest with
      | none => none
      | some (key, rest1) =>
        match skipSpace rest1 with
        | ':' :: rest2 =>
          match parseValue fuel depth rest2 with
          | none => none
          | some (v, rest3) =>
            match skipSpace rest3 with
            | ',' :: rest4 => parseMembers fuel depth rest4 ((key, v) :: acc)
            | '}' :: rest4 => some (((key, v) :: acc).reverse, rest4)
            | _ => none
        | _ => none
    | _ => none

end

/-- Reads a whole JSON text: one value, white space allowed around it and
nothing else. `none` when the text is not well-formed JSON. -/
def jsonParse (text : String) : Option JVal :=
  match parseValue (2 * text.data.length + 2) 0 text.data with
  | none => none
  | some (v, rest) => if skipSpace rest = [] then some v else none

/-- The two kinds of error `json.Unmarshal` returns. -/
inductive JsonError where
  /-- The error `*json.SyntaxError`: the text is not well-formed JSON. -/
  | syntaxError
  /-- The error `*json.UnmarshalTypeError`: a value does not fit the Go type it is decoded
  into (an array, string, number or boolean for a map; a number out of the
  range of `float64`). -/
  | unmarshalTypeError
  deriving DecidableEq, Repr

mutual

/-- Whether every number of a value fits a `float64`; a number out of range
makes `json.Unmarshal` fail. -/
def JVal.float64? : JVal → Option JVal
  | .null => some .null
  | .bool b => some (.bool b)
  | .number x => (roundFloat64 x).map .number
  | .str s => some (.str s)
  | .arr items => (float64List? items).map .arr
  | .obj members => (float64Members? members).map .obj
  | .unsupported => none

/-- The elements of an array decoded in turn. -/
def float64List? : List JVal → Option (List JVal)
  | [] => some []
  | v :: vs =>
    match JVal.float64? v, float64List? vs with
    | some v', some vs' => some (v' :: vs')
    | _, _ => none

/-- The members of an object decoded in turn. -/
def float64Members? : List (String × JVal) → Option (List (String × JVal))
  | [] => some []
  | (k, v) :: ms =>
    match JVal.float64? v, float64Members? ms with
    | some v', some ms' => some ((k, v') :: ms')
    | _, _ => none

end

/-- The call `json.Unmarshal(data, &result)` for `var result map[string]interface{}`:
the members of the decoded map. The text must be well-formed; an object fills
the map, `null` leaves the map `nil` (no members, no error), any other value is
a type error. -/
def jsonUnmarshalMap (data : String) : Except JsonError (List (String × JVal)) :=
  match jsonParse data with
  | none => .error .syntaxError
  | some .null => .ok []
  | some (.obj members) =>
    match float64Members? members with
    | some m => .ok m
    | none => .error .unmarshalTypeError
  | some (.arr _) => .error .unmarshalTypeError
  | some (.str _) => .error .unmarshalTypeError
  | some (.number _) => .error .unmarshalTypeError
  | some (.bool _) => .error .unmarshalTypeError
  | some .unsupported => .error .unmarshalTypeError

mutual

/-- Whether a value is one a decoder can hold: every number in it is the value
of a `float64`, and nothing in it is a Go value that `json.Marshal` rejects. -/
def JVal.float64Valued : JVal → Prop
  | .number x => IsFloat64 x
  | .arr items => float64ValuedList items
  | .obj members => float64ValuedMembers members
  | .unsupported => False
  | _ => True

/-- Whether every element is a value a decoder can hold. -/
def float64ValuedList : List JVal → Prop
  | [] => True
  | v :: vs => v.float64Valued ∧ float64ValuedList vs

/-- Whether every member is a value a decoder can hold. -/
def float64ValuedMembers : List (String × JVal) → Prop
  | [] => True
  | (_, v) :: ms => v.float64Valued ∧ float64ValuedMembers ms

end

/-! ### Writing JSON text: `json.Marshal` -/

/-- A hexadecimal digit as the encoder writes it, in lower case. -/
def hexChar (n : Nat) : Char :=
  if n < 10 then Char.ofNat (48 + n) else Char.ofNat (87 + n)

/-- How the encoder writes one character of a string, with the escaping of
HTML characters that `json.Marshal` has on: the quote and the backslash after
a backslash, the five short escapes (Go 1.22 and later; before that `\b` and
`\f` were written `\u0008` and `\u000c`, which read back the same), the other
control characters and the characters `<`, `>` and `&` as `\u00XX`, the line
and paragraph separators as `\u2028` and `\u2029`, and any other character as
it is. -/
def quoteChar (c : Char) : List Char :=
  if c = '"' then ['\\', '"']
  else if c = '\\' then ['\\', '\\']
  else if c = Char.ofNat 8 then ['\\', 'b']
  else if c = Char.ofNat 12 then ['\\', 'f']
  else if c = '\n' then ['\\', 'n']
  else if c = '\r' then ['\\', 'r']
  else if c = '\t' then ['\\', 't']
  else if c.val.toNat < 0x20 ∨ c = '<' ∨ c = '>' ∨ c = '&' then
    ['\\', 'u', '0', '0', hexChar (c.val.toNat / 16), hexChar (c.val.toNat % 16)]
  else if c = Char.ofNat 0x2028 then ['\\', 'u', '2', '0', '2', '8']
  else if c = Char.ofNat 0x2029 then ['\\', 'u', '2', '0', '2', '9']
  else [c]

/-- The characters of a string as they are written between the quotes. -/
def quoteChars : List Char → List Char
  | [] => []
  | c :: cs => quoteChar c ++ quoteChars cs

/-- The string literal written for a string. -/
def quoteString (s : String) : List Char :=
  '"' :: quoteChars s.data ++ ['"']

/-- Whether a byte is a UTF-8 continuation byte. -/
def isContinuation (b : Nat) : Bool := decide (0x80 ≤ b ∧ b ≤ 0xBF)

/-- The function `utf8.DecodeRune` of Go: the first character of a byte string
and the number of bytes it takes; the pair (U+FFFD, 1) when the bytes do not
start with a well-formed encoding (an overlong form, a surrogate, a value
above U+10FFFF, a stray or a missing continuation byte). -/
def decodeRune : Bytes → Nat × Nat
  | [] => (0xFFFD, 0)
  | b0 :: rest =>
    if b0 < 0x80 then (b0, 1)
    else if 0xC2 ≤ b0 ∧ b0 ≤ 0xDF then
      match rest with
      | b1 :: _ =>
        if isContinuation b1 then ((b0 % 0x20) * 0x40 + b1 % 0x40, 2) else (0xFFFD, 1)
      | _ => (0xFFFD, 1)
    else if 0xE0 ≤ b0 ∧ b0 ≤ 0xEF then
      match rest with
      | b1 :: b2 :: _ =>
        if (if b0 = 0xE0 then 0xA0 else 0x80) ≤ b1 ∧ b1 ≤ (if b0 = 0xED then 0x9F else 0xBF) ∧
            isContinuation b2 then
          (((b0 % 0x10) * 0x40 + b1 % 0x40) * 0x40 + b2 % 0x40, 3)
        else (0xFFFD, 1)
      | _ => (0xFFFD, 1)
    else if 0xF0 ≤ b0 ∧ b0 ≤ 0xF4 then
      match rest with
      | b1 :: b2 :: b3 :: _ =>
        if (if b0 = 0xF0 then 0x90 else 0x80) ≤ b1 ∧ b1 ≤ (if b0 = 0xF4 then 0x8F else 0xBF) ∧
            isContinuation b2 ∧ isContinuation b3 then
          ((((b0 % 0x08) * 0x40 + b1 % 0x40) * 0x40 + b2 % 0x40) * 0x40 + b3 % 0x40, 4)
        else (0xFFFD, 1)
      | _ => (0xFFFD, 1)
    else (0xFFFD, 1)

/-- How the encoder writes the bytes of a Go string between the quotes. A Go
string is any byte string: the encoder reads it character by character with
`utf8.DecodeRune` and writes the escape `\ufffd` for every byte that starts no
well-formed encoding. The fuel bounds the number of characters. -/
def quoteBytes : Nat → Bytes → List Char
  | 0, _ => []
  | _ + 1, [] => []
  | fuel + 1, b :: bs =>
    if b < 0x80 then quoteChar (Char.ofNat b) ++ quoteBytes fuel bs
    else if decodeRune (b :: bs) = (0xFFFD, 1) then
      ['\\', 'u', 'f', 'f', 'f', 'd'] ++ quoteBytes fuel bs
    else
      quoteChar (Char.ofNat (decodeRune (b :: bs)).1) ++
        quoteBytes fuel ((b :: bs).drop (decodeRune (b :: bs)).2)

/-- The string literal `json.Marshal` writes for a Go string given by its
bytes. The `String` fields of this development stand for the Go strings that
are well-formed UTF-8; for those this is `quoteString` of the text. -/
def quoteGoString (bytes : Bytes) : List Char :=
  '"' :: quoteBytes bytes.length bytes ++ ['"']

/-- The least number of decimal places, counted from `k`, in which a fraction
of denominator `d` can be written; `none` when the fuel runs out. -/
def decimalPlaces? (d : Nat) : Nat → Nat → Option Nat
  | 0, _ => none
  | fuel + 1, k => if 10 ^ k % d = 0 then some k else decimalPlaces? d fuel (k + 1)

/-- The `k` decimal digits of `r`, zeros in front included. -/
def fractionDigits : Nat → Nat → List Char
  | 0, _ => []
  | k + 1, r => digitChar (r / 10 ^ k) :: fractionDigits k (r % 10 ^ k)

/-- Digits for a number: an integer in decimal, any other decimal fraction
with a point and all its decimal places; `none` for a rational without a
finite decimal expansion, which is the value of no Go number. `json.Marshal`
spells a `float64` with the shortest digits that read back to it, and with an
exponent below `1e-6` and from `1e21` on; the spellings name the same value,
and nothing below depends on the spelling of a number. -/
def renderNumber? (x : ℚ) : Option (List Char) :=
  (decimalPlaces? x.den (x.den + 1) 0).map fun k =>
    if k = 0 then (formatInt x.num).data
    else
      (if x.num < 0 then ['-'] else []) ++
        (formatNat (x.num.natAbs * (10 ^ k / x.den) / 10 ^ k)).data ++
        '.' :: fractionDigits k (x.num.natAbs * (10 ^ k / x.den) % 10 ^ k)

mutual

/-- The compact JSON text of a value, members in the order given; `none` when
the value holds something `json.Marshal` rejects. -/
def JVal.render? : JVal → Option (List Char)
  | .null => some ['n', 'u', 'l', 'l']
  | .bool true => some ['t', 'r', 'u', 'e']
  | .bool false => some ['f', 'a', 'l', 's', 'e']
  | .number x => renderNumber? x
  | .str s => some (quoteString s)
  | .arr [] => some ['[', ']']
  | .arr (v :: vs) =>
    match v.render?, renderMore? vs with
    | some a, some b => some ('[' :: a ++ b ++ [']'])
    | _, _ => none
  | .obj [] => some ['{', '}']
  | .obj ((k, v) :: ms) =>
    match v.render?, renderMoreMembers? ms with
    | some a, some b => some ('{' :: quoteString k ++ ':' :: a ++ b ++ ['}'])
    | _, _ => none
  | .unsupported => none

/-- The elements after the first, each after a comma. -/
def renderMore? : List JVal → Option (List Char)
  | [] => some []
  | v :: vs =>
    match v.render?, renderMore? vs with
    | some a, some b => some (',' :: a ++ b)
    | _, _ => none

/-- The members after the first, each after a comma. -/
def renderMoreMembers? : List (String × JVal) → Option (List Char)
  | [] => some []
  | (k, v) :: ms =>
    match v.render?, renderMoreMembers? ms with
    | some a, some b => some (',' :: quoteString k ++ ':' :: a ++ b)
    | _, _ => none

end

/-- The call `json.Marshal(v)`: the text written, or `none` when it returns an
error (`*json.UnsupportedTypeError`, `*json.UnsupportedValueError`). -/
def jsonMarshal (v : JVal) : Option String :=
  (v.render?).map String.mk

mutual

/-- How deep arrays and objects are nested in a value. -/
def JVal.nesting : JVal → Nat
  | .arr items => nestingList items + 1
  | .obj members => nestingMembers members + 1
  | _ => 0

/-- The deepest nesting among the elements. -/
def nestingList : List JVal → Nat
  | [] => 0
  | v :: vs => max v.nesting (nestingList vs)

/-- The deepest nesting among the members. -/
def nestingMembers : List (String × JVal) → Nat
  | [] => 0
  | (_, v) :: ms => max v.nesting (nestingMembers ms)

end

/-! ## message.go -/

/-- A Go slice; `none` is the `nil` slice, which `json.Marshal` writes as `null`. -/
abbrev Slice (α : Type) := Option (List α)

/-- The string type `MessageType`. -/
abbrev MessageType := String

/-- The constant `MessageTypeText`. -/
def MessageTypeText : MessageType := "text"
/-- The constant `MessageTypeRichText`. -/
def MessageTypeRichText : MessageType := "post"
/-- The constant `MessageTypeInteractive`. -/
def MessageTypeInteractive : MessageType := "interactive"
/-- The constant `MessageTypeShareChat`. -/
def MessageTypeShareChat : MessageType := "share_chat"
/-- The constant `MessageTypeImage`. -/
def MessageTypeImage : MessageType := "image"

/-- The struct `TextContent`. -/
structure TextContent where
  Text : String
  deriving DecidableEq, Repr

/-- The struct `RichTextElement`. -/
structure RichTextElement where
  Tag : String
  Text : String := ""
  Href : String := ""
  UserId : String := ""
  UserName : String := ""
  ImageKey : String := ""
  deriving DecidableEq, Repr

/-- The struct `PostContent`. -/
structure PostContent where
  Title : String
  Content : Slice (Slice RichTextElement)
  deriving DecidableEq, Repr

/-- The struct `Post`; its fields are pointers, `none` is `nil`. -/
structure Post where
  ZhCn : Option PostContent := none
  EnUs : Option PostContent := none
  deriving DecidableEq, Repr

/-- The struct `RichTextContent`. -/
structure RichTextContent where
  Post : Option Post
  deriving DecidableEq, Repr

/-- The struct `CardConfig`. -/
structure CardConfig where
  EnableForward : Bool
  deriving DecidableEq, Repr

/-- The struct `CardHeaderTitle`. -/
structure CardHeaderTitle where
  Content : String
  Tag : String
  deriving DecidableEq, Repr

/-- The struct `CardHeader`. -/
structure CardHeader where
  Title : Option CardHeaderTitle
  Template : String
  deriving DecidableEq, Repr

/-- The struct `InteractiveContent`; an element is any Go value, given by the
value tree `json.Marshal` walks for it. -/
structure InteractiveContent where
  Config : Option CardConfig
  Elements : Slice JVal
  Header : Option CardHeader
  deriving Repr

/-- The struct `ImageContent`. -/
structure ImageContent where
  ImageKey : String
  deriving DecidableEq, Repr

/-- The struct `ShareChatContent`. -/
structure ShareChatContent where
  ShareChatId : String
  deriving DecidableEq, Repr

/-- What the field `Content interface{}` of a message holds: a pointer to one
of the five content structs, or any other Go value, given by the value tree
`json.Marshal` walks for it (`JVal.unsupported` where it meets something it
rejects). -/
inductive Content where
  | text (c : TextContent)
  | richText (c : RichTextContent)
  | interactive (c : InteractiveContent)
  | image (c : ImageContent)
  | shareChat (c : ShareChatContent)
  | other (json : JVal)
  deriving Repr

/-- The struct `Message`. -/
structure Message where
  MsgType : MessageType
  Content : Content
  deriving Repr

/-- The function `NewTextMessage`. -/
def NewTextMessage (text : String) : Message :=
  { MsgType := MessageTypeText, Content := .text { Text := text } }

/-- The function `NewRichTextMessage`. -/
def NewRichTextMessage (title : String) (content : Slice (Slice RichTextElement)) : Message :=
  { MsgType := MessageTypeRichText,
    Content := .richText { Post := some { ZhCn := some { Title := title, Content := content } } } }

/-- The function `NewInteractiveMessage`. -/
def NewInteractiveMessage (config : Option CardConfig) (header : Option CardHeader)
    (elements : Slice JVal) : Message :=
  { MsgType := MessageTypeInteractive,
    Content := .interactive { Config := config, Header := header, Elements := elements } }

/-- The function `NewImageMessage`. -/
def NewImageMessage (imageKey : String) : Message :=
  { MsgType := MessageTypeImage, Content := .image { ImageKey := imageKey } }

/-- The function `NewShareChatMessage`. -/
def NewShareChatMessage (shareChatId : String) : Message :=
  { MsgType := MessageTypeShareChat, Content := .shareChat { ShareChatId := shareChatId } }

/-! ### `json.Marshal` of the message structs, following their field tags -/

/-- A string field tagged `omitempty`: no member when the string is empty. -/
def omitEmptyString (key : String) (s : String) : List (String × JVal) :=
  if s = "" then [] else [(key, .str s)]

/-- A pointer field tagged `omitempty`: no member when the pointer is `nil`. -/
def omitEmptyPtr (key : String) (v : Option JVal) : List (String × JVal) :=
  match v with
  | none => []
  | some j => [(key, j)]

/-- A pointer field without `omitempty`: `null` when the pointer is `nil`. -/
def ptrOrNull (v : Option JVal) : JVal := v.getD .null

/-- A slice field without `omitempty`: `null` for the `nil` slice, else an array. -/
def sliceOrNull (v : Slice JVal) : JVal :=
  match v with
  | none => .null
  | some items => .arr items

/-- The encoding of `TextContent`: `text` has no `omitempty`. -/
def TextContent.toJSON (c : TextContent) : JVal :=
  .obj [("text", .str c.Text)]

/-- The encoding of `RichTextElement`: `tag` is always written, the other five
fields are tagged `omitempty`. -/
def RichTextElement.toJSON (e : RichTextElement) : JVal :=
  .obj ([("tag", .str e.Tag)] ++ omitEmptyString "text" e.Text ++ omitEmptyString "href" e.Href ++
    omitEmptyString "user_id" e.UserId ++ omitEmptyString "user_name" e.UserName ++
    omitEmptyString "image_key" e.ImageKey)

/-- The encoding of one line of rich text (`[]RichTextElement`). -/
def lineToJSON (line : Slice RichTextElement) : JVal :=
  sliceOrNull (line.map fun es => es.map RichTextElement.toJSON)

/-- The encoding of `PostContent`: neither field has `omitempty`. -/
def PostContent.toJSON (p : PostContent) : JVal :=
  .obj [("title", .str p.Title),
        ("content", sliceOrNull (p.Content.map fun lines => lines.map lineToJSON))]

/-- The encoding of `Post`: both fields are tagged `omitempty`. -/
def Post.toJSON (p : Post) : JVal :=
  .obj (omitEmptyPtr "zh_cn" (p.ZhCn.map PostContent.toJSON) ++
    omitEmptyPtr "en_us" (p.EnUs.map PostContent.toJSON))

/-- The encoding of `RichTextContent`: `post` has no `omitempty`. -/
def RichTextContent.toJSON (c : RichTextContent) : JVal :=
  .obj [("post", ptrOrNull (c.Post.map Post.toJSON))]

/-- The encoding of `CardConfig`. -/
def CardConfig.toJSON (c : CardConfig) : JVal :=
  .obj [("enable_forward", .bool c.EnableForward)]

/-- The encoding of `CardHeaderTitle`: neither field has `omitempty`. -/
def CardHeaderTitle.toJSON (t : CardHeaderTitle) : JVal :=
  .obj [("content", .str t.Content), ("tag", .str t.Tag)]

/-- The encoding of `CardHeader`: `template` is tagged `omitempty`. -/
def CardHeader.toJSON (h : CardHeader) : JVal :=
  .obj ([("title", ptrOrNull (h.Title.map CardHeaderTitle.toJSON))] ++
    omitEmptyString "template" h.Template)

/-- The encoding of `InteractiveContent`, fields in declaration order: `config`
and `header` are tagged `omitempty`, `elements` is not. -/
def InteractiveContent.toJSON (c : InteractiveContent) : JVal :=
  .obj (omitEmptyPtr "config" (c.Config.map CardConfig.toJSON) ++
    [("elements", sliceOrNull c.Elements)] ++
    omitEmptyPtr "header" (c.Header.map CardHeader.toJSON))

/-- The encoding of `ImageContent`: `image_key` has no `omitempty`. -/
def ImageContent.toJSON (c : ImageContent) : JVal :=
  .obj [("image_key", .str c.ImageKey)]

/-- The encoding of `ShareChatContent`: `share_chat_id` has no `omitempty`. -/
def ShareChatContent.toJSON (c : ShareChatContent) : JVal :=
  .obj [("share_chat_id", .str c.ShareChatId)]

/-- The encoding of whatever a `Content interface{}` field holds. -/
def Content.toJSON : Content → JVal
  | .text c => c.toJSON
  | .richText c => c.toJSON
  | .interactive c => c.toJSON
  | .image c => c.toJSON
  | .shareChat c => c.toJSON
  | .other json => json

/-- The encoding of `Message`. -/
def Message.toJSON (m : Message) : JVal :=
  .obj [("msg_type", .str m.MsgType), ("content", m.Content.toJSON)]

/-! ## feishu.go -/

/-- An `error` value made outside this package (by the HTTP client or another
library), given by the text of its `Error()`. -/
structure LibError where
  text : String
  deriving DecidableEq, Repr

/-- The function `GenSign` of sign.go. -/
def GenSign (secret : String) (timestamp : Int) : Except LibError String :=
  let stringToSign := formatInt timestamp ++ "\n" ++ secret
  let h := HMAC.new (stringBytes stringToSign)
  let signature := base64StdEncodeToString (h.Sum [])
  .ok signature

/-- The struct `WebhookRequest`. -/
structure WebhookRequest where
  Timestamp : String := ""
  Sign : String := ""
  MsgType : String
  Content : Content
  deriving Repr

/-- The encoding of `WebhookRequest`, fields in declaration order: `timestamp`
and `sign` are tagged `omitempty`, `msg_type` and `content` are not. -/
def WebhookRequest.toJSON (r : WebhookRequest) : JVal :=
  .obj (omitEmptyString "timestamp" r.Timestamp ++ omitEmptyString "sign" r.Sign ++
    [("msg_type", .str r.MsgType), ("content", r.Content.toJSON)])

/-- What the HTTP client hands back for a request that got an answer, through
the three accessors the package calls. -/
structure Response where
  /-- The result of `resp.StatusCode()`. -/
  statusCode : Int
  /-- The result of `resp.String()`: the body rendered as a string by the HTTP client. -/
  bodyString : String
  /-- The result of `resp.Body()`: the body as received. -/
  body : String
  deriving DecidableEq, Repr

/-- The blocking POST capability of the HTTP client (`resty`): from the URL,
the request headers and the value set as body, which the client writes as
JSON, to a response or a transport error. -/
abbrev Transport := String → List (String × String) → JVal → Except LibError Response

/-- The struct `Client`. -/
structure Client where
  WebhookURL : String
  Secret : String := ""
  client : Transport

/-- The errors the methods of `Client` return, one constructor for each
`fmt.Errorf` call of feishu.go, holding the arguments of the call. -/
inductive SendError where
  /-- The error of `fmt.Errorf("generate sign failed: %w", err)` -/
  | generateSignFailed (err : LibError)
  /-- The error of `fmt.Errorf("send request failed: %w", err)` -/
  | sendRequestFailed (err : LibError)
  /-- The error of `fmt.Errorf("request failed with status: %d, body: %s", resp.StatusCode(), resp.String())` -/
  | requestFailedWithStatus (status : Int) (body : String)
  /-- The error of `fmt.Errorf("parse response failed: %w", err)` -/
  | parseResponseFailed (err : JsonError)
  /-- The error of `fmt.Errorf("feishu webhook error: code=%v, msg=%v", result["code"], result["msg"])` -/
  | feishuWebhookError (code : JVal) (msg : JVal)
  deriving Repr

/-- The format string of the `fmt.Errorf` call that made an error. -/
def SendError.format : SendError → String
  | .generateSignFailed _ => "generate sign failed: %w"
  | .sendRequestFailed _ => "send request failed: %w"
  | .requestFailedWithStatus _ _ => "request failed with status: %d, body: %s"
  | .parseResponseFailed _ => "parse response failed: %w"
  | .feishuWebhookError _ _ => "feishu webhook error: code=%v, msg=%v"

/-- The function `NewClient`; `resty` stands for the HTTP client `resty.New()`
makes, `secret` for the variadic arguments. -/
def NewClient (resty : Transport) (webhookURL : String) (secret : List String) : Client :=
  let client : Client := { WebhookURL := webhookURL, client := resty }
  match secret with
  | s :: _ => { client with Secret := s }
  | [] => client

/-- The method `sendRequest`. -/
def Client.sendRequest (c : Client) (request : WebhookRequest) : Option SendError :=
  match c.client c.WebhookURL [("Content-Type", "application/json")] request.toJSON with
  | .error err => some (.sendRequestFailed err)
  | .ok resp =>
    if resp.statusCode ≠ 200 then
      some (.requestFailedWithStatus resp.statusCode resp.bodyString)
    else
      match jsonUnmarshalMap resp.body with
      | .error err => some (.parseResponseFailed err)
      | .ok result =>
        match mapIndex result "code" with
        | .number code =>
          if code ≠ 0 then
            some (.feishuWebhookError (mapIndex result "code") (mapIndex result "msg"))
          else none
        | _ => none

/-- The method `sendMessageWithSign`; `now` is what `time.Now().Unix()` returns. -/
def Client.sendMessageWithSign (c : Client) (now : Int) (message : Message) : Option SendError :=
  let timestamp := now
  match GenSign c.Secret timestamp with
  | .error err => some (.generateSignFailed err)
  | .ok sign =>
    let request : WebhookRequest :=
      { Timestamp := formatInt timestamp, Sign := sign,
        MsgType := message.MsgType, Content := message.Content }
    c.sendRequest request

/-- The method `sendMessageWithoutSign`. -/
def Client.sendMessageWithoutSign (c : Client) (message : Message) : Option SendError :=
  let request : WebhookRequest := { MsgType := message.MsgType, Content := message.Content }
  c.sendRequest request

/-- The method `SendMessage`; `now` is the wall-clock time in seconds at the call. -/
def Client.SendMessage (c : Client) (now : Int) (message : Message) : Option SendError :=
  if c.Secret ≠ "" then c.sendMessageWithSign now message
  else c.sendMessageWithoutSign message

/-- The method `SendText`. -/
def Client.SendText (c : Client) (now : Int) (text : String) : Option SendError :=
  let message := NewTextMessage text
  c.SendMessage now message

/-- The method `SendRichText`. -/
def Client.SendRichText (c : Client) (now : Int) (title : String)
    (content : Slice (Slice RichTextElement)) : Option SendError :=
  let message := NewRichTextMessage title content
  c.SendMessage now message

/-- The method `SendImage`. -/
def Client.SendImage (c : Client) (now : Int) (imageKey : String) : Option SendError :=
  let message := NewImageMessage imageKey
  c.SendMessage now message

/-- The method `SendInteractive`. -/
def Client.SendInteractive (c : Client) (now : Int) (config : Option CardConfig)
    (header : Option CardHeader) (elements : Slice JVal) : Option SendError :=
  let message := NewInteractiveMessage config header elements
  c.SendMessage now message

/-! ## api.go -/

/-- The struct `SDK`. -/
structure SDK where
  client : Client

/-- The function `New`. -/
def New (resty : Transport) (webhookURL : String) (secret : List String) : SDK :=
  { client := NewClient resty webhookURL secret }

/-- The method `SDK.SendText`. -/
def SDK.SendText (sdk : SDK) (now : Int) (text : String) : Option SendError :=
  sdk.client.SendText now text

/-- The method `SDK.SendRichText`. -/
def SDK.SendRichText (sdk : SDK) (now : Int) (title : String)
    (content : Slice (Slice RichTextElement)) : Option SendError :=
  sdk.client.SendRichText now title content

/-- The method `SDK.SendImage`. -/
def SDK.SendImage (sdk : SDK) (now : Int) (imageKey : String) : Option SendError :=
  sdk.client.SendImage now imageKey

/-- The method `SDK.SendInteractive`. -/
def SDK.SendInteractive (sdk : SDK) (now : Int) (config : Option CardConfig)
    (header : Option CardHeader) (elements : Slice JVal) : Option SendError :=
  sdk.client.SendInteractive now config header elements

/-- The method `SDK.SendMessage`. -/
def SDK.SendMessage (sdk : SDK) (now : Int) (message : Message) : Option SendError :=
  sdk.client.SendMessage now message

/-- The method `SDK.Client`. -/
def SDK.Client (sdk : SDK) : Client := sdk.client

/-- The function `SendTextMessage`. -/
def SendTextMessage (resty : Transport) (now : Int) (webhookURL text : String)
    (secret : List String) : Option SendError :=
  let client := NewClient resty webhookURL secret
  client.SendText now text

/-- The function `SendRichTextMessage`. -/
def SendRichTextMessage (resty : Transport) (now : Int) (webhookURL title : String)
    (content : Slice (Slice RichTextElement)) (secret : List String) : Option SendError :=
  let client := NewClient resty webhookURL secret
  client.SendRichText now title content

/-- The function `SendImageMessage`. -/
def SendImageMessage (resty : Transport) (now : Int) (webhookURL imageKey : String)
    (secret : List String) : Option SendError :=
  let client := NewClient resty webhookURL secret
  client.SendImage now imageKey

/-- A Go `map[string]string`, as its list of entries; the `nil` map has none. -/
abbrev StringMap := List (String × String)

/-- The two-result map index `v, ok := m[key]`; `none` stands for `ok == false`. -/
def StringMap.index (m : StringMap) (key : String) : Option String :=
  m.lookup key

/-- The function `CreateRichTextElement`; `options` are the variadic arguments. -/
def CreateRichTextElement (tag text : String) (options : List StringMap) : RichTextElement :=
  let element : RichTextElement := { Tag := tag, Text := text }
  match options with
  | [] => element
  | opts :: _ =>
    let element := match opts.index "href" with
      | some href => { element with Href := href }
      | none => element
    let element := match opts.index "user_id" with
      | some userId => { element with UserId := userId }
      | none => element
    let element := match opts.index "user_name" with
      | some userName => { element with UserName := userName }
      | none => element
    let element := match opts.index "image_key" with
      | some imageKey => { element with ImageKey := imageKey }
      | none => element
    element

/-- The function `CreateCardHeader`. -/
def CreateCardHeader (title template : String) : CardHeader :=
  { Title := some { Content := title, Tag := "plain_text" }, Template := template }

/-- The invariant the data model states for a message: the content variant is
the one that belongs to the message type. A value that is none of the five
content structs belongs to no type. -/
def Message.contentMatchesType (m : Message) : Bool :=
  match m.Content with
  | .text _ => m.MsgType == MessageTypeText
  | .richText _ => m.MsgType == MessageTypeRichText
  | .interactive _ => m.MsgType == MessageTypeInteractive
  | .image _ => m.MsgType == MessageTypeImage
  | .shareChat _ => m.MsgType == MessageTypeShareChat
  | .other _ => false

/-! ## `json.Unmarshal` into a `RichTextElement` -/

/-- Case folding of one character of a member name: a lower-case ASCII letter
goes to upper case, and so do the long s (U+017F) and the Kelvin sign (U+212A),
the only other characters that fold to an ASCII letter. Two names of which one
is ASCII are equal under Unicode simple case folding exactly when they are
equal after this folding. -/
def foldNameChar (c : Char) : Char :=
  let v := c.val.toNat
  if 97 ≤ v ∧ v ≤ 122 then Char.ofNat (v - 32)
  else if v = 0x17F then 'S'
  else if v = 0x212A then 'K'
  else c

/-- Case folding of a member name. -/
def foldName (name : String) : String :=
  ⟨name.data.map foldNameChar⟩

/-- The string fields of `RichTextElement`. -/
inductive ElementField where
  | tag
  | text
  | href
  | userId
  | userName
  | imageKey
  deriving DecidableEq, Repr

/-- The field a member name selects when decoding into a `RichTextElement`:
the field whose JSON name equals the member name, exactly or up to case; `none`
for a name that selects no field. -/
def elementField? (name : String) : Option ElementField :=
  let folded := foldName name
  if folded = "TAG" then some .tag
  else if folded = "TEXT" then some .text
  else if folded = "HREF" then some .href
  else if folded = "USER_ID" then some .userId
  else if folded = "USER_NAME" then some .userName
  else if folded = "IMAGE_KEY" then some .imageKey
  else none

/-- Stores a string into a field of an element. -/
def RichTextElement.set (e : RichTextElement) (field : ElementField) (s : String) :
    RichTextElement :=
  match field with
  | .tag => { e with Tag := s }
  | .text => { e with Text := s }
  | .href => { e with Href := s }
  | .userId => { e with UserId := s }
  | .userName => { e with UserName := s }
  | .imageKey => { e with ImageKey := s }

/-- Decodes the members of a JSON object into an element, in the order they are
written: a member that selects no field is skipped, a string is stored, `null`
leaves the field as it is, any other value is a type error. -/
def RichTextElement.decodeMembers :
    List (String × JVal) → RichTextElement → Except JsonError RichTextElement
  | [], e => .ok e
  | (name, v) :: rest, e =>
    match elementField? name with
    | none => RichTextElement.decodeMembers rest e
    | some field =>
      match v with
      | .str s => RichTextElement.decodeMembers rest (e.set field s)
      | .null => RichTextElement.decodeMembers rest e
      | _ => .error .unmarshalTypeError

/-- The call `json.Unmarshal(data, &element)` for `var element RichTextElement`,
on the JSON value the data denotes: an object fills the fields it names, `null`
leaves the zero value, any other value is a type error. -/
def RichTextElement.fromJSON (v : JVal) : Except JsonError RichTextElement :=
  match v with
  | .obj members => RichTextElement.decodeMembers members { Tag := "" }
  | .null => .ok { Tag := "" }
  | _ => .error .unmarshalTypeError

/-- The call `json.Unmarshal(data, &e)` for a zero `RichTextElement`. -/
def RichTextElement.unmarshal (data : String) : Except JsonError RichTextElement :=
  match jsonParse data with
  | none => .error .syntaxError
  | some v => RichTextElement.fromJSON v

/-! ## The HTTP client in front of an endpoint, and test doubles -/

/-- White space as `unicode.IsSpace` of Go has it. -/
def isGoSpace (c : Char) : Bool :=
  let v := c.val.toNat
  (9 ≤ v && v ≤ 13) || v == 0x20 || v == 0x85 || v == 0xA0 || v == 0x1680 ||
    (0x2000 ≤ v && v ≤ 0x200A) || v == 0x2028 || v == 0x2029 || v == 0x202F ||
    v == 0x205F || v == 0x3000

/-- The function `strings.TrimSpace` of Go. -/
def trimSpace (s : String) : String :=
  ⟨((s.data.dropWhile isGoSpace).reverse.dropWhile isGoSpace).reverse⟩

/-- What stands behind a URL: from the URL, the request headers and the text
of the body to the status and the body of the answer, or to a failure of the
connection. -/
abbrev Endpoint := String → List (String × String) → String → Except LibError (Int × String)

/-- The HTTP client `resty` in front of an endpoint, for a request whose body
was set to a struct. `Post` first writes the body with `json.Marshal`; when
that fails it returns the error and sends nothing. Otherwise the endpoint gets
the text, and the answer comes back with `String()` giving the body trimmed of
white space and `Body()` the body as received. -/
def restyPost (endpoint : Endpoint) : Transport :=
  fun url headers body =>
    match jsonMarshal body with
    | none => .error ⟨"json: unsupported type or value"⟩
    | some text =>
      match endpoint url headers text with
      | .error err => .error err
      | .ok (status, answer) =>
        .ok { statusCode := status, bodyString := trimSpace answer, body := answer }

/-- A transport that answers every request with the same status and body, like
the mock server of the package's tests behind the HTTP client. -/
def mockServer (responseCode : Int) (responseBody : String) : Transport :=
  restyPost fun _ _ _ => .ok (responseCode, responseBody)

/-! ## Facts about the embedded library functions -/

set_option maxRecDepth 1000000 in
/-- The embedding of SHA-256 on the test vector "abc" of FIPS 180. -/
theorem sha256_abc :
    sha256 (stringBytes "abc") =
      [186, 120, 22, 191, 143, 1, 207, 234, 65, 65, 64, 222, 93, 174, 34, 35,
       176, 3, 97, 163, 150, 23, 122, 156, 180, 16, 255, 97, 242, 0, 21, 173] := by
  decide

set_option maxRecDepth 1000000 in
/-- The HMAC of RFC 2104 on test case 2 of RFC 4231. -/
theorem hmacSha256_rfc4231_case2 :
    hmacSha256 (stringBytes "Jefe") (stringBytes "what do ya want for nothing?") =
      [91, 220, 193, 70, 191, 96, 117, 78, 106, 4, 36, 38, 8, 149, 117, 199,
       90, 0, 63, 8, 157, 39, 57, 131, 157, 236, 88, 185, 100, 236, 56, 67] := by
  decide

set_option maxRecDepth 1000000 in
/-- The HMAC of RFC 2104 on test case 6 of RFC 4231 (a key longer than a block). -/
theorem hmacSha256_rfc4231_case6 :
    hmacSha256 (List.replicate 131 0xaa)
        (stringBytes "Test Using Larger Than Block-Size Key - Hash Key First") =
      [96, 228, 49, 89, 30, 224, 182, 127, 13, 138, 38, 170, 203, 245, 183, 127,
       142, 11, 198, 33, 55, 40, 197, 20, 5, 70, 4, 15, 14, 227, 127, 84] := by
  decide

/-- Base64 on the test vectors of RFC 4648. -/
theorem base64_rfc4648 :
    base64StdEncodeToString (stringBytes "f") = "Zg==" ∧
    base64StdEncodeToString (stringBytes "fo") = "Zm8=" ∧
    base64StdEncodeToString (stringBytes "foo") = "Zm9v" ∧
    base64StdEncodeToString (stringBytes "foobar") = "Zm9vYmFy" := by
  decide

/-- The big-endian rendering has as many bytes as asked for. -/
theorem beBytes_length (n x : Nat) : (beBytes n x).length = n := by
  induction n with
  | zero => rfl
  | succ k ih => simp [beBytes, ih]

/-- A digest has 32 bytes. -/
theorem Sha256State.digest_length (s : Sha256State) : s.digest.length = 32 := by
  simp [Sha256State.digest, beBytes_length]

/-- The function `sha256` returns 32 bytes for every message. -/
theorem sha256_length (msg : Bytes) : (sha256 msg).length = 32 := by
  simp [sha256, Sha256State.digest_length]

/-- For a key that fits the block, `xorPad` is the key filled with zeros, xored. -/
theorem xorPad_of_le (n : Nat) (key : Bytes) (x : Nat) (h : key.length ≤ n) :
    xorPad n key x = (key ++ List.replicate (n - key.length) 0).map fun b => b ^^^ x := by
  unfold xorPad
  rw [List.take_of_length_le]
  simp
  omega

/-- The keyed hash object of `crypto/hmac` computes the HMAC of RFC 2104: what
`Sum` appends is the HMAC of everything written. -/
theorem HMAC.sum_write (key msg b : Bytes) :
    ((HMAC.new key).Write msg).Sum b = b ++ hmacSha256 key msg := by
  by_cases h : 64 < key.length
  · have h32 : (sha256 key).length ≤ 64 := by rw [sha256_length]; omega
    simp [HMAC.new, HMAC.Write, HMAC.Sum, hmacSha256, Sha256Hash.new, Sha256Hash.Write,
      Sha256Hash.Sum, sha256BlockSize, h, xorPad_of_le _ _ _ h32]
  · have hk : key.length ≤ 64 := by omega
    simp [HMAC.new, HMAC.Write, HMAC.Sum, hmacSha256, Sha256Hash.new, Sha256Hash.Write,
      Sha256Hash.Sum, sha256BlockSize, h, xorPad_of_le _ _ _ hk]

/-- With nothing written, `Sum(nil)` is the HMAC of the empty message. -/
theorem HMAC.sum_new (key : Bytes) : (HMAC.new key).Sum [] = hmacSha256 key [] := by
  have := HMAC.sum_write key [] []
  simpa [HMAC.Write, Sha256Hash.Write] using this

/-- An HMAC-SHA256 value has 32 bytes. -/
theorem hmacSha256_length (key msg : Bytes) : (hmacSha256 key msg).length = 32 := by
  simp [hmacSha256, sha256_length]

/-- Every 6-bit value is written with a character of the alphabet. -/
theorem base64Char_mem (v : Nat) : base64Char v ∈ base64Alphabet := by
  unfold base64Char
  have h : v % 64 < base64Alphabet.length := by
    have : base64Alphabet.length = 64 := by decide
    omega
  rw [List.getD_eq_getElem _ _ h]
  exact List.getElem_mem _

/-- The encoding has four characters for every three bytes, rounded up. -/
theorem base64EncodeChars_length (bs : Bytes) :
    (base64EncodeChars bs).length = 4 * ((bs.length + 2) / 3) := by
  induction bs using base64EncodeChars.induct with
  | case1 => rfl
  | case2 a => simp [base64EncodeChars]
  | case3 a b => simp [base64EncodeChars]
  | case4 a b c rest ih =>
    simp only [base64EncodeChars, List.length_cons, ih]
    omega

/-- The encoding consists of characters of the alphabet and `=`. -/
theorem base64EncodeChars_mem (bs : Bytes) :
    ∀ ch ∈ base64EncodeChars bs, ch ∈ base64Alphabet ∨ ch = '=' := by
  induction bs using base64EncodeChars.induct with
  | case1 => simp [base64EncodeChars]
  | case2 a => simp [base64EncodeChars, base64Char_mem]
  | case3 a b => simp [base64EncodeChars, base64Char_mem]
  | case4 a b c rest ih =>
    intro ch hch
    simp only [base64EncodeChars, List.mem_cons] at hch
    rcases hch with h | h | h | h | h
    · exact Or.inl (h ▸ base64Char_mem _)
    · exact Or.inl (h ▸ base64Char_mem _)
    · exact Or.inl (h ▸ base64Char_mem _)
    · exact Or.inl (h ▸ base64Char_mem _)
    · exact ih ch h

/-- A number has at least one digit. -/
theorem natDigits_ne_nil (fuel n : Nat) (acc : List Char) : natDigits fuel n acc ≠ [] := by
  induction fuel generalizing n acc with
  | zero => simp [natDigits]
  | succ k ih =>
    unfold natDigits
    split
    · simp
    · exact ih _ _

/-- The rendering of a natural number is not the empty string. -/
theorem formatNat_ne_empty (n : Nat) : formatNat n ≠ "" := by
  intro h
  have : (formatNat n).data = [] := by rw [h]
  exact natDigits_ne_nil n n [] this

/-- The rendering of an integer is not the empty string. -/
theorem formatInt_ne_empty (n : Int) : formatInt n ≠ "" := by
  unfold formatInt
  split
  · intro h
    have h2 := congrArg String.data h
    simp [String.data_append] at h2
  · exact formatNat_ne_empty _

/-- A digit character is a decimal digit, of the value it was made from. -/
theorem digitChar_spec (d : Nat) :
    (digitChar d).val.toNat - 48 = d % 10 ∧ (digitChar d).isDigit = true ∧ digitChar d ≠ '-' := by
  have key : ∀ k, k < 10 → (Char.ofNat (48 + k)).val.toNat - 48 = k ∧
      (Char.ofNat (48 + k)).isDigit = true ∧ Char.ofNat (48 + k) ≠ '-' := by decide
  exact key (d % 10) (Nat.mod_lt _ (by decide))

/-- Appending a digit multiplies the value by ten and adds the digit. -/
theorem digitsValue_append (xs : List Char) (c : Char) :
    digitsValue (xs ++ [c]) = digitsValue xs * 10 + (c.val.toNat - 48) := by
  simp [digitsValue, List.foldl_append]

/-- The accumulator of `natDigits` is only appended to. -/
theorem natDigits_acc (fuel n : Nat) (acc : List Char) :
    natDigits fuel n acc = natDigits fuel n [] ++ acc := by
  induction fuel generalizing n acc with
  | zero => simp [natDigits]
  | succ k ih =>
    unfold natDigits
    split
    · simp
    · rw [ih (n / 10) (digitChar n :: acc), ih (n / 10) [digitChar n]]
      simp

/-- With enough fuel the digits of `n` are decimal digits and denote `n`. -/
theorem natDigits_spec (fuel n : Nat) (h : n ≤ fuel) :
    digitsValue (natDigits fuel n []) = n ∧ (natDigits fuel n []).all Char.isDigit = true := by
  induction fuel generalizing n with
  | zero =>
    have hn : n = 0 := by omega
    subst hn
    decide
  | succ k ih =>
    unfold natDigits
    split
    · rename_i hlt
      have hs := digitChar_spec n
      refine ⟨?_, by simp [hs.2.1]⟩
      simp only [digitsValue, List.foldl_cons, List.foldl_nil, zero_mul, zero_add]
      rw [hs.1]
      exact Nat.mod_eq_of_lt hlt
    · rename_i hge
      have hk : n / 10 ≤ k := by omega
      have hs := digitChar_spec n
      rw [natDigits_acc]
      refine ⟨?_, ?_⟩
      · rw [digitsValue_append, (ih _ hk).1, hs.1]
        omega
      · simp [List.all_append, (ih _ hk).2, hs.2.1]

/-- Reading the decimal rendering of an integer gives the integer back. -/
theorem decimalInt?_formatInt (n : Int) : decimalInt? (formatInt n) = some n := by
  have hs := natDigits_spec n.natAbs n.natAbs (Nat.le_refl _)
  have hne := natDigits_ne_nil n.natAbs n.natAbs []
  unfold formatInt
  split
  · rename_i hneg
    have hd : ("-" ++ formatNat n.natAbs).data = '-' :: natDigits n.natAbs n.natAbs [] := by
      simp [String.data_append, formatNat]
    unfold decimalInt?
    rw [hd]
    simp only [hne, ne_eq, not_false_eq_true, hs.2, and_self, if_true, hs.1]
    congr 1
    omega
  · rename_i hpos
    unfold decimalInt?
    have hd : (formatNat n.natAbs).data = natDigits n.natAbs n.natAbs [] := rfl
    rw [hd]
    split
    · rename_i ds heq
      -- the first digit is not a minus sign
      exfalso
      have hall := hs.2
      rw [heq] at hall
      simp at hall
    · simp only [hne, ne_eq, not_false_eq_true, hs.2, and_self, if_true, hs.1]
      congr 1
      omega

/-! ## Facts about writing and reading JSON text -/

/-- The halving count is the binary logarithm, given enough fuel. -/
theorem log2Fuel_eq_log (fuel : Nat) : ∀ n : Nat, n ≤ fuel → log2Fuel fuel n = Nat.log 2 n := by
  induction fuel with
  | zero =>
    intro n h
    have : n = 0 := by omega
    subst this
    simp [log2Fuel]
  | succ fuel ih =>
    intro n h
    unfold log2Fuel
    split
    · rename_i h2
      rw [ih (n / 2) (by omega), Nat.log_of_one_lt_of_le (by norm_num) h2]
    · rename_i h2
      rw [Nat.log_of_lt (by omega)]

/-- Zero is a `float64`. -/
theorem roundFloat64_zero : roundFloat64 0 = some 0 := by
  simp [roundFloat64]

/-- Rounding an exact quotient gives the quotient. -/
theorem divRoundHalfEven_mul (N b : Nat) (hb : 0 < b) : divRoundHalfEven (N * b) b = N := by
  unfold divRoundHalfEven
  simp only [Nat.mul_mod_left, Nat.mul_zero]
  rw [Nat.mul_div_cancel _ hb]
  simp [hb]

/-- The binary exponent brackets the quotient: `2^e ≤ n / d < 2^(e+1)`. -/
theorem binaryExponent_spec (n d : ℕ) (hn : 0 < n) (hd : 0 < d) :
    (d : ℚ) * 2 ^ binaryExponent n d ≤ n ∧ (n : ℚ) < d * 2 ^ (binaryExponent n d + 1) := by
  unfold binaryExponent
  simp only
  rw [log2Fuel_eq_log n n le_rfl, log2Fuel_eq_log d d le_rfl]
  set a := Nat.log 2 n with ha
  set b := Nat.log 2 d with hb
  have hA1 : ((2 : ℚ) ^ a) ≤ n := by
    have := Nat.pow_log_le_self 2 hn.ne'
    exact_mod_cast this
  have hA2 : (n : ℚ) < 2 * 2 ^ a := by
    have := Nat.lt_pow_succ_log_self (by norm_num : 1 < 2) n
    rw [pow_succ] at this
    have h2 : (n : ℚ) < ((2 ^ a * 2 : ℕ) : ℚ) := by exact_mod_cast this
    push_cast at h2
    linarith
  have hB1 : ((2 : ℚ) ^ b) ≤ d := by
    have := Nat.pow_log_le_self 2 hd.ne'
    exact_mod_cast this
  have hB2 : (d : ℚ) < 2 * 2 ^ b := by
    have := Nat.lt_pow_succ_log_self (by norm_num : 1 < 2) d
    rw [pow_succ] at this
    have h2 : (d : ℚ) < ((2 ^ b * 2 : ℕ) : ℚ) := by exact_mod_cast this
    push_cast at h2
    linarith
  have hApos : (0 : ℚ) < 2 ^ a := by positivity
  have hBpos : (0 : ℚ) < 2 ^ b := by positivity
  have hk : (2 : ℚ) ^ ((a : Int) - (b : Int)) = 2 ^ a / 2 ^ b := by
    rw [zpow_sub₀ (by norm_num : (2 : ℚ) ≠ 0), zpow_natCast, zpow_natCast]
  have hkm : (2 : ℚ) ^ ((a : Int) - (b : Int) - 1) = 2 ^ a / (2 * 2 ^ b) := by
    rw [zpow_sub₀ (by norm_num : (2 : ℚ) ≠ 0), hk, zpow_one]
    field_simp
    ring
  have hkp : (2 : ℚ) ^ ((a : Int) - (b : Int) + 1) = 2 * 2 ^ a / 2 ^ b := by
    rw [zpow_add₀ (by norm_num : (2 : ℚ) ≠ 0), hk, zpow_one]
    field_simp
    ring
  have hbelow : (if 0 ≤ ((a : Int) - (b : Int))
          then decide (n < d * 2 ^ ((a : Int) - (b : Int)).toNat)
          else decide (n * 2 ^ (-((a : Int) - (b : Int))).toNat < d)) = true ↔
      (n : ℚ) * 2 ^ b < d * 2 ^ a := by
    by_cases h0 : 0 ≤ ((a : Int) - (b : Int))
    · have hab : b ≤ a := by omega
      have e1 : ((a : Int) - (b : Int)).toNat = a - b := by omega
      simp only [h0, if_true, decide_eq_true_eq, e1]
      have e2 : (2 : ℚ) ^ a = 2 ^ (a - b) * 2 ^ b := by
        rw [← pow_add]; congr 1; omega
      rw [e2, ← mul_assoc]
      constructor
      · intro h
        have : (n : ℚ) < ((d * 2 ^ (a - b) : ℕ) : ℚ) := by exact_mod_cast h
        push_cast at this
        exact mul_lt_mul_of_pos_right this hBpos
      · intro h
        have := lt_of_mul_lt_mul_right h hBpos.le
        have h3 : (n : ℚ) < ((d * 2 ^ (a - b) : ℕ) : ℚ) := by push_cast; exact this
        exact_mod_cast h3
    · have hab : a < b := by omega
      have e1 : (-((a : Int) - (b : Int))).toNat = b - a := by omega
      simp only [h0, if_false, decide_eq_true_eq, e1]
      have e2 : (2 : ℚ) ^ b = 2 ^ (b - a) * 2 ^ a := by
        rw [← pow_add]; congr 1; omega
      rw [e2, ← mul_assoc]
      constructor
      · intro h
        have : ((n * 2 ^ (b - a) : ℕ) : ℚ) < d := by exact_mod_cast h
        push_cast at this
        exact mul_lt_mul_of_pos_right this hApos
      · intro h
        have := lt_of_mul_lt_mul_right h hApos.le
        have h3 : ((n * 2 ^ (b - a) : ℕ) : ℚ) < d := by push_cast; exact this
        exact_mod_cast h3
  have hnpos : (0 : ℚ) < n := by exact_mod_cast hn
  have hdpos : (0 : ℚ) < d := by exact_mod_cast hd
  by_cases hb2 : (n : ℚ) * 2 ^ b < d * 2 ^ a
  · rw [if_pos (hbelow.mpr hb2)]
    rw [hkm]
    have e3 : (a : Int) - b - 1 + 1 = a - b := by ring
    rw [e3, hk]
    constructor
    · rw [mul_div_assoc', div_le_iff₀ (by positivity)]
      nlinarith
    · rw [mul_div_assoc', lt_div_iff₀ hBpos]
      exact hb2
  · rw [if_neg (fun h => hb2 (hbelow.mp h))]
    rw [hk, hkp]
    constructor
    · rw [mul_div_assoc', div_le_iff₀ hBpos]
      linarith
    · rw [mul_div_assoc', lt_div_iff₀ hBpos]
      nlinarith

/-- The function `roundFloat64` away from zero, through the binary exponent and
the rounded mantissa. -/
theorem roundFloat64_eq (x : ℚ) (hx : x.num.natAbs ≠ 0) :
    roundFloat64 x =
      if 0 ≤ max (binaryExponent x.num.natAbs x.den) (-1022) - 52 then
        if 2 ^ 1024 ≤ roundedMantissa x.num.natAbs x.den
            (max (binaryExponent x.num.natAbs x.den) (-1022) - 52) *
            2 ^ (max (binaryExponent x.num.natAbs x.den) (-1022) - 52).toNat then none
        else some (mkRat ((if x.num < 0 then -1 else 1) *
          (roundedMantissa x.num.natAbs x.den
            (max (binaryExponent x.num.natAbs x.den) (-1022) - 52) *
            2 ^ (max (binaryExponent x.num.natAbs x.den) (-1022) - 52).toNat : Nat)) 1)
      else some (mkRat ((if x.num < 0 then -1 else 1) *
          (roundedMantissa x.num.natAbs x.den
            (max (binaryExponent x.num.natAbs x.den) (-1022) - 52) : Int))
        (2 ^ (-(max (binaryExponent x.num.natAbs x.den) (-1022) - 52)).toNat)) := by
  unfold roundFloat64 binaryExponent roundedMantissa
  simp only [hx, if_false]

/-- A power of two with an exponent that is not negative. -/
theorem two_zpow_of_nonneg (u : ℤ) (hu : 0 ≤ u) : (2 : ℚ) ^ u = ((2 ^ u.toNat : ℕ) : ℚ) := by
  have : u = (u.toNat : ℤ) := (Int.toNat_of_nonneg hu).symm
  conv_lhs => rw [this]
  rw [zpow_natCast]
  push_cast
  rfl

/-- A power of two with a negative exponent. -/
theorem two_zpow_of_neg (u : ℤ) (hu : ¬ 0 ≤ u) :
    (2 : ℚ) ^ u = 1 / ((2 ^ (-u).toNat : ℕ) : ℚ) := by
  have : u = -((-u).toNat : ℤ) := by omega
  conv_lhs => rw [this]
  rw [zpow_neg, zpow_natCast]
  push_cast
  rw [one_div]

/-- A quotient that is a whole number of units is not changed by the rounding. -/
theorem roundedMantissa_exact (n d N : ℕ) (u : ℤ) (hd : 0 < d)
    (h : (n : ℚ) = N * d * 2 ^ u) : roundedMantissa n d u = N := by
  unfold roundedMantissa
  by_cases hu : 0 ≤ u
  · rw [if_pos hu]
    rw [two_zpow_of_nonneg u hu] at h
    have h2 : n = N * (d * 2 ^ u.toNat) := by
      have : (n : ℚ) = ((N * (d * 2 ^ u.toNat) : ℕ) : ℚ) := by push_cast; rw [h]; push_cast; ring
      exact_mod_cast this
    rw [h2]
    exact divRoundHalfEven_mul N _ (by positivity)
  · rw [if_neg hu]
    rw [two_zpow_of_neg u hu] at h
    have hp : (0 : ℚ) < ((2 ^ (-u).toNat : ℕ) : ℚ) := by positivity
    have h2 : n * 2 ^ (-u).toNat = N * d := by
      have : ((n * 2 ^ (-u).toNat : ℕ) : ℚ) = ((N * d : ℕ) : ℚ) := by
        push_cast
        rw [h]
        push_cast
        field_simp
      exact_mod_cast this
    rw [h2]
    exact divRoundHalfEven_mul N _ hd

/-- The magnitude of a rational in terms of its numerator and denominator. -/
theorem natAbs_num_div_den (y : ℚ) : ((y.num.natAbs : ℕ) : ℚ) / (y.den : ℚ) = |y| := by
  have h1 : ((y.num.natAbs : ℕ) : ℚ) = |(y.num : ℚ)| := by
    rw [← Int.cast_abs, Int.abs_eq_natAbs, Int.cast_natCast]
  have hd : (0 : ℚ) < y.den := by exact_mod_cast y.den_pos
  rw [h1]
  conv_rhs => rw [← Rat.num_div_den y]
  rw [abs_div, abs_of_pos hd]

/-- A rational is its sign times its magnitude. -/
theorem sign_mul_abs (y : ℚ) : ((if y.num < 0 then (-1 : ℤ) else 1 : ℤ) : ℚ) * |y| = y := by
  by_cases h : y.num < 0
  · have : y < 0 := Rat.num_neg.mp h
    rw [if_pos h, abs_of_neg this]
    push_cast
    ring
  · have : 0 ≤ y := Rat.num_nonneg.mp (not_lt.mp h)
    rw [if_neg h, abs_of_nonneg this]
    push_cast
    ring

set_option exponentiation.threshold 4000 in
/-- The value of a `float64` rounds to itself. -/
theorem roundFloat64_of_isFloat64 (y : ℚ) (h : IsFloat64 y) : roundFloat64 y = some y := by
  rcases h with rfl | ⟨m, u, hmu, hy⟩
  · exact roundFloat64_zero
  have hm1 : 1 ≤ m := by rcases hmu with ⟨h1, -⟩ | ⟨h1, -⟩ <;> omega
  have hmq : (1 : ℚ) ≤ m := by exact_mod_cast hm1
  have h2u : (0 : ℚ) < 2 ^ u := by positivity
  have hypos : 0 < |y| := by rw [hy]; positivity
  have hy0 : y ≠ 0 := abs_pos.mp hypos
  have hn0 : y.num.natAbs ≠ 0 := by
    intro h0
    apply hy0
    have := Int.natAbs_eq_zero.mp h0
    exact Rat.zero_of_num_zero this
  have hdpos : 0 < y.den := y.den_pos
  have hdq : (0 : ℚ) < y.den := by exact_mod_cast hdpos
  have hq := natAbs_num_div_den y
  have hnq : ((y.num.natAbs : ℕ) : ℚ) = |y| * y.den := by
    rw [← hq]; field_simp
  obtain ⟨s1, s2⟩ := binaryExponent_spec y.num.natAbs y.den (Nat.pos_of_ne_zero hn0) hdpos
  rw [hnq] at s1 s2
  have t1 : (2 : ℚ) ^ binaryExponent y.num.natAbs y.den ≤ |y| := by
    have := le_of_mul_le_mul_left (by linarith : (y.den : ℚ) * 2 ^ binaryExponent y.num.natAbs y.den ≤ y.den * |y|) hdq
    exact this
  have t2 : |y| < (2 : ℚ) ^ (binaryExponent y.num.natAbs y.den + 1) := by
    have := lt_of_mul_lt_mul_left (by linarith : (y.den : ℚ) * |y| < y.den * 2 ^ (binaryExponent y.num.natAbs y.den + 1)) hdq.le
    exact this
  have hu : max (binaryExponent y.num.natAbs y.den) (-1022) - 52 = u := by
    rcases hmu with ⟨h1, h2, h3, h4⟩ | ⟨h1, h2, h3⟩
    · have b1 : (2 : ℚ) ^ (52 + u) ≤ |y| := by
        rw [hy, zpow_add₀ (by norm_num : (2 : ℚ) ≠ 0)]
        have : ((2 : ℚ) ^ (52 : ℤ)) ≤ m := by
          have h' : ((2 ^ 52 : ℕ) : ℚ) ≤ m := by exact_mod_cast h1
          rw [show ((2 : ℚ) ^ (52 : ℤ)) = ((2 ^ 52 : ℕ) : ℚ) by norm_num]
          exact h'
        exact mul_le_mul_of_nonneg_right this h2u.le
      have b2 : |y| < (2 : ℚ) ^ (53 + u) := by
        rw [hy, zpow_add₀ (by norm_num : (2 : ℚ) ≠ 0)]
        have : (m : ℚ) < ((2 : ℚ) ^ (53 : ℤ)) := by
          have h' : (m : ℚ) < ((2 ^ 53 : ℕ) : ℚ) := by exact_mod_cast h2
          rw [show ((2 : ℚ) ^ (53 : ℤ)) = ((2 ^ 53 : ℕ) : ℚ) by norm_num]
          exact h'
        exact mul_lt_mul_of_pos_right this h2u
      have c1 := lt_of_le_of_lt t1 b2
      have c2 := lt_of_le_of_lt b1 t2
      rw [zpow_lt_zpow_iff_right₀ (by norm_num : (1 : ℚ) < 2)] at c1 c2
      omega
    · subst h3
      have b2 : |y| < (2 : ℚ) ^ (-1022 : ℤ) := by
        rw [hy]
        have : (m : ℚ) < ((2 : ℚ) ^ (52 : ℤ)) := by
          have h' : (m : ℚ) < ((2 ^ 52 : ℕ) : ℚ) := by exact_mod_cast h2
          rw [show ((2 : ℚ) ^ (52 : ℤ)) = ((2 ^ 52 : ℕ) : ℚ) by norm_num]
          exact h'
        have e : (2 : ℚ) ^ (-1022 : ℤ) = 2 ^ (52 : ℤ) * 2 ^ (-1074 : ℤ) := by
          rw [← zpow_add₀ (by norm_num : (2 : ℚ) ≠ 0)]; norm_num
        rw [e]
        exact mul_lt_mul_of_pos_right this h2u
      have c1 := lt_of_le_of_lt t1 b2
      rw [zpow_lt_zpow_iff_right₀ (by norm_num : (1 : ℚ) < 2)] at c1
      omega
  have hm : roundedMantissa y.num.natAbs y.den u = m := by
    apply roundedMantissa_exact _ _ _ _ hdpos
    rw [hnq, hy]; ring
  rw [roundFloat64_eq y hn0, hu, hm]
  have hsign := sign_mul_abs y
  generalize (if y.num < 0 then (-1 : ℤ) else 1) = sg at hsign ⊢
  have hval : y = sg * (m * 2 ^ u) := by rw [← hy]; exact hsign.symm
  by_cases h0 : 0 ≤ u
  · rw [if_pos h0]
    have hrange : ¬ 2 ^ 1024 ≤ m * 2 ^ u.toNat := by
      rcases hmu with ⟨h1, h2, h3, h4⟩ | ⟨h1, h2, h3⟩
      · have : u.toNat ≤ 971 := by omega
        have : 2 ^ u.toNat ≤ 2 ^ 971 := Nat.pow_le_pow_right (by norm_num) this
        have : m * 2 ^ u.toNat < 2 ^ 53 * 2 ^ 971 := by
          calc m * 2 ^ u.toNat ≤ m * 2 ^ 971 := Nat.mul_le_mul_left _ this
            _ < 2 ^ 53 * 2 ^ 971 := Nat.mul_lt_mul_of_pos_right h2 (by positivity)
        have e : (2 : ℕ) ^ 53 * 2 ^ 971 = 2 ^ 1024 := by rw [← pow_add]
        rw [e] at this
        exact not_le.mpr this
      · omega
    rw [if_neg hrange]
    congr 1
    rw [Rat.mkRat_eq_div]
    conv_rhs => rw [hval, two_zpow_of_nonneg u h0]
    push_cast
    ring
  · rw [if_neg h0]
    congr 1
    rw [Rat.mkRat_eq_div]
    conv_rhs => rw [hval, two_zpow_of_neg u h0]
    push_cast
    field_simp

/-- Rounding moves a quotient by half a unit at most. -/
theorem divRoundHalfEven_near (a b : Nat) (hb : 0 < b) :
    2 * a ≤ 2 * (divRoundHalfEven a b * b) + b ∧ 2 * (divRoundHalfEven a b * b) ≤ 2 * a + b := by
  have h := Nat.div_add_mod a b
  have hr := Nat.mod_lt a hb
  have hq : b * (a / b) = a / b * b := Nat.mul_comm _ _
  unfold divRoundHalfEven
  simp only
  split
  · constructor <;> omega
  · split
    · rw [Nat.add_mul]; constructor <;> omega
    · split
      · constructor <;> omega
      · rw [Nat.add_mul]; constructor <;> omega

/-- Rounding moves a quotient by half a unit at most, as rationals. -/
theorem divRoundHalfEven_near_rat (a b : ℕ) (hb : 0 < b) :
    |(divRoundHalfEven a b : ℚ) - (a : ℚ) / b| ≤ 1 / 2 := by
  obtain ⟨h1, h2⟩ := divRoundHalfEven_near a b hb
  have hbq : (0 : ℚ) < b := by exact_mod_cast hb
  have g1 : (2 : ℚ) * a ≤ 2 * (divRoundHalfEven a b * b) + b := by exact_mod_cast h1
  have g2 : (2 : ℚ) * (divRoundHalfEven a b * b) ≤ 2 * a + b := by exact_mod_cast h2
  have e : (a : ℚ) / b * b = a := by field_simp
  rw [abs_le]
  constructor
  · have : ((a : ℚ) / b - 1 / 2) * b ≤ divRoundHalfEven a b * b := by nlinarith
    have := le_of_mul_le_mul_right this hbq
    linarith
  · have : (divRoundHalfEven a b : ℚ) * b ≤ ((a : ℚ) / b + 1 / 2) * b := by nlinarith
    have := le_of_mul_le_mul_right this hbq
    linarith

/-- The rounded mantissa is within half a unit of the quotient. -/
theorem roundedMantissa_near (n d : ℕ) (u : ℤ) (hd : 0 < d) :
    |(roundedMantissa n d u : ℚ) - (n : ℚ) / d / 2 ^ u| ≤ 1 / 2 := by
  unfold roundedMantissa
  have hdq : (0 : ℚ) < d := by exact_mod_cast hd
  by_cases hu : 0 ≤ u
  · rw [if_pos hu, two_zpow_of_nonneg u hu]
    have := divRoundHalfEven_near_rat n (d * 2 ^ u.toNat) (by positivity)
    have e : (n : ℚ) / ((d * 2 ^ u.toNat : ℕ) : ℚ) = (n : ℚ) / d / ((2 ^ u.toNat : ℕ) : ℚ) := by
      push_cast
      rw [div_div]
    rw [e] at this
    exact this
  · rw [if_neg hu, two_zpow_of_neg u hu]
    have := divRoundHalfEven_near_rat (n * 2 ^ (-u).toNat) d hd
    have e : ((n * 2 ^ (-u).toNat : ℕ) : ℚ) / d = (n : ℚ) / d / (1 / ((2 ^ (-u).toNat : ℕ) : ℚ)) := by
      push_cast
      field_simp
    rw [e] at this
    exact this

/-- The value `roundFloat64` gives, away from zero: the sign times the rounded
mantissa times the unit. -/
theorem roundFloat64_value (x y : ℚ) (hn0 : x.num.natAbs ≠ 0) (h : roundFloat64 x = some y) :
    y = ((if x.num < 0 then (-1 : ℤ) else 1 : ℤ) : ℚ) *
        (roundedMantissa x.num.natAbs x.den
          (max (binaryExponent x.num.natAbs x.den) (-1022) - 52) : ℚ) *
        2 ^ (max (binaryExponent x.num.natAbs x.den) (-1022) - 52) ∧
    (0 ≤ max (binaryExponent x.num.natAbs x.den) (-1022) - 52 →
      roundedMantissa x.num.natAbs x.den (max (binaryExponent x.num.natAbs x.den) (-1022) - 52) *
        2 ^ (max (binaryExponent x.num.natAbs x.den) (-1022) - 52).toNat < 2 ^ 1024) := by
  rw [roundFloat64_eq x hn0] at h
  generalize (max (binaryExponent x.num.natAbs x.den) (-1022) - 52) = u at h ⊢
  generalize roundedMantissa x.num.natAbs x.den u = m at h ⊢
  generalize (if x.num < 0 then (-1 : ℤ) else 1) = sg at h ⊢
  by_cases h0 : 0 ≤ u
  · rw [if_pos h0] at h
    split at h
    · simp at h
    · rename_i hr
      simp only [Option.some.injEq] at h
      refine ⟨?_, fun _ => not_le.mp hr⟩
      rw [← h, Rat.mkRat_eq_div, two_zpow_of_nonneg u h0]
      push_cast
      ring
  · rw [if_neg h0] at h
    simp only [Option.some.injEq] at h
    refine ⟨?_, fun hh => absurd hh h0⟩
    rw [← h, Rat.mkRat_eq_div, two_zpow_of_neg u h0]
    push_cast
    field_simp

set_option exponentiation.threshold 4000 in
/-- Every number `roundFloat64` gives is the value of a `float64`. -/
theorem isFloat64_of_roundFloat64 (x y : ℚ) (h : roundFloat64 x = some y) : IsFloat64 y := by
  by_cases hn0 : x.num.natAbs = 0
  · left
    have : roundFloat64 x = some 0 := by simp [roundFloat64, hn0]
    rw [this] at h
    exact (Option.some.inj h).symm
  obtain ⟨hy, hrange⟩ := roundFloat64_value x y hn0 h
  have hdpos : 0 < x.den := x.den_pos
  have hdq : (0 : ℚ) < x.den := by exact_mod_cast hdpos
  have hq := natAbs_num_div_den x
  have hnq : ((x.num.natAbs : ℕ) : ℚ) = |x| * x.den := by
    rw [← hq]; field_simp
  obtain ⟨s1, s2⟩ := binaryExponent_spec x.num.natAbs x.den (Nat.pos_of_ne_zero hn0) hdpos
  rw [hnq] at s1 s2
  have t1 : (2 : ℚ) ^ binaryExponent x.num.natAbs x.den ≤ |x| :=
    le_of_mul_le_mul_left (by linarith) hdq
  have t2 : |x| < (2 : ℚ) ^ (binaryExponent x.num.natAbs x.den + 1) :=
    lt_of_mul_lt_mul_left (by linarith) hdq.le
  have hnear := roundedMantissa_near x.num.natAbs x.den
    (max (binaryExponent x.num.natAbs x.den) (-1022) - 52) hdpos
  rw [hq] at hnear
  generalize binaryExponent x.num.natAbs x.den = e at *
  generalize hu : max e (-1022) - 52 = u at *
  generalize roundedMantissa x.num.natAbs x.den u = m at *
  have h2u : (0 : ℚ) < 2 ^ u := by positivity
  have habs : |y| = m * 2 ^ u := by
    rw [hy]
    by_cases hneg : x.num < 0
    · simp only [hneg, if_true]
      rw [abs_mul, abs_mul, abs_of_pos h2u]
      simp
    · simp only [hneg, if_false]
      rw [abs_mul, abs_mul, abs_of_pos h2u]
      simp
  obtain ⟨n1, n2⟩ := abs_le.mp hnear
  by_cases hm0 : m = 0
  · left
    have : |y| = 0 := by rw [habs, hm0]; simp
    exact abs_eq_zero.mp this
  right
  by_cases he : -1022 ≤ e
  · have hue : u = e - 52 := by omega
    have b1 : (2 : ℚ) ^ (52 : ℤ) ≤ |x| / 2 ^ u := by
      rw [le_div_iff₀ h2u, ← zpow_add₀ (by norm_num : (2 : ℚ) ≠ 0)]
      have : (52 : ℤ) + u = e := by omega
      rw [this]
      exact t1
    have b2 : |x| / 2 ^ u < (2 : ℚ) ^ (53 : ℤ) := by
      rw [div_lt_iff₀ h2u, ← zpow_add₀ (by norm_num : (2 : ℚ) ≠ 0)]
      have : (53 : ℤ) + u = e + 1 := by omega
      rw [this]
      exact t2
    have c1 : 2 ^ 52 ≤ m := by
      have : ((2 ^ 52 : ℕ) : ℚ) < (m : ℚ) + 1 := by
        have e52 : ((2 ^ 52 : ℕ) : ℚ) = (2 : ℚ) ^ (52 : ℤ) := by norm_num
        rw [e52]
        linarith
      have : 2 ^ 52 < m + 1 := by exact_mod_cast this
      omega
    have c2 : m ≤ 2 ^ 53 := by
      have : (m : ℚ) < ((2 ^ 53 : ℕ) : ℚ) + 1 := by
        have e53 : ((2 ^ 53 : ℕ) : ℚ) = (2 : ℚ) ^ (53 : ℤ) := by norm_num
        rw [e53]
        linarith
      have : m < 2 ^ 53 + 1 := by exact_mod_cast this
      omega
    by_cases hm53 : m < 2 ^ 53
    · refine ⟨m, u, Or.inl ⟨c1, hm53, by omega, ?_⟩, habs⟩
      by_contra hbig
      have h0 : 0 ≤ u := by omega
      have hr := hrange h0
      have ht : 972 ≤ u.toNat := by omega
      have : 2 ^ 52 * 2 ^ 972 ≤ m * 2 ^ u.toNat :=
        Nat.mul_le_mul c1 (Nat.pow_le_pow_right (by norm_num) ht)
      have e : (2 : ℕ) ^ 52 * 2 ^ 972 = 2 ^ 1024 := by rw [← pow_add]
      rw [e] at this
      exact absurd hr (not_lt.mpr this)
    · have hm : m = 2 ^ 53 := by omega
      refine ⟨2 ^ 52, u + 1, Or.inl ⟨le_refl _, by norm_num, by omega, ?_⟩, ?_⟩
      · by_contra hbig
        have h0 : 0 ≤ u := by omega
        have hr := hrange h0
        have ht : 971 ≤ u.toNat := by omega
        have : 2 ^ 53 * 2 ^ 971 ≤ m * 2 ^ u.toNat :=
          Nat.mul_le_mul (by omega) (Nat.pow_le_pow_right (by norm_num) ht)
        have e : (2 : ℕ) ^ 53 * 2 ^ 971 = 2 ^ 1024 := by rw [← pow_add]
        rw [e] at this
        exact absurd hr (not_lt.mpr this)
      · rw [habs, hm, zpow_add₀ (by norm_num : (2 : ℚ) ≠ 0)]
        push_cast
        ring
  · have hue : u = -1074 := by omega
    have b2 : |x| / 2 ^ u < (2 : ℚ) ^ (52 : ℤ) := by
      rw [div_lt_iff₀ h2u, ← zpow_add₀ (by norm_num : (2 : ℚ) ≠ 0)]
      have : (52 : ℤ) + u = -1022 := by omega
      rw [this]
      have : (2 : ℚ) ^ (e + 1) ≤ 2 ^ (-1022 : ℤ) :=
        zpow_le_zpow_right₀ (by norm_num) (by omega)
      linarith
    have c2 : m ≤ 2 ^ 52 := by
      have : (m : ℚ) < ((2 ^ 52 : ℕ) : ℚ) + 1 := by
        have e52 : ((2 ^ 52 : ℕ) : ℚ) = (2 : ℚ) ^ (52 : ℤ) := by norm_num
        rw [e52]
        linarith
      have : m < 2 ^ 52 + 1 := by exact_mod_cast this
      omega
    by_cases hm52 : m < 2 ^ 52
    · exact ⟨m, u, Or.inr ⟨by omega, hm52, hue⟩, habs⟩
    · exact ⟨m, u, Or.inl ⟨by omega, by omega, by omega, by omega⟩, habs⟩

/-- A character written as it is reads back in one step. -/
theorem parseStringBody_plain (c : Char) (fuel : Nat) (t acc : List Char)
    (h1 : c ≠ '"') (h2 : c ≠ '\\') (h3 : ¬ c.val.toNat < 0x20) :
    parseStringBody (fuel + 1) (c :: t) acc = parseStringBody fuel t (c :: acc) := by
  rw [parseStringBody]
  · simp [h2, h3]
  · intro h; exact h1 h
  · intro a b c1 d rest h; exact absurd h h2
  · intro e rest h; exact absurd h h2

/-- A control character reads back from its escape in one step. -/
theorem parseStringBody_control (n : Nat) (hn : n < 0x20) (fuel : Nat) (t acc : List Char) :
    parseStringBody (fuel + 1) (quoteChar (Char.ofNat n) ++ t) acc =
      parseStringBody fuel t (Char.ofNat n :: acc) := by
  interval_cases n <;> rfl

/-- Every character reads back from what the encoder writes for it. -/
theorem parseStringBody_quoteChar (c : Char) (fuel : Nat) (t acc : List Char) :
    parseStringBody (fuel + 1) (quoteChar c ++ t) acc = parseStringBody fuel t (c :: acc) := by
  by_cases h3 : c.val.toNat < 0x20
  · have hc : c = Char.ofNat c.val.toNat := (Char.ofNat_toNat c).symm
    rw [hc]
    exact parseStringBody_control _ h3 fuel t acc
  · by_cases h1 : c = '"'
    · subst h1; rfl
    by_cases h2 : c = '\\'
    · subst h2; rfl
    by_cases h4 : c = '<'
    · subst h4; rfl
    by_cases h5 : c = '>'
    · subst h5; rfl
    by_cases h6 : c = '&'
    · subst h6; rfl
    by_cases h7 : c = Char.ofNat 0x2028
    · subst h7; rfl
    by_cases h8 : c = Char.ofNat 0x2029
    · subst h8; rfl
    have hq : quoteChar c = [c] := by
      have e1 : c ≠ Char.ofNat 8 := by rintro rfl; exact h3 (by decide)
      have e2 : c ≠ Char.ofNat 12 := by rintro rfl; exact h3 (by decide)
      have e3 : c ≠ '\n' := by rintro rfl; exact h3 (by decide)
      have e4 : c ≠ '\r' := by rintro rfl; exact h3 (by decide)
      have e5 : c ≠ '\t' := by rintro rfl; exact h3 (by decide)
      simp [quoteChar, h1, h2, h3, h4, h5, h6, h7, h8, e1, e2, e3, e4, e5]
    rw [hq]
    exact parseStringBody_plain c fuel t acc h1 h2 h3

/-- The encoder writes at least one character for each character. -/
theorem quoteChars_length (cs : List Char) : cs.length ≤ (quoteChars cs).length := by
  induction cs with
  | nil => simp [quoteChars]
  | cons c cs ih =>
    have : 1 ≤ (quoteChar c).length := by
      unfold quoteChar
      repeat (first | split | simp)
    simp only [quoteChars, List.length_append, List.length_cons]
    omega

/-- The characters written between the quotes read back, up to the closing quote. -/
theorem parseStringBody_quoteChars (cs : List Char) :
    ∀ (fuel : Nat) (t acc : List Char), cs.length < fuel →
      parseStringBody fuel (quoteChars cs ++ '"' :: t) acc = some (⟨acc.reverse ++ cs⟩, t) := by
  induction cs with
  | nil =>
    intro fuel t acc h
    obtain ⟨f, rfl⟩ : ∃ f, fuel = f + 1 := ⟨fuel - 1, by simp at h; omega⟩
    simp [quoteChars, parseStringBody]
  | cons c cs ih =>
    intro fuel t acc h
    obtain ⟨f, rfl⟩ : ∃ f, fuel = f + 1 := ⟨fuel - 1, by simp at h; omega⟩
    simp only [quoteChars, List.append_assoc]
    rw [parseStringBody_quoteChar, ih f t (c :: acc) (by simpa using h)]
    simp

/-- A string literal reads back as the string it was written for. -/
theorem parseString_quoteChars (s : String) (t : List Char) :
    parseString (quoteChars s.data ++ '"' :: t) = some (s, t) := by
  unfold parseString
  rw [parseStringBody_quoteChars s.data _ t []]
  · simp
  · have := quoteChars_length s.data
    simp only [List.length_append, List.length_cons]
    omega

/-- Digits in front of something that starts with no digit are read as a whole. -/
theorem takeWhile_digits_append (ds t : List Char) (hds : ds.all Char.isDigit = true)
    (ht : ∀ c, t.head? = some c → c.isDigit = false) :
    (ds ++ t).takeWhile Char.isDigit = ds ∧ (ds ++ t).dropWhile Char.isDigit = t := by
  induction ds with
  | nil =>
    cases t with
    | nil => simp
    | cons c t => simp [List.takeWhile, List.dropWhile, ht c rfl]
  | cons d ds ih =>
    simp only [List.all_cons, Bool.and_eq_true] at hds
    simp [List.takeWhile, List.dropWhile, hds.1, ih hds.2]

/-- The digits of a positive number do not start with a zero. -/
theorem natDigits_head (fuel n : Nat) (h : n ≤ fuel) (hn : 0 < n) :
    (natDigits fuel n []).head? ≠ some '0' := by
  induction fuel generalizing n with
  | zero => omega
  | succ k ih =>
    unfold natDigits
    split
    · rename_i hlt
      have key : ∀ j, j < 10 → 0 < j → digitChar j ≠ '0' := by decide
      simpa using key n hlt hn
    · rename_i hge
      rw [natDigits_acc]
      have := ih (n / 10) (by omega) (by omega)
      have hne := natDigits_ne_nil k (n / 10) []
      cases hd : natDigits k (n / 10) [] with
      | nil => exact absurd hd hne
      | cons c cs => rw [hd] at this; simpa using this

/-- The rendering of a natural number: digits, not empty, denoting the number,
with no zero in front unless it is the single digit 0. -/
theorem formatNat_digits (n : Nat) :
    (formatNat n).data.all Char.isDigit = true ∧ (formatNat n).data ≠ [] ∧
    digitsValue (formatNat n).data = n ∧
    ¬ ((formatNat n).data.head? = some '0' ∧ (formatNat n).data.length ≠ 1) := by
  have hs := natDigits_spec n n le_rfl
  refine ⟨hs.2, natDigits_ne_nil n n [], hs.1, ?_⟩
  rintro ⟨h1, h2⟩
  by_cases hn : 0 < n
  · exact natDigits_head n n le_rfl hn h1
  · have : n = 0 := by omega
    subst this
    exact h2 rfl

/-- Digits do not start with a minus sign. -/
theorem isDigit_ne_minus (ds : List Char) (hds : ds.all Char.isDigit = true) :
    ds.head? ≠ some '-' := by
  cases ds with
  | nil => simp
  | cons c cs =>
    simp only [List.all_cons, Bool.and_eq_true] at hds
    intro h
    simp only [List.head?_cons, Option.some.injEq] at h
    subst h
    exact absurd hds.1 (by decide)

/-- Reading a number literal that starts with given digits. -/
theorem parseNumber_of_digits (negative : Bool) (ds t : List Char)
    (hds : ds.all Char.isDigit = true) (hne : ds ≠ [])
    (hlead : ¬ (ds.head? = some '0' ∧ ds.length ≠ 1))
    (ht : ∀ c, t.head? = some c → c.isDigit = false) :
    parseNumber ((if negative then ['-'] else []) ++ (ds ++ t)) =
      match parseFraction t with
      | none => none
      | some (fraction, afterFraction) =>
        match parseExponent afterFraction with
        | none => none
        | some (exponent, afterExponent) =>
          some (if negative then
              -(if 0 ≤ exponent - (fraction.length : Int) then
                ((digitsValue (ds ++ fraction) *
                  10 ^ (exponent - (fraction.length : Int)).toNat : Nat) : ℚ)
              else mkRat (digitsValue (ds ++ fraction))
                (10 ^ (-(exponent - (fraction.length : Int))).toNat))
            else
              (if 0 ≤ exponent - (fraction.length : Int) then
                ((digitsValue (ds ++ fraction) *
                  10 ^ (exponent - (fraction.length : Int)).toNat : Nat) : ℚ)
              else mkRat (digitsValue (ds ++ fraction))
                (10 ^ (-(exponent - (fraction.length : Int))).toNat)), afterExponent) := by
  obtain ⟨h1, h2⟩ := takeWhile_digits_append ds t hds ht
  have hm := isDigit_ne_minus ds hds
  cases negative
  · have hh : (ds ++ t).head? ≠ some '-' := by
      cases ds with
      | nil => exact absurd rfl hne
      | cons c cs => simpa using hm
    simp only [Bool.false_eq_true, if_false, List.nil_append]
    unfold parseNumber
    simp only [hh, if_false, h1, h2, hne, false_or, hlead, decide_False, decide_eq_true_eq]
  · simp only [if_true, List.cons_append, List.nil_append]
    unfold parseNumber
    simp only [List.head?_cons, if_true, List.tail_cons, h1, h2, hne, false_or, hlead,
      decide_True]
    rfl
theorem decimalPlaces?_spec (d : Nat) : ∀ (fuel k0 k : Nat),
    decimalPlaces? d fuel k0 = some k → 10 ^ k % d = 0 := by
  intro fuel
  induction fuel with
  | zero => intro k0 k h; simp [decimalPlaces?] at h
  | succ f ih =>
    intro k0 k h
    unfold decimalPlaces? at h
    split at h
    · rename_i hz
      simp only [Option.some.injEq] at h
      subst h
      exact hz
    · exact ih _ _ h

/-- The rendering of an integer: a minus sign when negative, then the digits
of its magnitude. -/
theorem formatInt_data (z : Int) :
    (formatInt z).data = (if decide (z < 0) then ['-'] else []) ++ (formatNat z.natAbs).data := by
  unfold formatInt
  by_cases h : z < 0
  · simp [h, String.data_append]
  · simp [h]

/-- No fraction is read where no point stands. -/
theorem parseFraction_of_head (t : List Char) (h : t.head? ≠ some '.') :
    parseFraction t = some ([], t) := by
  simp [parseFraction, h]

/-- No exponent is read where no `e` stands. -/
theorem parseExponent_of_head (t : List Char) (h1 : t.head? ≠ some 'e') (h2 : t.head? ≠ some 'E') :
    parseExponent t = some (0, t) := by
  simp [parseExponent, h1, h2]

/-- What follows a value in a text (a comma or a closing bracket or brace) is
no digit, point or exponent mark. -/
theorem restOk_facts (rest : List Char)
    (hr : ∀ c, rest.head? = some c → c = ',' ∨ c = ']' ∨ c = '}') :
    (∀ c, rest.head? = some c → c.isDigit = false) ∧ rest.head? ≠ some '.' ∧
    rest.head? ≠ some 'e' ∧ rest.head? ≠ some 'E' := by
  refine ⟨?_, ?_, ?_, ?_⟩
  · intro c hc
    rcases hr c hc with rfl | rfl | rfl <;> decide
  · intro hc
    rcases hr _ hc with h | h | h <;> exact absurd h (by decide)
  · intro hc
    rcases hr _ hc with h | h | h <;> exact absurd h (by decide)
  · intro hc
    rcases hr _ hc with h | h | h <;> exact absurd h (by decide)

/-- The number written by two lists of digits one after the other. -/
theorem digitsValue_append_list (xs ys : List Char) :
    digitsValue (xs ++ ys) = digitsValue xs * 10 ^ ys.length + digitsValue ys := by
  induction ys using List.reverseRecOn generalizing xs with
  | nil => simp [digitsValue]
  | append_singleton ys c ih =>
    rw [← List.append_assoc, digitsValue_append, digitsValue_append, ih]
    simp only [List.length_append, List.length_cons, List.length_nil]
    ring

/-- The decimal places of `r`: `k` digits that denote `r`. -/
theorem fractionDigits_spec (k : Nat) : ∀ r : Nat, r < 10 ^ k →
    (fractionDigits k r).all Char.isDigit = true ∧ (fractionDigits k r).length = k ∧
    digitsValue (fractionDigits k r) = r := by
  induction k with
  | zero =>
    intro r hr
    simp at hr
    subst hr
    simp [fractionDigits, digitsValue]
  | succ k ih =>
    intro r hr
    have hlt : r % 10 ^ k < 10 ^ k := Nat.mod_lt _ (by positivity)
    obtain ⟨i1, i2, i3⟩ := ih (r % 10 ^ k) hlt
    have hs := digitChar_spec (r / 10 ^ k)
    have hq : r / 10 ^ k < 10 := by
      rw [Nat.div_lt_iff_lt_mul (by positivity)]
      rw [pow_succ] at hr
      linarith
    refine ⟨by simp [fractionDigits, hs.2.1, i1], by simp [fractionDigits, i2], ?_⟩
    have e : fractionDigits (k + 1) r = [digitChar (r / 10 ^ k)] ++ fractionDigits k (r % 10 ^ k) := rfl
    rw [e, digitsValue_append_list, i2, i3]
    have : digitsValue [digitChar (r / 10 ^ k)] = r / 10 ^ k := by
      simp only [digitsValue, List.foldl_cons, List.foldl_nil, zero_mul, zero_add]
      rw [hs.1]
      exact Nat.mod_eq_of_lt hq
    rw [this]
    have := Nat.div_add_mod r (10 ^ k)
    linarith [Nat.mul_comm (10 ^ k) (r / 10 ^ k)]

/-- Reading a fraction: a point and the digits after it. -/
theorem parseFraction_point (fs rest : List Char) (hfs : fs.all Char.isDigit = true)
    (hne : fs ≠ []) (hr : ∀ c, rest.head? = some c → c.isDigit = false) :
    parseFraction ('.' :: (fs ++ rest)) = some (fs, rest) := by
  obtain ⟨h1, h2⟩ := takeWhile_digits_append fs rest hfs hr
  simp [parseFraction, h1, h2, hne]

/-- Reading back the digits written for a number. -/
theorem parseNumber_renderNumber (x : ℚ) (a rest : List Char) (h : renderNumber? x = some a)
    (hr : ∀ c, rest.head? = some c → c = ',' ∨ c = ']' ∨ c = '}') :
    parseNumber (a ++ rest) = some (x, rest) := by
  obtain ⟨r1, r2, r3, r4⟩ := restOk_facts rest hr
  simp only [renderNumber?, Option.map_eq_some'] at h
  obtain ⟨k, hk, ha⟩ := h
  have hdiv := decimalPlaces?_spec _ _ _ _ hk
  have hdpos : 0 < x.den := x.den_pos
  by_cases hk0 : k = 0
  · subst hk0
    simp only [if_true] at ha
    subst ha
    have hd1 : x.den = 1 := by
      simp only [pow_zero] at hdiv
      have := Nat.mod_lt 1 hdpos
      by_contra hne
      have h2 : 1 < x.den := by omega
      rw [Nat.mod_eq_of_lt h2] at hdiv
      omega
    obtain ⟨f1, f2, f3, f4⟩ := formatNat_digits x.num.natAbs
    rw [formatInt_data, List.append_assoc,
      parseNumber_of_digits (decide (x.num < 0)) _ rest f1 f2 f4 r1,
      parseFraction_of_head rest r2]
    simp only [parseExponent_of_head rest r3 r4, List.append_nil, f3, List.length_nil,
      Nat.cast_zero, sub_zero, le_refl, if_true, Int.toNat_zero, pow_zero, mul_one,
      decide_eq_true_eq]
    have hx : ((x.num : ℤ) : ℚ) = x := Rat.coe_int_num_of_den_eq_one hd1
    congr 1
    congr 1
    by_cases hneg : x.num < 0
    · rw [if_pos hneg]
      have : ((x.num.natAbs : ℕ) : ℤ) = -x.num := by omega
      have h3 : ((x.num.natAbs : ℕ) : ℚ) = ((-x.num : ℤ) : ℚ) := by
        rw [← this, Int.cast_natCast]
      rw [h3]
      conv_rhs => rw [← hx]
      push_cast
      ring
    · rw [if_neg hneg]
      have : ((x.num.natAbs : ℕ) : ℤ) = x.num := by omega
      have h3 : ((x.num.natAbs : ℕ) : ℚ) = ((x.num : ℤ) : ℚ) := by
        rw [← this, Int.cast_natCast]
        rw [this]
      rw [h3]
      exact hx
  · simp only [hk0, if_false] at ha
    subst ha
    have hkpos : 0 < k := Nat.pos_of_ne_zero hk0
    have hdvd : x.den ∣ 10 ^ k := Nat.dvd_of_mod_eq_zero hdiv
    set M : ℕ := x.num.natAbs * (10 ^ k / x.den) with hM
    have h10 : 0 < 10 ^ k := by positivity
    obtain ⟨f1, f2, f3, f4⟩ := formatNat_digits (M / 10 ^ k)
    obtain ⟨g1, g2, g3⟩ := fractionDigits_spec k (M % 10 ^ k) (Nat.mod_lt _ h10)
    have gne : fractionDigits k (M % 10 ^ k) ≠ [] := by
      intro h0
      rw [h0] at g2
      simp at g2
      omega
    have ht : ∀ c, ('.' :: (fractionDigits k (M % 10 ^ k) ++ rest)).head? = some c →
        c.isDigit = false := by
      intro c hc
      simp only [List.head?_cons, Option.some.injEq] at hc
      subst hc
      decide
    have e1 : ((if x.num < 0 then ['-'] else []) ++ (formatNat (M / 10 ^ k)).data ++
          '.' :: fractionDigits k (M % 10 ^ k)) ++ rest =
        (if decide (x.num < 0) then ['-'] else []) ++
          ((formatNat (M / 10 ^ k)).data ++ '.' :: (fractionDigits k (M % 10 ^ k) ++ rest)) := by
      by_cases hneg : x.num < 0 <;> simp [hneg]
    rw [e1, parseNumber_of_digits (decide (x.num < 0)) _ _ f1 f2 f4 ht,
      parseFraction_point _ rest g1 gne r1]
    simp only [parseExponent_of_head rest r3 r4, g2, zero_sub, decide_eq_true_eq]
    have hneg0 : ¬ (0 : ℤ) ≤ -(k : ℤ) := by omega
    simp only [hneg0, if_false, neg_neg, Int.toNat_ofNat]
    have hmant : digitsValue ((formatNat (M / 10 ^ k)).data ++ fractionDigits k (M % 10 ^ k)) =
        M := by
      rw [digitsValue_append_list, f3, g2, g3]
      exact Nat.div_add_mod' M (10 ^ k)
    rw [hmant]
    have hdq : (x.den : ℚ) ≠ 0 := by exact_mod_cast hdpos.ne'
    have hc : ((10 ^ k / x.den : ℕ) : ℚ) = (10 : ℚ) ^ k / x.den := by
      rw [Nat.cast_div hdvd hdq]
      push_cast
      rfl
    have hq := natAbs_num_div_den x
    have hMq : ((M : ℤ) : ℚ) = (x.num.natAbs : ℚ) * ((10 : ℚ) ^ k / x.den) := by
      rw [Int.cast_natCast, hM, Nat.cast_mul, hc]
    have hval : mkRat M (10 ^ k) = |x| := by
      rw [Rat.mkRat_eq_div, hMq, ← hq]
      have h10q : ((10 : ℚ) ^ k) ≠ 0 := by positivity
      push_cast
      field_simp
      ring
    rw [hval]
    congr 1
    congr 1
    by_cases hneg : x.num < 0
    · rw [if_pos hneg]
      have : x < 0 := Rat.num_neg.mp hneg
      rw [abs_of_neg this]
      ring
    · rw [if_neg hneg]
      have : 0 ≤ x := Rat.num_nonneg.mp (not_lt.mp hneg)
      rw [abs_of_nonneg this]

/-- The digits of a number start with a minus sign or a digit. -/
theorem renderNumber?_head (x : ℚ) (a : List Char) (h : renderNumber? x = some a) :
    ∃ c t, a = c :: t ∧ (c = '-' ∨ c.isDigit = true) := by
  simp only [renderNumber?, Option.map_eq_some'] at h
  obtain ⟨k, -, ha⟩ := h
  have keyNat : ∀ n : Nat, ∃ c t, (formatNat n).data = c :: t ∧ c.isDigit = true := by
    intro n
    obtain ⟨f1, f2, -, -⟩ := formatNat_digits n
    cases hd : (formatNat n).data with
    | nil => exact absurd hd f2
    | cons c t =>
      rw [hd] at f1
      simp only [List.all_cons, Bool.and_eq_true] at f1
      exact ⟨c, t, rfl, f1.1⟩
  split at ha
  · subst ha
    rw [formatInt_data]
    by_cases hz : x.num < 0
    · simp only [hz, decide_True, if_true, List.cons_append, List.nil_append]
      exact ⟨_, _, rfl, Or.inl rfl⟩
    · obtain ⟨c, t, hc, hcd⟩ := keyNat x.num.natAbs
      simp only [hz, decide_False, Bool.false_eq_true, if_false, List.nil_append, hc]
      exact ⟨_, _, rfl, Or.inr hcd⟩
  · subst ha
    by_cases hz : x.num < 0
    · simp only [hz, if_true, List.cons_append, List.nil_append]
      exact ⟨_, _, rfl, Or.inl rfl⟩
    · obtain ⟨c, t, hc, hcd⟩ := keyNat (x.num.natAbs * (10 ^ k / x.den) / 10 ^ k)
      simp only [hz, if_false, List.nil_append, hc, List.cons_append]
      exact ⟨_, _, rfl, Or.inr hcd⟩

/-- The ten decimal digits. -/
theorem isDigit_cases (c : Char) (h : c.isDigit = true) :
    c = '0' ∨ c = '1' ∨ c = '2' ∨ c = '3' ∨ c = '4' ∨ c = '5' ∨ c = '6' ∨ c = '7' ∨ c = '8' ∨
      c = '9' := by
  simp only [Char.isDigit, Bool.and_eq_true, decide_eq_true_eq] at h
  have h1 : 48 ≤ c.val.toNat := by
    have := h.1
    simpa [UInt32.le_def] using this
  have h2 : c.val.toNat ≤ 57 := by
    have := h.2
    simpa [UInt32.le_def] using this
  have hc : c = Char.ofNat c.val.toNat := (Char.ofNat_toNat c).symm
  generalize c.val.toNat = n at h1 h2 hc
  subst hc
  interval_cases n <;> simp

/-- The characters a JSON value can start with, one by one. -/
theorem head_cases (c : Char)
    (hc : c = 'n' ∨ c = 't' ∨ c = 'f' ∨ c = '"' ∨ c = '[' ∨ c = '{' ∨ c = '-' ∨
      c.isDigit = true) :
    c = 'n' ∨ c = 't' ∨ c = 'f' ∨ c = '"' ∨ c = '[' ∨ c = '{' ∨ c = '-' ∨
      c = '0' ∨ c = '1' ∨ c = '2' ∨ c = '3' ∨ c = '4' ∨ c = '5' ∨ c = '6' ∨ c = '7' ∨ c = '8' ∨
      c = '9' := by
  rcases hc with h | h | h | h | h | h | h | h
  iterate 7 tauto
  have hd := isDigit_cases c h
  tauto

/-- No white space is skipped in front of a value. -/
theorem skipSpace_head (c : Char) (t : List Char)
    (hc : c = 'n' ∨ c = 't' ∨ c = 'f' ∨ c = '"' ∨ c = '[' ∨ c = '{' ∨ c = '-' ∨
      c.isDigit = true) :
    skipSpace (c :: t) = c :: t := by
  rcases head_cases c hc with
    rfl | rfl | rfl | rfl | rfl | rfl | rfl | rfl | rfl | rfl | rfl | rfl | rfl | rfl | rfl |
    rfl | rfl <;> rfl

/-- The first character of the text of a value. -/
theorem render?_head (v : JVal) (a : List Char) (h : v.render? = some a) :
    ∃ c t, a = c :: t ∧ (c = 'n' ∨ c = 't' ∨ c = 'f' ∨ c = '"' ∨ c = '[' ∨ c = '{' ∨ c = '-' ∨
      c.isDigit = true) := by
  cases v with
  | null => simp [JVal.render?] at h; subst h; exact ⟨_, _, rfl, by simp⟩
  | bool b =>
    cases b <;> simp [JVal.render?] at h <;> subst h <;> exact ⟨_, _, rfl, by simp⟩
  | number x =>
    obtain ⟨c, t, hc, hcd⟩ := renderNumber?_head x a (by simpa [JVal.render?] using h)
    exact ⟨c, t, hc, by tauto⟩
  | str s => simp [JVal.render?, quoteString] at h; subst h; exact ⟨_, _, rfl, by simp⟩
  | arr items =>
    cases items with
    | nil => simp [JVal.render?] at h; subst h; exact ⟨_, _, rfl, by simp⟩
    | cons w ws =>
      simp only [JVal.render?] at h
      split at h
      · simp at h; subst h; exact ⟨_, _, rfl, by simp⟩
      · simp at h
  | obj members =>
    cases members with
    | nil => simp [JVal.render?] at h; subst h; exact ⟨_, _, rfl, by simp⟩
    | cons m ms =>
      obtain ⟨k, w⟩ := m
      simp only [JVal.render?] at h
      split at h
      · simp at h; subst h; exact ⟨_, _, rfl, by simp⟩
      · simp at h
  | unsupported => simp [JVal.render?] at h

/-- Reading a number where a value is expected. -/
theorem parseValue_number (fuel depth : Nat) (x : ℚ) (a rest : List Char)
    (h : renderNumber? x = some a)
    (hr : ∀ c, rest.head? = some c → c = ',' ∨ c = ']' ∨ c = '}') :
    parseValue (fuel + 1) depth (a ++ rest) = some (.number x, rest) := by
  have hp := parseNumber_renderNumber x a rest h hr
  obtain ⟨c, t, rfl, hc2⟩ := renderNumber?_head x a h
  rw [List.cons_append] at hp ⊢
  rw [parseValue, skipSpace_head c _ (by tauto)]
  have hd : c = '-' ∨ c = '0' ∨ c = '1' ∨ c = '2' ∨ c = '3' ∨ c = '4' ∨ c = '5' ∨ c = '6' ∨
      c = '7' ∨ c = '8' ∨ c = '9' := by
    rcases hc2 with h | h
    · exact Or.inl h
    · exact Or.inr (isDigit_cases c h)
  rcases hd with rfl | rfl | rfl | rfl | rfl | rfl | rfl | rfl | rfl | rfl | rfl <;>
    simp [hp]

/-- What follows an element of an array is a comma or the closing bracket. -/
theorem renderMore?_head (vs : List JVal) (b rest : List Char) (h : renderMore? vs = some b) :
    ∀ c, (b ++ ']' :: rest).head? = some c → c = ',' ∨ c = ']' ∨ c = '}' := by
  intro c hc
  cases vs with
  | nil => simp [renderMore?] at h; subst h; simp at hc; tauto
  | cons w ws =>
    simp only [renderMore?] at h
    split at h
    · simp at h; subst h; simp at hc; tauto
    · simp at h

/-- What follows a member of an object is a comma or the closing brace. -/
theorem renderMoreMembers?_head (ms : List (String × JVal)) (b rest : List Char)
    (h : renderMoreMembers? ms = some b) :
    ∀ c, (b ++ '}' :: rest).head? = some c → c = ',' ∨ c = ']' ∨ c = '}' := by
  intro c hc
  cases ms with
  | nil => simp [renderMoreMembers?] at h; subst h; simp at hc; tauto
  | cons m ms =>
    obtain ⟨k, w⟩ := m
    simp only [renderMoreMembers?] at h
    split at h
    · simp at h; subst h; simp at hc; tauto
    · simp at h

/-- Reading back the text of a value, of the elements of an array and of the
members of an object, by induction on the fuel. -/
theorem parse_render_aux (fuel : Nat) :
    (∀ (v : JVal) (a : List Char) (depth : Nat) (rest : List Char),
      v.render? = some a → a.length ≤ fuel →
      depth + v.nesting ≤ maxNestingDepth →
      (∀ c, rest.head? = some c → c = ',' ∨ c = ']' ∨ c = '}') →
      parseValue fuel depth (a ++ rest) = some (v, rest)) ∧
    (∀ (v : JVal) (vs : List JVal) (a b : List Char) (depth : Nat) (rest : List Char)
      (acc : List JVal),
      v.render? = some a → renderMore? vs = some b →
      a.length + b.length + 1 ≤ fuel →
      depth + max v.nesting (nestingList vs) ≤ maxNestingDepth →
      parseElements fuel depth (a ++ (b ++ ']' :: rest)) acc =
        some (acc.reverse ++ v :: vs, rest)) ∧
    (∀ (k : String) (v : JVal) (ms : List (String × JVal)) (a b : List Char) (depth : Nat)
      (rest : List Char) (acc : List (String × JVal)),
      v.render? = some a → renderMoreMembers? ms = some b →
      a.length + b.length + 1 ≤ fuel →
      depth + max v.nesting (nestingMembers ms) ≤ maxNestingDepth →
      parseMembers fuel depth
          ('"' :: (quoteChars k.data ++ '"' :: ':' :: (a ++ (b ++ '}' :: rest)))) acc =
        some (acc.reverse ++ (k, v) :: ms, rest)) := by
  induction fuel with
  | zero =>
    refine ⟨?_, ?_, ?_⟩
    · intro v a depth rest h hl hd hr
      obtain ⟨c, t, rfl, -⟩ := render?_head v a h
      simp at hl
    · intro v vs a b depth rest acc h1 h2 hl; omega
    · intro k v ms a b depth rest acc h1 h2 hl; omega
  | succ fuel ih =>
    obtain ⟨ihA, ihB, ihC⟩ := ih
    refine ⟨?_, ?_, ?_⟩
    · intro v a depth rest h hl hd hr
      cases v with
      | null => simp [JVal.render?] at h; subst h; rfl
      | bool b => cases b <;> simp [JVal.render?] at h <;> subst h <;> rfl
      | number x => exact parseValue_number fuel depth x a rest (by simpa [JVal.render?] using h) hr
      | str s =>
        simp [JVal.render?, quoteString] at h; subst h
        simp [parseValue, skipSpace, isJsonSpace, parseString_quoteChars]
      | arr items =>
        have hd2 : ¬ maxNestingDepth ≤ depth := by simp [JVal.nesting] at hd; omega
        cases items with
        | nil =>
          simp [JVal.render?] at h; subst h
          simp [parseValue, skipSpace, isJsonSpace, hd2]
        | cons w ws =>
          simp only [JVal.render?] at h
          split at h
          · rename_i a1 b1 h1 h2
            simp only [Option.some.injEq] at h; subst h
            simp only [JVal.nesting, nestingList] at hd
            have hB := ihB w ws a1 b1 (depth + 1) rest [] h1 h2
              (by simp at hl; omega) (by omega)
            obtain ⟨c, t, rfl, hc⟩ := render?_head w a1 h1
            simp only [List.cons_append, List.append_assoc, List.nil_append]
            rw [parseValue]
            simp only [List.cons_append] at hB
            have s1 : skipSpace ('[' :: c :: (t ++ (b1 ++ ']' :: rest))) =
                '[' :: c :: (t ++ (b1 ++ ']' :: rest)) := rfl
            rw [s1]
            simp only [hd2, if_false]
            rw [skipSpace_head c _ hc]
            rcases head_cases c hc with
              rfl | rfl | rfl | rfl | rfl | rfl | rfl | rfl | rfl | rfl | rfl | rfl | rfl | rfl |
              rfl | rfl | rfl <;> simp [hB]
          · simp at h
      | obj members =>
        have hd2 : ¬ maxNestingDepth ≤ depth := by simp [JVal.nesting] at hd; omega
        cases members with
        | nil =>
          simp [JVal.render?] at h; subst h
          simp [parseValue, skipSpace, isJsonSpace, hd2]
        | cons m ms =>
          obtain ⟨k, w⟩ := m
          simp only [JVal.render?] at h
          split at h
          · rename_i a1 b1 h1 h2
            simp only [Option.some.injEq] at h; subst h
            simp only [JVal.nesting, nestingMembers] at hd
            have hC := ihC k w ms a1 b1 (depth + 1) rest [] h1 h2
              (by simp [quoteString] at hl; omega) (by omega)
            simp only [quoteString, List.cons_append, List.append_assoc, List.nil_append]
            rw [parseValue]
            have s1 : skipSpace ('{' :: '"' :: (quoteChars k.data ++ '"' :: ':' :: (a1 ++ (b1 ++ '}' :: rest)))) =
                '{' :: '"' :: (quoteChars k.data ++ '"' :: ':' :: (a1 ++ (b1 ++ '}' :: rest))) := rfl
            rw [s1]
            simp only [hd2, if_false]
            rw [skipSpace_head '"' _ (by simp)]
            simp [hC]
          · simp at h
      | unsupported => simp [JVal.render?] at h
    · intro v vs a b depth rest acc h1 h2 hl hd
      rw [parseElements, ihA v a depth (b ++ ']' :: rest) h1 (by omega) (by omega)
        (renderMore?_head vs b rest h2)]
      cases vs with
      | nil =>
        simp [renderMore?] at h2; subst h2
        simp [skipSpace, isJsonSpace]
      | cons w ws =>
        simp only [renderMore?] at h2
        split at h2
        · rename_i a1 b1 g1 g2
          simp only [Option.some.injEq] at h2; subst h2
          simp only [nestingList] at hd
          have hB := ihB w ws a1 b1 depth rest (v :: acc) g1 g2
            (by simp at hl; omega) (by omega)
          simp [skipSpace, isJsonSpace, hB]
        · simp at h2
    · intro k v ms a b depth rest acc h1 h2 hl hd
      rw [parseMembers, skipSpace_head '"' _ (by simp)]
      simp only [parseString_quoteChars]
      have s1 : skipSpace (':' :: (a ++ (b ++ '}' :: rest))) = ':' :: (a ++ (b ++ '}' :: rest)) := rfl
      simp only [s1]
      rw [ihA v a depth (b ++ '}' :: rest) h1 (by omega) (by omega)
        (renderMoreMembers?_head ms b rest h2)]
      cases ms with
      | nil =>
        simp [renderMoreMembers?] at h2; subst h2
        simp [skipSpace, isJsonSpace]
      | cons m ms =>
        obtain ⟨k2, w⟩ := m
        simp only [renderMoreMembers?] at h2
        split at h2
        · rename_i a1 b1 g1 g2
          simp only [Option.some.injEq] at h2; subst h2
          simp only [nestingMembers] at hd
          have hC := ihC k2 w ms a1 b1 depth rest ((k, v) :: acc) g1 g2
            (by simp [quoteString] at hl; omega) (by omega)
          simp [skipSpace, isJsonSpace, quoteString, hC]
        · simp at h2

/-- Reading back what `json.Marshal` writes: the text of a value nested no
deeper than the decoder accepts parses to that value. -/
theorem jsonParse_render (v : JVal) (text : List Char) (h : v.render? = some text)
    (hd : v.nesting ≤ maxNestingDepth) :
    jsonParse ⟨text⟩ = some v := by
  have := (parse_render_aux (2 * text.length + 2)).1 v text 0 [] h (by omega) (by omega)
    (by simp)
  simp only [List.append_nil] at this
  simp [jsonParse, this, skipSpace]

/-- The UTF-8 encoding of a character is not empty. -/
theorem utf8EncodeChar_ne_nil (c : Char) : utf8EncodeChar c ≠ [] := by
  unfold utf8EncodeChar
  simp only
  split
  · simp
  · split
    · simp
    · split <;> simp

/-- The function `utf8.DecodeRune` reads back the encoding of a character. -/
theorem decodeRune_encode (c : Char) (rest : Bytes) :
    decodeRune (utf8EncodeChar c ++ rest) = (c.val.toNat, (utf8EncodeChar c).length) := by
  have hv := c.valid
  have hv2 : c.val.toNat < 0xD800 ∨ (0xDFFF < c.val.toNat ∧ c.val.toNat < 0x110000) := by
    simpa [UInt32.isValidChar, Nat.isValidChar] using hv
  unfold utf8EncodeChar
  simp only
  generalize c.val.toNat = v at hv2 ⊢
  split
  · simp [decodeRune, *]
  · split
    · have h1 : ¬ (0xC0 + v / 0x40 < 0x80) := by omega
      have h2 : 0xC2 ≤ 0xC0 + v / 0x40 ∧ 0xC0 + v / 0x40 ≤ 0xDF := by omega
      have h3 : isContinuation (0x80 + v % 0x40) = true := by simp [isContinuation]; omega
      simp only [decodeRune, List.cons_append, List.nil_append, h1, h2, h3, if_true, if_false,
        and_self, List.length_cons, List.length_nil, Prod.mk.injEq, and_true]
      omega
    · split
      · have h1 : ¬ (0xE0 + v / 0x1000 < 0x80) := by omega
        have h2 : ¬ (0xC2 ≤ 0xE0 + v / 0x1000 ∧ 0xE0 + v / 0x1000 ≤ 0xDF) := by omega
        have h3 : 0xE0 ≤ 0xE0 + v / 0x1000 ∧ 0xE0 + v / 0x1000 ≤ 0xEF := by omega
        have h4 : isContinuation (0x80 + v % 0x40) = true := by simp [isContinuation]; omega
        have h5 : (if 0xE0 + v / 0x1000 = 0xE0 then 0xA0 else 0x80) ≤ 0x80 + (v / 0x40) % 0x40 := by
          split <;> omega
        have h6 : 0x80 + (v / 0x40) % 0x40 ≤ (if 0xE0 + v / 0x1000 = 0xED then 0x9F else 0xBF) := by
          split <;> omega
        simp only [decodeRune, List.cons_append, List.nil_append, h1, h2, h3, h4, h5, h6, if_true,
          if_false, and_self, List.length_cons, List.length_nil, Prod.mk.injEq, and_true]
        omega
      · have h1 : ¬ (0xF0 + v / 0x40000 < 0x80) := by omega
        have h2 : ¬ (0xC2 ≤ 0xF0 + v / 0x40000 ∧ 0xF0 + v / 0x40000 ≤ 0xDF) := by omega
        have h3 : ¬ (0xE0 ≤ 0xF0 + v / 0x40000 ∧ 0xF0 + v / 0x40000 ≤ 0xEF) := by omega
        have h3b : 0xF0 ≤ 0xF0 + v / 0x40000 ∧ 0xF0 + v / 0x40000 ≤ 0xF4 := by omega
        have h4 : isContinuation (0x80 + v % 0x40) = true := by simp [isContinuation]; omega
        have h4b : isContinuation (0x80 + (v / 0x40) % 0x40) = true := by
          simp [isContinuation]; omega
        have h5 : (if 0xF0 + v / 0x40000 = 0xF0 then 0x90 else 0x80) ≤
            0x80 + (v / 0x1000) % 0x40 := by
          split <;> omega
        have h6 : 0x80 + (v / 0x1000) % 0x40 ≤
            (if 0xF0 + v / 0x40000 = 0xF4 then 0x8F else 0xBF) := by
          split <;> omega
        simp only [decodeRune, List.cons_append, List.nil_append, h1, h2, h3, h3b, h4, h4b, h5, h6,
          if_true, if_false, and_self, List.length_cons, List.length_nil, Prod.mk.injEq, and_true]
        omega

/-- The encoding of a character is one byte below 0x80, or two or more bytes
the first of which is not below 0x80. -/
theorem utf8EncodeChar_head (c : Char) :
    (c.val.toNat < 0x80 ∧ utf8EncodeChar c = [c.val.toNat]) ∨
    (∃ b bs, utf8EncodeChar c = b :: bs ∧ ¬ b < 0x80 ∧ 2 ≤ (b :: bs).length) := by
  unfold utf8EncodeChar
  simp only
  split
  · left; exact ⟨by assumption, rfl⟩
  · right
    split
    · exact ⟨_, _, rfl, by omega, by simp⟩
    · split
      · exact ⟨_, _, rfl, by omega, by simp⟩
      · exact ⟨_, _, rfl, by omega, by simp⟩

/-- On the bytes of a text the encoder writes what it writes for the text. -/
theorem quoteBytes_encode (cs : List Char) :
    ∀ fuel : Nat, cs.length ≤ fuel →
      quoteBytes fuel (cs.flatMap utf8EncodeChar) = quoteChars cs := by
  induction cs with
  | nil => intro fuel _; cases fuel <;> rfl
  | cons c cs ih =>
    intro fuel h
    obtain ⟨f, rfl⟩ : ∃ f, fuel = f + 1 := ⟨fuel - 1, by simp at h; omega⟩
    have hf : cs.length ≤ f := by simpa using h
    have hd := decodeRune_encode c (cs.flatMap utf8EncodeChar)
    simp only [List.flatMap_cons, quoteChars]
    rcases utf8EncodeChar_head c with ⟨hlt, he⟩ | ⟨b, bs, he, hb, hlen⟩
    · rw [he]
      simp only [List.cons_append, List.nil_append, quoteBytes, hlt, if_true]
      show quoteChar (Char.ofNat c.val.toNat) ++ quoteBytes f (cs.flatMap utf8EncodeChar) = _
      rw [ih f hf]
      exact congrArg (fun x => quoteChar x ++ quoteChars cs) (Char.ofNat_toNat c)
    · rw [he] at hd ⊢
      simp only [List.cons_append] at hd ⊢
      have hne : decodeRune (b :: (bs ++ cs.flatMap utf8EncodeChar)) ≠ (0xFFFD, 1) := by
        rw [hd]
        intro hh
        have := congrArg Prod.snd hh
        simp only at this
        omega
      rw [quoteBytes]
      simp only [hb, hne, if_false]
      rw [hd]
      simp only
      have e : List.drop (b :: bs).length (b :: (bs ++ cs.flatMap utf8EncodeChar)) =
          cs.flatMap utf8EncodeChar := by
        rw [← List.cons_append, List.drop_left]
      rw [e, ih f hf]
      exact congrArg (fun x => quoteChar x ++ quoteChars cs) (Char.ofNat_toNat c)

/-- A text has no more characters than bytes. -/
theorem stringBytes_length (s : String) : s.data.length ≤ (stringBytes s).length := by
  unfold stringBytes
  induction s.data with
  | nil => simp
  | cons c cs ih =>
    have : 1 ≤ (utf8EncodeChar c).length := by
      cases h : utf8EncodeChar c with
      | nil => exact absurd h (utf8EncodeChar_ne_nil c)
      | cons b bs => simp
    simp only [List.flatMap_cons, List.length_append, List.length_cons]
    omega

/-- A Go string that is well-formed UTF-8 is written as the string literal of
the text it encodes. -/
theorem quoteGoString_stringBytes (s : String) :
    quoteGoString (stringBytes s) = quoteString s := by
  unfold quoteGoString quoteString
  rw [show quoteBytes (stringBytes s).length (stringBytes s) = quoteChars s.data from
    quoteBytes_encode s.data _ (stringBytes_length s)]

mutual

/-- A value a decoder can hold decodes to itself. -/
theorem JVal.float64?_of_float64Valued : ∀ (v : JVal), v.float64Valued → v.float64? = some v
  | .null, _ => rfl
  | .bool _, _ => rfl
  | .number x, h => by
    have := roundFloat64_of_isFloat64 x (by simpa [JVal.float64Valued] using h)
    simp [JVal.float64?, this]
  | .str _, _ => rfl
  | .arr items, h => by
    have := float64List?_of_float64Valued items (by simpa [JVal.float64Valued] using h)
    simp [JVal.float64?, this]
  | .obj members, h => by
    have := float64Members?_of_float64Valued members (by simpa [JVal.float64Valued] using h)
    simp [JVal.float64?, this]
  | .unsupported, h => by simp [JVal.float64Valued] at h

/-- Elements a decoder can hold decode to themselves. -/
theorem float64List?_of_float64Valued : ∀ (vs : List JVal), float64ValuedList vs →
    float64List? vs = some vs
  | [], _ => rfl
  | v :: vs, h => by
    simp only [float64ValuedList] at h
    have e1 := JVal.float64?_of_float64Valued v h.1
    have e2 := float64List?_of_float64Valued vs h.2
    simp [float64List?, e1, e2]

/-- Members a decoder can hold decode to themselves. -/
theorem float64Members?_of_float64Valued : ∀ (ms : List (String × JVal)),
    float64ValuedMembers ms → float64Members? ms = some ms
  | [], _ => rfl
  | (k, v) :: ms, h => by
    simp only [float64ValuedMembers] at h
    have e1 := JVal.float64?_of_float64Valued v h.1
    have e2 := float64Members?_of_float64Valued ms h.2
    simp [float64Members?, e1, e2]

end

/-- The text `json.Marshal` writes for the envelope of an unsigned text message. -/
theorem render?_text_envelope (t : String) :
    JVal.render? (.obj [("msg_type", .str "text"), ("content", .obj [("text", .str t)])]) =
      some ("\x7b\"msg_type\":\"text\",\"content\":\x7b\"text\":".data ++ quoteString t ++
        "\x7d\x7d".data) := by
  simp only [JVal.render?, renderMoreMembers?]
  have e1 : quoteString "msg_type" = "\"msg_type\"".data := by rfl
  have e2 : quoteString "text" = "\"text\"".data := by rfl
  have e3 : quoteString "content" = "\"content\"".data := by rfl
  rw [e1, e2, e3]
  simp

/-- No Go string that is well-formed UTF-8 is the single byte 0xFF. -/
theorem stringBytes_ne_ff (t : String) : stringBytes t ≠ [0xFF] := by
  unfold stringBytes
  cases t.data with
  | nil => simp
  | cons c cs =>
    simp only [List.flatMap_cons]
    intro h
    rcases utf8EncodeChar_head c with ⟨hlt, he⟩ | ⟨b, bs, he, hb, hlen⟩
    · rw [he] at h
      simp only [List.cons_append, List.nil_append, List.cons.injEq] at h
      omega
    · rw [he] at h
      have := congrArg List.length h
      simp only [List.length_append, List.length_cons, List.length_nil] at this hlen
      omega

/-! ## Facts about the encoding of a request -/

/-- The result of `GenSign`, through the HMAC of RFC 2104. -/
theorem GenSign_eq (secret : String) (timestamp : Int) :
    GenSign secret timestamp = .ok (base64StdEncodeToString
      (hmacSha256 (stringBytes (formatInt timestamp ++ "\n" ++ secret)) [])) := by
  simp [GenSign, HMAC.sum_new]

/-- The encoding of an envelope whose `Timestamp` and `Sign` are not empty. -/
theorem WebhookRequest.toJSON_signed (r : WebhookRequest) (ht : r.Timestamp ≠ "")
    (hs : r.Sign ≠ "") :
    r.toJSON = .obj [("timestamp", .str r.Timestamp), ("sign", .str r.Sign),
      ("msg_type", .str r.MsgType), ("content", r.Content.toJSON)] := by
  simp [WebhookRequest.toJSON, omitEmptyString, ht, hs]

/-- The encoding of an envelope whose `Timestamp` and `Sign` are empty. -/
theorem WebhookRequest.toJSON_unsigned (r : WebhookRequest) (ht : r.Timestamp = "")
    (hs : r.Sign = "") :
    r.toJSON = .obj [("msg_type", .str r.MsgType), ("content", r.Content.toJSON)] := by
  simp [WebhookRequest.toJSON, omitEmptyString, ht, hs]

/-! ## The claims -/

/-- C1. Signed send: for every client with a non-empty secret, every message and
every wall-clock time `t`, `SendMessage` hands `sendRequest` an envelope whose
encoding has the keys `timestamp` and `sign`; `timestamp` holds the decimal
rendering of `t` (the numeral reads back as `t`), `sign` holds a non-empty
string of 44 characters of the base64 alphabet or `=`, and that string is the
result of `GenSign(secret, t)` for the same `t`. -/
theorem C1_signed_send (c : Client) (t : Int) (m : Message) (h : c.Secret ≠ "") :
    ∃ sign : String,
      GenSign c.Secret t = .ok sign ∧
      sign ≠ "" ∧ sign.length = 44 ∧
      (∀ ch ∈ sign.data, ch ∈ base64Alphabet ∨ ch = '=') ∧
      decimalInt? (formatInt t) = some t ∧
      c.SendMessage t m = c.sendRequest
        { Timestamp := formatInt t, Sign := sign, MsgType := m.MsgType, Content := m.Content } ∧
      WebhookRequest.toJSON
        { Timestamp := formatInt t, Sign := sign, MsgType := m.MsgType, Content := m.Content } =
        .obj [("timestamp", .str (formatInt t)), ("sign", .str sign),
              ("msg_type", .str m.MsgType), ("content", m.Content.toJSON)] := by
  have hlen : (base64StdEncodeToString
      (hmacSha256 (stringBytes (formatInt t ++ "\n" ++ c.Secret)) [])).length = 44 := by
    simp [base64StdEncodeToString, String.length, base64EncodeChars_length, hmacSha256_length]
  have hne : base64StdEncodeToString
      (hmacSha256 (stringBytes (formatInt t ++ "\n" ++ c.Secret)) []) ≠ "" := by
    intro h0
    rw [h0] at hlen
    exact absurd hlen (by decide)
  refine ⟨base64StdEncodeToString (hmacSha256 (stringBytes (formatInt t ++ "\n" ++ c.Secret)) []),
    GenSign_eq c.Secret t, hne, hlen, ?_, decimalInt?_formatInt t, ?_, ?_⟩
  · intro ch hch
    exact base64EncodeChars_mem _ ch hch
  · simp [Client.SendMessage, Client.sendMessageWithSign, h, GenSign_eq]
  · exact WebhookRequest.toJSON_signed _ (formatInt_ne_empty t) hne

/-- Witness of C1: a client with the secret "abc" sending a text message at
time 1640995200. -/
theorem C1_signed_send_witness :
    (NewClient (mockServer 200 "\x7b\"code\":0,\"msg\":\"success\"\x7d") "https://example.com/hook"
        ["abc"]).Secret ≠ "" ∧
    ∃ sign : String, GenSign "abc" 1640995200 = .ok sign ∧ sign ≠ "" ∧
      WebhookRequest.toJSON
        { Timestamp := formatInt 1640995200, Sign := sign, MsgType := "text",
          Content := .text { Text := "hi" } } =
        .obj [("timestamp", .str "1640995200"), ("sign", .str sign),
              ("msg_type", .str "text"), ("content", .obj [("text", .str "hi")])] := by
  obtain ⟨sign, h1, h2, _, _, _, _, h3⟩ := C1_signed_send
    (NewClient (mockServer 200 "\x7b\"code\":0,\"msg\":\"success\"\x7d") "https://example.com/hook" ["abc"])
    1640995200 (NewTextMessage "hi") (by decide)
  exact ⟨by decide, sign, h1, h2, h3⟩

/-- C2. Unsigned send: for every client whose secret is the empty string and
every message, `SendMessage` hands `sendRequest` an envelope whose encoding is
the object with exactly the keys `msg_type` and `content`; it has no
`timestamp` member and no `sign` member. -/
theorem C2_unsigned_send (c : Client) (t : Int) (m : Message) (h : c.Secret = "") :
    c.SendMessage t m = c.sendRequest { MsgType := m.MsgType, Content := m.Content } ∧
    WebhookRequest.toJSON { MsgType := m.MsgType, Content := m.Content } =
      .obj [("msg_type", .str m.MsgType), ("content", m.Content.toJSON)] ∧
    (WebhookRequest.toJSON { MsgType := m.MsgType, Content := m.Content }).keys =
      ["msg_type", "content"] ∧
    (WebhookRequest.toJSON { MsgType := m.MsgType, Content := m.Content }).get? "timestamp" = none ∧
    (WebhookRequest.toJSON { MsgType := m.MsgType, Content := m.Content }).get? "sign" = none := by
  refine ⟨?_, ?_, ?_, ?_, ?_⟩
  · simp [Client.SendMessage, Client.sendMessageWithoutSign, h]
  · exact WebhookRequest.toJSON_unsigned _ rfl rfl
  · rw [WebhookRequest.toJSON_unsigned _ rfl rfl]; rfl
  · rw [WebhookRequest.toJSON_unsigned _ rfl rfl]; rfl
  · rw [WebhookRequest.toJSON_unsigned _ rfl rfl]; rfl

/-- Witness of C2: a client made without a secret sending an image message. -/
theorem C2_unsigned_send_witness :
    (NewClient (mockServer 200 "\x7b\"code\":0,\"msg\":\"success\"\x7d") "https://example.com/hook"
        []).Secret = "" ∧
    (WebhookRequest.toJSON { MsgType := "image", Content := .image { ImageKey := "img_v2" } }).keys =
      ["msg_type", "content"] :=
  ⟨rfl, (C2_unsigned_send
    (NewClient (mockServer 200 "\x7b\"code\":0,\"msg\":\"success\"\x7d") "https://example.com/hook" [])
    0 (NewImageMessage "img_v2") rfl).2.2.1⟩

/-- C3. For every secret and every timestamp (every integer, the 64-bit ones
among them), `GenSign` returns, without error, the standard padded base64
encoding of the HMAC-SHA256 whose key is the UTF-8 text of
`decimal(timestamp) ++ "\n" ++ secret` and whose message is empty. -/
theorem C3_gensign_hmac (secret : String) (timestamp : Int) :
    GenSign secret timestamp = .ok (base64StdEncodeToString
      (hmacSha256 (stringBytes (formatInt timestamp ++ "\n" ++ secret)) [])) :=
  GenSign_eq secret timestamp

/-! ## Facts about `sendRequest` -/

/-- Decoding a body that is an object whose numbers fit `float64`. -/
theorem jsonUnmarshalMap_obj (data : String) (raw members : List (String × JVal))
    (hbody : jsonParse data = some (.obj raw)) (hdec : float64Members? raw = some members) :
    jsonUnmarshalMap data = .ok members := by
  simp [jsonUnmarshalMap, hbody, hdec]

/-- The result of `sendRequest` once the answer has status 200 and is decoded. -/
theorem sendRequest_of_decoded (c : Client) (request : WebhookRequest) (resp : Response)
    (members : List (String × JVal))
    (hpost : c.client c.WebhookURL [("Content-Type", "application/json")] request.toJSON = .ok resp)
    (hstatus : resp.statusCode = 200) (hdec : jsonUnmarshalMap resp.body = .ok members) :
    c.sendRequest request =
      match mapIndex members "code" with
      | .number code =>
        if code ≠ 0 then
          some (.feishuWebhookError (mapIndex members "code") (mapIndex members "msg"))
        else none
      | _ => none := by
  simp [Client.sendRequest, hpost, hstatus, hdec]

/-- C5. For every response whose status is not 200, whatever its body,
`sendRequest` fails with the error made by
`fmt.Errorf("request failed with status: %d, body: %s", ...)`, carrying the
status and the body as `resp.String()` gives it. -/
theorem C5_status_error (c : Client) (request : WebhookRequest) (resp : Response)
    (hpost : c.client c.WebhookURL [("Content-Type", "application/json")] request.toJSON = .ok resp)
    (hstatus : resp.statusCode ≠ 200) :
    c.sendRequest request = some (.requestFailedWithStatus resp.statusCode resp.bodyString) ∧
    (SendError.requestFailedWithStatus resp.statusCode resp.bodyString).format =
      "request failed with status: %d, body: %s" := by
  refine ⟨?_, rfl⟩
  simp [Client.sendRequest, hpost, hstatus]

/-- Witness of C5: status 500, and status 201 with a body that reports success. -/
theorem C5_status_error_witness :
    ((500 : Int) ≠ 200 ∧
      (NewClient (mockServer 500 "Internal Server Error") "https://example.com/hook"
          []).sendRequest { MsgType := "text", Content := .text { Text := "test" } } =
        some (.requestFailedWithStatus 500 "Internal Server Error")) ∧
    ((201 : Int) ≠ 200 ∧
      (NewClient (mockServer 201 "\x7b\"code\":0,\"msg\":\"success\"\x7d") "https://example.com/hook"
          []).sendRequest { MsgType := "text", Content := .text { Text := "test" } } =
        some (.requestFailedWithStatus 201 "\x7b\"code\":0,\"msg\":\"success\"\x7d")) :=
  ⟨⟨by decide,
    (C5_status_error
      (NewClient (mockServer 500 "Internal Server Error") "https://example.com/hook" [])
      { MsgType := "text", Content := .text { Text := "test" } }
      { statusCode := 500, bodyString := "Internal Server Error",
        body := "Internal Server Error" } rfl (by decide)).1⟩,
   ⟨by decide,
    (C5_status_error
      (NewClient (mockServer 201 "\x7b\"code\":0,\"msg\":\"success\"\x7d") "https://example.com/hook" [])
      { MsgType := "text", Content := .text { Text := "test" } }
      { statusCode := 201, bodyString := "\x7b\"code\":0,\"msg\":\"success\"\x7d",
        body := "\x7b\"code\":0,\"msg\":\"success\"\x7d" } rfl (by decide)).1⟩⟩

/-- C6, as the code has it. For every response with status 200 whose body is
not well-formed JSON, or is a well-formed JSON value that is neither an object
nor `null` (a number, a string, a boolean or an array), `sendRequest` fails
with the error made by `fmt.Errorf("parse response failed: %w", err)`. -/
theorem C6_parse_error (c : Client) (request : WebhookRequest) (resp : Response)
    (hpost : c.client c.WebhookURL [("Content-Type", "application/json")] request.toJSON = .ok resp)
    (hstatus : resp.statusCode = 200)
    (hbody : jsonParse resp.body = none ∨
      ∃ v, jsonParse resp.body = some v ∧ v ≠ .null ∧ ∀ members, v ≠ .obj members) :
    ∃ err, c.sendRequest request = some (.parseResponseFailed err) ∧
      (SendError.parseResponseFailed err).format = "parse response failed: %w" := by
  have hdec : ∃ err, jsonUnmarshalMap resp.body = .error err := by
    rcases hbody with h | ⟨v, h, hnull, hobj⟩
    · exact ⟨.syntaxError, by simp [jsonUnmarshalMap, h]⟩
    · cases v with
      | null => exact absurd rfl hnull
      | obj members => exact absurd rfl (hobj members)
      | bool b => exact ⟨.unmarshalTypeError, by simp [jsonUnmarshalMap, h]⟩
      | number x => exact ⟨.unmarshalTypeError, by simp [jsonUnmarshalMap, h]⟩
      | str s => exact ⟨.unmarshalTypeError, by simp [jsonUnmarshalMap, h]⟩
      | arr items => exact ⟨.unmarshalTypeError, by simp [jsonUnmarshalMap, h]⟩
      | unsupported => exact ⟨.unmarshalTypeError, by simp [jsonUnmarshalMap, h]⟩
  obtain ⟨err, herr⟩ := hdec
  exact ⟨err, by simp [Client.sendRequest, hpost, hstatus, herr], rfl⟩

/-- Witness of C6: the bodies `invalid json` (malformed) and `[1,2]` (an array)
with status 200. -/
theorem C6_parse_error_witness :
    (jsonParse "invalid json" = none ∧
      ∃ err, (NewClient (mockServer 200 "invalid json") "https://example.com/hook"
          []).sendRequest { MsgType := "text", Content := .text { Text := "test" } } =
        some (.parseResponseFailed err)) ∧
    (jsonParse "[1,2]" = some (.arr [.number 1, .number 2]) ∧
      ∃ err, (NewClient (mockServer 200 "[1,2]") "https://example.com/hook"
          []).sendRequest { MsgType := "text", Content := .text { Text := "test" } } =
        some (.parseResponseFailed err)) := by
  obtain ⟨err1, h1, _⟩ := C6_parse_error
    (NewClient (mockServer 200 "invalid json") "https://example.com/hook" [])
    { MsgType := "text", Content := .text { Text := "test" } }
    { statusCode := 200, bodyString := "invalid json", body := "invalid json" }
    rfl rfl (Or.inl rfl)
  obtain ⟨err2, h2, _⟩ := C6_parse_error
    (NewClient (mockServer 200 "[1,2]") "https://example.com/hook" [])
    { MsgType := "text", Content := .text { Text := "test" } }
    { statusCode := 200, bodyString := "[1,2]", body := "[1,2]" }
    rfl rfl (Or.inr ⟨.arr [.number 1, .number 2], rfl, by simp, by simp⟩)
  exact ⟨⟨rfl, err1, h1⟩, ⟨rfl, err2, h2⟩⟩

/-- Counterexample to C6 as stated: the body `null` is well-formed JSON and not
an object, yet with status 200 `sendRequest` returns no error. -/
theorem C6_counterexample_null :
    jsonParse "null" = some .null ∧
    (∀ members, jsonParse "null" ≠ some (.obj members)) ∧
    (NewClient (mockServer 200 "null") "https://example.com/hook" []).sendRequest
      { MsgType := "text", Content := .text { Text := "test" } } = none := by
  refine ⟨rfl, ?_, rfl⟩
  intro members h
  have h2 : jsonParse "null" = some .null := rfl
  rw [h2] at h
  cases h

/-- C8, as the code has it. For every `RichTextElement`, the encoded object
always has the member `tag` (also when it is empty) and has each of `text`,
`href`, `user_id`, `user_name`, `image_key` exactly when that field is not
empty, holding the field; it has no other member. The element built with
tag "img", text "" and the option `image_key: "k"` is encoded as
`{"tag":"img","image_key":"k"}`. -/
theorem C8_element_encoding (e : RichTextElement) :
    e.toJSON.get? "tag" = some (.str e.Tag) ∧
    e.toJSON.get? "text" = (if e.Text = "" then none else some (.str e.Text)) ∧
    e.toJSON.get? "href" = (if e.Href = "" then none else some (.str e.Href)) ∧
    e.toJSON.get? "user_id" = (if e.UserId = "" then none else some (.str e.UserId)) ∧
    e.toJSON.get? "user_name" = (if e.UserName = "" then none else some (.str e.UserName)) ∧
    e.toJSON.get? "image_key" = (if e.ImageKey = "" then none else some (.str e.ImageKey)) ∧
    (∀ k ∈ e.toJSON.keys, k ∈ ["tag", "text", "href", "user_id", "user_name", "image_key"]) ∧
    (CreateRichTextElement "img" "" [[("image_key", "k")]]).toJSON =
      .obj [("tag", .str "img"), ("image_key", .str "k")] := by
  obtain ⟨tag, text, href, uid, uname, ikey⟩ := e
  refine ⟨?_, ?_, ?_, ?_, ?_, ?_, ?_, rfl⟩ <;>
    by_cases h1 : text = "" <;> by_cases h2 : href = "" <;> by_cases h3 : uid = "" <;>
    by_cases h4 : uname = "" <;> by_cases h5 : ikey = "" <;>
    simp [RichTextElement.toJSON, omitEmptyString, JVal.get?, JVal.keys, memberKeys,
      memberLookup, h1, h2, h3, h4, h5]

/-- Counterexample to C8 as stated: the element built with tag "img", text ""
and the option `image_key: "k"` is encoded without a `text` member; its keys
are `tag` and `image_key` only, so the encoding is not
`{"tag":"img","text":"","image_key":"k"}`. -/
theorem C8_counterexample_img :
    (CreateRichTextElement "img" "" [[("image_key", "k")]]).Text = "" ∧
    (CreateRichTextElement "img" "" [[("image_key", "k")]]).toJSON.get? "text" = none ∧
    (CreateRichTextElement "img" "" [[("image_key", "k")]]).toJSON.keys = ["tag", "image_key"] ∧
    (CreateRichTextElement "img" "" [[("image_key", "k")]]).toJSON ≠
      .obj [("tag", .str "img"), ("text", .str ""), ("image_key", .str "k")] := by
  refine ⟨rfl, rfl, rfl, ?_⟩
  intro h
  have h2 : (CreateRichTextElement "img" "" [[("image_key", "k")]]).toJSON =
      .obj [("tag", .str "img"), ("image_key", .str "k")] := rfl
  rw [h2] at h
  simp at h

/-- C9, as the code has it. In the encoded content of a message a string field
that holds the empty string is left out exactly where the field is tagged
`omitempty`: `text` (and `href`, `user_id`, `user_name`, `image_key`, see C8) of
a `RichTextElement` and `template` of a `CardHeader`. Every other string field
is always written, also when empty: `tag` of a `RichTextElement`, `text` of
`TextContent`, `title` of `PostContent`, `content` and `tag` of
`CardHeaderTitle`, `image_key` of `ImageContent` and `share_chat_id` of
`ShareChatContent`. So the content of `NewImageMessage("")` is
`{"image_key":""}`, that of `NewShareChatMessage("")` is `{"share_chat_id":""}`,
a rich-text message with an empty title has `"title":""`, and a card header
with an empty template has no `template` member. -/
theorem C9_empty_string_fields :
    (∀ text : String, (NewTextMessage text).Content.toJSON.get? "text" = some (.str text)) ∧
    (∀ key : String, (NewImageMessage key).Content.toJSON.get? "image_key" = some (.str key)) ∧
    (∀ id : String,
      (NewShareChatMessage id).Content.toJSON.get? "share_chat_id" = some (.str id)) ∧
    (∀ (title : String) (lines : Slice (Slice RichTextElement)),
      (((NewRichTextMessage title lines).Content.toJSON.get? "post").bind
        (fun p => (p.get? "zh_cn").bind (fun z => z.get? "title"))) = some (.str title)) ∧
    (∀ t : CardHeaderTitle,
      t.toJSON.get? "content" = some (.str t.Content) ∧ t.toJSON.get? "tag" = some (.str t.Tag)) ∧
    (∀ h : CardHeader,
      h.toJSON.get? "template" = (if h.Template = "" then none else some (.str h.Template))) ∧
    (∀ e : RichTextElement,
      e.toJSON.get? "tag" = some (.str e.Tag) ∧
      e.toJSON.get? "text" = (if e.Text = "" then none else some (.str e.Text))) ∧
    (NewImageMessage "").Content.toJSON = .obj [("image_key", .str "")] ∧
    (NewShareChatMessage "").Content.toJSON = .obj [("share_chat_id", .str "")] ∧
    (CreateCardHeader "t" "").toJSON =
      .obj [("title", .obj [("content", .str "t"), ("tag", .str "plain_text")])] := by
  refine ⟨fun _ => rfl, fun _ => rfl, fun _ => rfl, fun _ _ => rfl, fun _ => ⟨rfl, rfl⟩,
    ?_, ?_, rfl, rfl, rfl⟩
  · intro h
    obtain ⟨title, template⟩ := h
    by_cases h1 : template = "" <;>
      simp [CardHeader.toJSON, omitEmptyString, JVal.get?, memberLookup, h1]
  · intro e
    obtain ⟨tag, text, href, uid, uname, ikey⟩ := e
    constructor <;>
      by_cases h1 : text = "" <;> by_cases h2 : href = "" <;> by_cases h3 : uid = "" <;>
      by_cases h4 : uname = "" <;> by_cases h5 : ikey = "" <;>
      simp [RichTextElement.toJSON, omitEmptyString, JVal.get?, memberLookup, h1, h2, h3, h4, h5]

/-- Counterexample to C9 as stated: the content of `NewImageMessage("")` is
encoded with the member `image_key` holding the empty string, not as `{}`; the
same holds for `share_chat_id` and for the `title` of a rich-text message. -/
theorem C9_counterexample_image :
    (NewImageMessage "").Content.toJSON.get? "image_key" = some (.str "") ∧
    (NewImageMessage "").Content.toJSON.keys = ["image_key"] ∧
    (NewImageMessage "").Content.toJSON ≠ .obj [] ∧
    (NewShareChatMessage "").Content.toJSON.keys = ["share_chat_id"] ∧
    (((NewRichTextMessage "" (some [])).Content.toJSON.get? "post").bind
      (fun p => (p.get? "zh_cn").bind (fun z => z.get? "title"))) = some (.str "") := by
  refine ⟨rfl, rfl, ?_, rfl, rfl⟩
  intro h
  have h2 : (NewImageMessage "").Content.toJSON = .obj [("image_key", .str "")] := rfl
  rw [h2] at h
  simp at h

/-- C10, as the code has it. For every text `t` (the empty one too), which is
to say for every Go string that is well-formed UTF-8, and every client without
a secret, `SendText(t)` hands `sendRequest` the envelope whose encoding is
exactly `{"msg_type":"text","content":{"text":t}}`, `text` always written.
`json.Marshal` writes it as that text, with the string literal of `t` in the
place of `t`, and `json.Unmarshal` of the text gives back `msg_type` "text"
and a `content` whose `text` is `t`. With `t = "hi"` and an endpoint answering
`{"code":0,"msg":"success"}` with status 200 the call returns no error. -/
theorem C10_unsigned_text (c : Client) (now : Int) (t : String) (h : c.Secret = "") :
    c.SendText now t =
      c.sendRequest { MsgType := "text", Content := .text { Text := t } } ∧
    WebhookRequest.toJSON { MsgType := "text", Content := .text { Text := t } } =
      .obj [("msg_type", .str "text"), ("content", .obj [("text", .str t)])] ∧
    jsonMarshal (WebhookRequest.toJSON { MsgType := "text", Content := .text { Text := t } }) =
      some ⟨"\x7b\"msg_type\":\"text\",\"content\":\x7b\"text\":".data ++
        quoteGoString (stringBytes t) ++ "\x7d\x7d".data⟩ ∧
    jsonUnmarshalMap ⟨"\x7b\"msg_type\":\"text\",\"content\":\x7b\"text\":".data ++
        quoteGoString (stringBytes t) ++ "\x7d\x7d".data⟩ =
      .ok [("msg_type", .str "text"), ("content", .obj [("text", .str t)])] ∧
    mapIndex [("msg_type", .str "text"), ("content", .obj [("text", .str t)])] "msg_type" =
      .str "text" ∧
    (mapIndex [("msg_type", .str "text"), ("content", .obj [("text", .str t)])] "content").get?
      "text" = some (.str t) ∧
    (∀ url : String,
      (NewClient (mockServer 200 "\x7b\"code\":0,\"msg\":\"success\"\x7d") url []).SendText now "hi" =
        none) := by
  have henc : WebhookRequest.toJSON { MsgType := "text", Content := .text { Text := t } } =
      .obj [("msg_type", .str "text"), ("content", .obj [("text", .str t)])] := rfl
  refine ⟨?_, henc, ?_, ?_, rfl, rfl, fun _ => rfl⟩
  · simp [Client.SendText, Client.SendMessage, Client.sendMessageWithoutSign, h, NewTextMessage,
      MessageTypeText]
  · rw [henc, jsonMarshal, render?_text_envelope, quoteGoString_stringBytes]
    rfl
  · rw [quoteGoString_stringBytes]
    exact jsonUnmarshalMap_obj _ _ _
      (jsonParse_render _ _ (render?_text_envelope t)
        (by simp [JVal.nesting, nestingMembers, maxNestingDepth]))
      (by simp [float64Members?, JVal.float64?])

/-- Witness of C10: a client made without a secret sending the empty text. -/
theorem C10_unsigned_text_witness :
    (NewClient (mockServer 200 "\x7b\"code\":0,\"msg\":\"success\"\x7d") "https://example.com/hook"
        []).Secret = "" ∧
    WebhookRequest.toJSON { MsgType := "text", Content := .text { Text := "" } } =
      .obj [("msg_type", .str "text"), ("content", .obj [("text", .str "")])] :=
  ⟨rfl, (C10_unsigned_text
    (NewClient (mockServer 200 "\x7b\"code\":0,\"msg\":\"success\"\x7d") "https://example.com/hook" [])
    0 "" rfl).2.1⟩

/-- Counterexample to C10 as stated. The Go string `"\xff"` is one byte that
is not UTF-8. `json.Marshal` writes it as the literal `"\ufffd"`, so the body
of `SendText("\xff")` is `{"msg_type":"text","content":{"text":"\ufffd"}}`;
decoding that body gives a `text` of the one character U+FFFD, whose bytes are
EF BF BD and not FF. -/
theorem C10_counterexample_invalid_utf8 :
    (∀ t : String, stringBytes t ≠ [0xFF]) ∧
    quoteGoString [0xFF] = ['"', '\\', 'u', 'f', 'f', 'f', 'd', '"'] ∧
    jsonUnmarshalMap ⟨"\x7b\"msg_type\":\"text\",\"content\":\x7b\"text\":".data ++
        quoteGoString [0xFF] ++ "\x7d\x7d".data⟩ =
      .ok [("msg_type", .str "text"), ("content", .obj [("text", .str ⟨[Char.ofNat 0xFFFD]⟩)])] ∧
    stringBytes ⟨[Char.ofNat 0xFFFD]⟩ = [0xEF, 0xBF, 0xBD] ∧
    stringBytes ⟨[Char.ofNat 0xFFFD]⟩ ≠ [0xFF] :=
  ⟨stringBytes_ne_ff, by rfl, by rfl, by decide, by decide⟩

/-- C11. Each of the five builders returns the message of its own type with the
content struct of that type, the fields equal to the arguments; every message a
builder returns satisfies the invariant that the content variant matches the
type. -/
theorem C11_builders :
    (∀ t : String,
      NewTextMessage t = { MsgType := "text", Content := .text { Text := t } } ∧
      (NewTextMessage t).contentMatchesType = true) ∧
    (∀ (title : String) (lines : Slice (Slice RichTextElement)),
      NewRichTextMessage title lines =
        { MsgType := "post",
          Content := .richText
            { Post := some { ZhCn := some { Title := title, Content := lines }, EnUs := none } } } ∧
      (NewRichTextMessage title lines).contentMatchesType = true) ∧
    (∀ (c : Option CardConfig) (h : Option CardHeader) (e : Slice JVal),
      NewInteractiveMessage c h e =
        { MsgType := "interactive",
          Content := .interactive { Config := c, Header := h, Elements := e } } ∧
      (NewInteractiveMessage c h e).contentMatchesType = true) ∧
    (∀ k : String,
      NewImageMessage k = { MsgType := "image", Content := .image { ImageKey := k } } ∧
      (NewImageMessage k).contentMatchesType = true) ∧
    (∀ id : String,
      NewShareChatMessage id =
        { MsgType := "share_chat", Content := .shareChat { ShareChatId := id } } ∧
      (NewShareChatMessage id).contentMatchesType = true) :=
  ⟨fun _ => ⟨rfl, rfl⟩, fun _ _ => ⟨rfl, rfl⟩, fun _ _ _ => ⟨rfl, rfl⟩, fun _ => ⟨rfl, rfl⟩,
    fun _ => ⟨rfl, rfl⟩⟩

/-- C12. For every title and every slice of lines, `NewRichTextMessage` fills
the `zh_cn` variant alone, with that title and exactly those lines, and leaves
`en_us` unset. The encoded content is
`{"post":{"zh_cn":{"title":...,"content":...}}}`: the object under `post` has
the single key `zh_cn` and no `en_us`, the object under `zh_cn` has the members
`title` and `content`, and for a slice of lines that is not `nil` the value of
`content` is an array with one entry for each line. -/
theorem C12_rich_text_zh_cn (title : String) (lines : Slice (Slice RichTextElement)) :
    (NewRichTextMessage title lines).Content =
      .richText
        { Post := some { ZhCn := some { Title := title, Content := lines }, EnUs := none } } ∧
    (NewRichTextMessage title lines).Content.toJSON =
      .obj [("post", .obj [("zh_cn", .obj [("title", .str title),
        ("content", sliceOrNull (lines.map fun ls => ls.map lineToJSON))])])] ∧
    (((NewRichTextMessage title lines).Content.toJSON.get? "post").map JVal.keys) =
      some ["zh_cn"] ∧
    (((NewRichTextMessage title lines).Content.toJSON.get? "post").bind
      fun p => p.get? "en_us") = none ∧
    (∀ ls : List (Slice RichTextElement),
      (((NewRichTextMessage title (some ls)).Content.toJSON.get? "post").bind
        fun p => (p.get? "zh_cn").bind fun z => z.get? "content") =
        some (.arr (ls.map lineToJSON))) :=
  ⟨rfl, rfl, rfl, rfl, fun _ => rfl⟩

/-- C13, as the code has it. For every slice of lines that is not `nil` and
whose lines are not `nil`, the encoded `post.zh_cn.content` is an array with
one entry for each line, in the order given, and each entry is an array with
one object for each element of the line, in the order given: the encoding of
that element. A `nil` slice of lines is written as `null`, and so is a `nil`
line. Two lines of which the second has two elements give an array of length 2
whose second entry is an array of length 2. -/
theorem C13_rich_text_structure (title : String) :
    (∀ lines : List (List RichTextElement),
      (((NewRichTextMessage title (some (lines.map some))).Content.toJSON.get? "post").bind
        fun p => (p.get? "zh_cn").bind fun z => z.get? "content") =
        some (.arr (lines.map fun line => .arr (line.map RichTextElement.toJSON)))) ∧
    (((NewRichTextMessage title none).Content.toJSON.get? "post").bind
      fun p => (p.get? "zh_cn").bind fun z => z.get? "content") = some .null ∧
    (∀ lines : List (Slice RichTextElement),
      (((NewRichTextMessage title (some (none :: lines))).Content.toJSON.get? "post").bind
        fun p => (p.get? "zh_cn").bind fun z => z.get? "content") =
        some (.arr (.null :: lines.map lineToJSON))) ∧
    (∀ a b c : RichTextElement,
      (((NewRichTextMessage title (some [some [a], some [b, c]])).Content.toJSON.get? "post").bind
        fun p => (p.get? "zh_cn").bind fun z => z.get? "content") =
        some (.arr [.arr [a.toJSON], .arr [b.toJSON, c.toJSON]])) := by
  refine ⟨?_, rfl, fun _ => rfl, fun _ _ _ => rfl⟩
  intro lines
  show some (JVal.arr ((lines.map some).map lineToJSON)) = _
  simp [List.map_map, Function.comp_def, lineToJSON, sliceOrNull]

/-- Counterexample to C13 as stated: for the `nil` slice of lines the encoded
`post.zh_cn.content` is `null`, which is not an array. -/
theorem C13_counterexample_nil :
    (((NewRichTextMessage "t" none).Content.toJSON.get? "post").bind
      fun p => (p.get? "zh_cn").bind fun z => z.get? "content") = some .null ∧
    (∀ items : List JVal,
      (((NewRichTextMessage "t" none).Content.toJSON.get? "post").bind
        fun p => (p.get? "zh_cn").bind fun z => z.get? "content") ≠ some (.arr items)) := by
  refine ⟨rfl, ?_⟩
  intro items h
  have h2 : (((NewRichTextMessage "t" none).Content.toJSON.get? "post").bind
      fun p => (p.get? "zh_cn").bind fun z => z.get? "content") = some .null := rfl
  rw [h2] at h
  simp at h

/-- C15. For every tag, text and options map, `CreateRichTextElement` returns
the element whose `Tag` and `Text` are the arguments and whose `Href`, `UserId`,
`UserName` and `ImageKey` are the values the map gives the keys `href`,
`user_id`, `user_name` and `image_key`, the empty string for a key the map does
not have. An entry under any other key changes nothing, and two maps that agree
on the four keys give the same element. -/
theorem C15_create_element (tag text : String) (opts : StringMap) :
    CreateRichTextElement tag text [opts] =
      { Tag := tag, Text := text,
        Href := (opts.index "href").getD "",
        UserId := (opts.index "user_id").getD "",
        UserName := (opts.index "user_name").getD "",
        ImageKey := (opts.index "image_key").getD "" } ∧
    (∀ key value : String,
      key ≠ "href" → key ≠ "user_id" → key ≠ "user_name" → key ≠ "image_key" →
      CreateRichTextElement tag text [(key, value) :: opts] =
        CreateRichTextElement tag text [opts]) ∧
    (∀ opts2 : StringMap,
      opts2.index "href" = opts.index "href" → opts2.index "user_id" = opts.index "user_id" →
      opts2.index "user_name" = opts.index "user_name" →
      opts2.index "image_key" = opts.index "image_key" →
      CreateRichTextElement tag text [opts2] = CreateRichTextElement tag text [opts]) := by
  have hform : ∀ o : StringMap, CreateRichTextElement tag text [o] =
      { Tag := tag, Text := text,
        Href := (o.index "href").getD "",
        UserId := (o.index "user_id").getD "",
        UserName := (o.index "user_name").getD "",
        ImageKey := (o.index "image_key").getD "" } := by
    intro o
    simp only [CreateRichTextElement]
    cases o.index "href" <;> cases o.index "user_id" <;> cases o.index "user_name" <;>
      cases o.index "image_key" <;> rfl
  refine ⟨hform opts, ?_, ?_⟩
  · intro key value h1 h2 h3 h4
    have hidx : ∀ k : String, k ≠ key → StringMap.index ((key, value) :: opts) k = opts.index k := by
      intro k hk
      have hb : (k == key) = false := by simpa using hk
      simp [StringMap.index, List.lookup, hb]
    rw [hform, hform, hidx _ (Ne.symm h1), hidx _ (Ne.symm h2), hidx _ (Ne.symm h3),
      hidx _ (Ne.symm h4)]
  · intro opts2 h1 h2 h3 h4
    rw [hform, hform, h1, h2, h3, h4]

/-- Witness of C15: a map with `href` and an entry under the key `color`, which
is none of the four. -/
theorem C15_create_element_witness :
    ("color" ≠ "href" ∧ "color" ≠ "user_id" ∧ "color" ≠ "user_name" ∧ "color" ≠ "image_key") ∧
    CreateRichTextElement "a" "Click here" [[("color", "red"), ("href", "https://example.com")]] =
      CreateRichTextElement "a" "Click here" [[("href", "https://example.com")]] ∧
    CreateRichTextElement "a" "Click here" [[("color", "red"), ("href", "https://example.com")]] =
      { Tag := "a", Text := "Click here", Href := "https://example.com" } :=
  ⟨⟨by decide, by decide, by decide, by decide⟩,
   (C15_create_element "a" "Click here" [("href", "https://example.com")]).2.1 "color" "red"
     (by decide) (by decide) (by decide) (by decide),
   rfl⟩

/-! ## Injectivity of the encodings around the keyed hash -/

/-- Two characters of the base64 alphabet are equal only for equal 6-bit values. -/
theorem base64Char_inj (v w : Nat) (h : base64Char v = base64Char w) : v % 64 = w % 64 := by
  have hlen : base64Alphabet.length = 64 := by decide
  have hv : v % 64 < base64Alphabet.length := by omega
  have hw : w % 64 < base64Alphabet.length := by omega
  have hnodup : base64Alphabet.Nodup := by decide
  unfold base64Char at h
  rw [List.getD_eq_getElem _ _ hv, List.getD_eq_getElem _ _ hw] at h
  exact (List.Nodup.getElem_inj_iff hnodup).1 h

/-- The padding character is not in the alphabet. -/
theorem base64Char_ne_pad (v : Nat) : base64Char v ≠ '=' := by
  intro h
  have hmem := base64Char_mem v
  rw [h] at hmem
  exact absurd hmem (by decide)

/-- Base64 is injective on byte strings of equal length. -/
theorem base64EncodeChars_inj (bs1 bs2 : Bytes) (hlen : bs1.length = bs2.length)
    (h1 : ∀ b ∈ bs1, b < 256) (h2 : ∀ b ∈ bs2, b < 256)
    (h : base64EncodeChars bs1 = base64EncodeChars bs2) : bs1 = bs2 := by
  induction bs1 using base64EncodeChars.induct generalizing bs2 with
  | case1 =>
    cases bs2 with
    | nil => rfl
    | cons x xs => simp at hlen
  | case2 a =>
    match bs2, hlen with
    | [a2], _ =>
      simp only [base64EncodeChars, List.cons.injEq, and_true] at h
      have e1 := base64Char_inj _ _ h.1
      have e2 := base64Char_inj _ _ h.2
      have ha := h1 a (by simp)
      have ha2 := h2 a2 (by simp)
      have : a = a2 := by omega
      rw [this]
  | case3 a b =>
    match bs2, hlen with
    | [a2, b2], _ =>
      simp only [base64EncodeChars, List.cons.injEq, and_true] at h
      have e1 := base64Char_inj _ _ h.1
      have e2 := base64Char_inj _ _ h.2.1
      have e3 := base64Char_inj _ _ h.2.2
      have ha := h1 a (by simp)
      have hb := h1 b (by simp)
      have ha2 := h2 a2 (by simp)
      have hb2 := h2 b2 (by simp)
      have : a = a2 := by omega
      have : b = b2 := by omega
      subst_vars
      rfl
  | case4 a b c rest ih =>
    match bs2, hlen with
    | a2 :: b2 :: c2 :: rest2, hl =>
      simp only [base64EncodeChars, List.cons.injEq] at h
      obtain ⟨g1, g2, g3, g4, g5⟩ := h
      have e1 := base64Char_inj _ _ g1
      have e2 := base64Char_inj _ _ g2
      have e3 := base64Char_inj _ _ g3
      have e4 := base64Char_inj _ _ g4
      have ha := h1 a (by simp)
      have hb := h1 b (by simp)
      have hc := h1 c (by simp)
      have ha2 := h2 a2 (by simp)
      have hb2 := h2 b2 (by simp)
      have hc2 := h2 c2 (by simp)
      have hrest := ih rest2 (by simpa using hl)
        (fun x hx => h1 x (by simp [hx])) (fun x hx => h2 x (by simp [hx])) g5
      have : a = a2 := by omega
      have : b = b2 := by omega
      have : c = c2 := by omega
      subst_vars
      rfl

/-- The big-endian rendering consists of bytes. -/
theorem beBytes_lt (n x : Nat) : ∀ b ∈ beBytes n x, b < 256 := by
  induction n with
  | zero => simp [beBytes]
  | succ k ih =>
    intro b hb
    simp only [beBytes, List.mem_cons] at hb
    rcases hb with hb | hb
    · rw [hb]; exact Nat.mod_lt _ (by decide)
    · exact ih b hb

/-- A SHA-256 digest consists of bytes. -/
theorem sha256_lt (msg : Bytes) : ∀ b ∈ sha256 msg, b < 256 := by
  intro b hb
  simp only [sha256, Sha256State.digest, List.mem_append] at hb
  rcases hb with ((((((hb | hb) | hb) | hb) | hb) | hb) | hb) | hb <;> exact beBytes_lt _ _ b hb

/-- An HMAC-SHA256 value consists of bytes. -/
theorem hmacSha256_lt (key msg : Bytes) : ∀ b ∈ hmacSha256 key msg, b < 256 := by
  intro b hb
  exact sha256_lt _ b hb

/-- UTF-8 is a prefix code: the encoding of a character in front of a byte
string determines the character and the rest. -/
theorem utf8EncodeChar_append_inj (c1 c2 : Char) (r1 r2 : Bytes)
    (h : utf8EncodeChar c1 ++ r1 = utf8EncodeChar c2 ++ r2) : c1 = c2 ∧ r1 = r2 := by
  have key : c1.val.toNat = c2.val.toNat ∧ r1 = r2 := by
    unfold utf8EncodeChar at h
    simp only at h
    generalize c1.val.toNat = v1 at h ⊢
    generalize c2.val.toNat = v2 at h ⊢
    split at h <;> split at h <;> (try split at h) <;> (try split at h) <;>
      (try split at h) <;> (try split at h) <;>
      simp only [List.cons_append, List.nil_append, List.cons.injEq] at h <;>
      first
        | (exfalso; omega)
        | exact ⟨by omega, h.2.2.2.2⟩
        | exact ⟨by omega, h.2.2.2⟩
        | exact ⟨by omega, h.2.2⟩
        | exact ⟨by omega, h.2⟩
  exact ⟨Char.ext (UInt32.toNat.inj key.1), key.2⟩

/-- The conversion of a string to bytes is injective. -/
theorem stringBytes_inj (s1 s2 : String) (h : stringBytes s1 = stringBytes s2) : s1 = s2 := by
  have aux : ∀ l1 l2 : List Char,
      l1.flatMap utf8EncodeChar = l2.flatMap utf8EncodeChar → l1 = l2 := by
    intro l1
    induction l1 with
    | nil =>
      intro l2 h
      cases l2 with
      | nil => rfl
      | cons c cs =>
        simp only [List.flatMap_nil, List.flatMap_cons] at h
        have := utf8EncodeChar_ne_nil c
        cases hc : utf8EncodeChar c with
        | nil => exact absurd hc this
        | cons x xs => rw [hc] at h; simp at h
    | cons c cs ih =>
      intro l2 h
      cases l2 with
      | nil =>
        simp only [List.flatMap_nil, List.flatMap_cons] at h
        have := utf8EncodeChar_ne_nil c
        cases hc : utf8EncodeChar c with
        | nil => exact absurd hc this
        | cons x xs => rw [hc] at h; simp at h
      | cons d ds =>
        simp only [List.flatMap_cons] at h
        obtain ⟨hcd, hrest⟩ := utf8EncodeChar_append_inj c d _ _ h
        rw [hcd, ih ds hrest]
  have hd : s1.data = s2.data := aux _ _ h
  exact String.ext hd

/-- The decimal rendering of integers is injective. -/
theorem formatInt_inj (a b : Int) (h : formatInt a = formatInt b) : a = b := by
  have ha := decimalInt?_formatInt a
  rw [h, decimalInt?_formatInt b] at ha
  exact (Option.some.inj ha).symm

/-- The string `GenSign` signs determines the timestamp and the secret: it is
different for different timestamps and for different secrets. -/
theorem stringToSign_inj (s1 s2 : String) (t1 t2 : Int)
    (h : formatInt t1 ++ "\n" ++ s1 = formatInt t2 ++ "\n" ++ s2) :
    (s1 = s2 → t1 = t2) ∧ (t1 = t2 → s1 = s2) := by
  have hd := congrArg String.data h
  simp only [String.data_append] at hd
  constructor
  · intro hs
    subst hs
    have h3 := List.append_cancel_right hd
    have h4 := List.append_cancel_right h3
    exact formatInt_inj _ _ (String.ext h4)
  · intro ht
    subst ht
    have h3 := List.append_cancel_left hd
    exact String.ext h3

/-- Two results of `GenSign` are equal exactly when the two keyed hashes are. -/
theorem GenSign_eq_iff (s1 s2 : String) (t1 t2 : Int) :
    GenSign s1 t1 = GenSign s2 t2 ↔
      hmacSha256 (stringBytes (formatInt t1 ++ "\n" ++ s1)) [] =
        hmacSha256 (stringBytes (formatInt t2 ++ "\n" ++ s2)) [] := by
  rw [GenSign_eq, GenSign_eq]
  constructor
  · intro h
    have h2 : base64EncodeChars (hmacSha256 (stringBytes (formatInt t1 ++ "\n" ++ s1)) []) =
        base64EncodeChars (hmacSha256 (stringBytes (formatInt t2 ++ "\n" ++ s2)) []) := by
      have := Except.ok.inj h
      exact congrArg String.data this
    exact base64EncodeChars_inj _ _ (by rw [hmacSha256_length, hmacSha256_length])
      (hmacSha256_lt _ _) (hmacSha256_lt _ _) h2
  · intro h
    rw [h]

/-- The result of `GenSign` is never an error and has 44 characters. -/
theorem GenSign_ok (secret : String) (timestamp : Int) :
    ∃ sig : String, GenSign secret timestamp = .ok sig ∧ sig.length = 44 := by
  refine ⟨_, GenSign_eq secret timestamp, ?_⟩
  simp [base64StdEncodeToString, String.length, base64EncodeChars_length, hmacSha256_length]

/-- C17. `GenSign` is timestamp-sensitive up to collisions of the hash: for
every secret and every two different timestamps the two HMAC keys are
different, and the two signatures are equal exactly when HMAC-SHA256 gives the
two keys the same value. -/
theorem C17_timestamp_sensitive (s : String) (t1 t2 : Int) (h : t1 ≠ t2) :
    stringBytes (formatInt t1 ++ "\n" ++ s) ≠ stringBytes (formatInt t2 ++ "\n" ++ s) ∧
    (GenSign s t1 = GenSign s t2 ↔
      hmacSha256 (stringBytes (formatInt t1 ++ "\n" ++ s)) [] =
        hmacSha256 (stringBytes (formatInt t2 ++ "\n" ++ s)) []) := by
  refine ⟨?_, GenSign_eq_iff s s t1 t2⟩
  intro hk
  exact h ((stringToSign_inj s s t1 t2 (stringBytes_inj _ _ hk)).1 rfl)

set_option maxRecDepth 1000000 in
/-- Witness of C17: the secret "test-secret" at the times 1640995200 and
1640995201 gives different signatures. -/
theorem C17_timestamp_sensitive_witness :
    (1640995200 : Int) ≠ 1640995201 ∧
    GenSign "test-secret" 1640995200 ≠ GenSign "test-secret" 1640995201 :=
  ⟨by decide, fun heq =>
    absurd ((C17_timestamp_sensitive "test-secret" 1640995200 1640995201 (by decide)).2.1 heq)
      (by decide)⟩

/-- C18. `GenSign` is deterministic: two calls with the same secret and the
same timestamp return the same result, a signature and no error. In sign.go the
function reads nothing but its two arguments (no clock, no random source, no
package state), so it is embedded as a function of the two. -/
theorem C18_deterministic (s1 s2 : String) (t1 t2 : Int) (hs : s1 = s2) (ht : t1 = t2) :
    GenSign s1 t1 = GenSign s2 t2 ∧
    ∃ sig : String, GenSign s1 t1 = .ok sig ∧ GenSign s2 t2 = .ok sig := by
  subst hs
  subst ht
  obtain ⟨sig, h, _⟩ := GenSign_ok s1 t1
  exact ⟨rfl, sig, h, h⟩

set_option maxRecDepth 1000000 in
/-- Witness of C18: the secret "test-secret" at time 1640995200, called twice. -/
theorem C18_deterministic_witness :
    ("test-secret" = "test-secret" ∧ (1640995200 : Int) = 1640995200) ∧
    GenSign "test-secret" 1640995200 = GenSign "test-secret" 1640995200 ∧
    GenSign "test-secret" 1640995200 = .ok "p44pG4UNxO7zTTppg6RVDw469QS/oF4AvlXoDFEBKdI=" :=
  ⟨⟨rfl, rfl⟩, (C18_deterministic "test-secret" "test-secret" 1640995200 1640995200 rfl rfl).1,
    by rfl⟩

/-- C19. `GenSign` is total: for every secret, the empty one and those with
special characters among them, and every timestamp (every integer, the 64-bit
ones among them) it returns no error and a signature that is not empty: a
string of 44 characters. -/
theorem C19_gensign_total (secret : String) (timestamp : Int) :
    ∃ sig : String, GenSign secret timestamp = .ok sig ∧ sig ≠ "" ∧ sig.length = 44 := by
  obtain ⟨sig, h, hlen⟩ := GenSign_ok secret timestamp
  refine ⟨sig, h, ?_, hlen⟩
  intro h0
  rw [h0] at hlen
  exact absurd hlen (by decide)

/-- Decoding the encoding of a rich-text element, as values. -/
theorem RichTextElement.fromJSON_toJSON (e : RichTextElement) :
    RichTextElement.fromJSON e.toJSON = .ok e := by
  obtain ⟨tag, text, href, uid, uname, ikey⟩ := e
  have f1 : elementField? "tag" = some .tag := by decide
  have f2 : elementField? "text" = some .text := by decide
  have f3 : elementField? "href" = some .href := by decide
  have f4 : elementField? "user_id" = some .userId := by decide
  have f5 : elementField? "user_name" = some .userName := by decide
  have f6 : elementField? "image_key" = some .imageKey := by decide
  by_cases h1 : text = "" <;> by_cases h2 : href = "" <;> by_cases h3 : uid = "" <;>
    by_cases h4 : uname = "" <;> by_cases h5 : ikey = "" <;>
    simp [RichTextElement.fromJSON, RichTextElement.toJSON, omitEmptyString,
      RichTextElement.decodeMembers, RichTextElement.set, f1, f2, f3, f4, f5, f6,
      h1, h2, h3, h4, h5]

/-- The encoding of a rich-text element can be written as text and is one
level deep. -/
theorem richTextElement_toJSON_plain (e : RichTextElement) :
    (e.toJSON.render?).isSome = true ∧ e.toJSON.nesting = 1 := by
  obtain ⟨tag, text, href, uid, uname, ikey⟩ := e
  by_cases h1 : text = "" <;> by_cases h2 : href = "" <;> by_cases h3 : uid = "" <;>
    by_cases h4 : uname = "" <;> by_cases h5 : ikey = "" <;>
    simp [RichTextElement.toJSON, omitEmptyString, JVal.render?, renderMoreMembers?,
      JVal.nesting, nestingMembers, h1, h2, h3, h4, h5]

/-- C20, as the code has it. Round trip of a rich-text element through JSON:
for every element whose six fields are well-formed UTF-8, `json.Marshal`
writes a text, and `json.Unmarshal` of that text gives no error and an element
equal to it in all six fields, also when fields are empty and left out of the
encoding. -/
theorem C20_element_round_trip (e : RichTextElement) :
    RichTextElement.fromJSON e.toJSON = .ok e ∧
    ∃ text : String, jsonMarshal e.toJSON = some text ∧
      RichTextElement.unmarshal text = .ok e := by
  obtain ⟨hr, hd⟩ := richTextElement_toJSON_plain e
  obtain ⟨a, ha⟩ := Option.isSome_iff_exists.mp hr
  refine ⟨RichTextElement.fromJSON_toJSON e, ⟨a⟩, by simp [jsonMarshal, ha], ?_⟩
  rw [RichTextElement.unmarshal, jsonParse_render _ a ha (by rw [hd]; decide)]
  exact RichTextElement.fromJSON_toJSON e

/-- Counterexample to C20 as stated. The element `RichTextElement{Tag: "\xff"}`
has a tag of one byte that is not UTF-8. An element with only a tag is written
as `{"tag":` followed by the literal of the tag and `}`, and the literal of
`"\xff"` is `"\ufffd"`; decoding `{"tag":"\ufffd"}` gives the tag of the one
character U+FFFD, whose bytes are EF BF BD and not FF, so the element that
comes back is not equal to the one that went in. -/
theorem C20_counterexample_invalid_utf8 :
    (∀ t : String, stringBytes t ≠ [0xFF]) ∧
    (∀ tag : String, jsonMarshal (RichTextElement.toJSON { Tag := tag }) =
      some ⟨"\x7b\"tag\":".data ++ quoteGoString (stringBytes tag) ++ "\x7d".data⟩) ∧
    quoteGoString [0xFF] = ['"', '\\', 'u', 'f', 'f', 'f', 'd', '"'] ∧
    RichTextElement.unmarshal ⟨"\x7b\"tag\":".data ++ quoteGoString [0xFF] ++ "\x7d".data⟩ =
      .ok { Tag := ⟨[Char.ofNat 0xFFFD]⟩ } ∧
    stringBytes ⟨[Char.ofNat 0xFFFD]⟩ ≠ [0xFF] := by
  refine ⟨stringBytes_ne_ff, ?_, by rfl, by rfl, by decide⟩
  intro tag
  rw [quoteGoString_stringBytes]
  have e1 : quoteString "tag" = "\"tag\"".data := by rfl
  simp [jsonMarshal, RichTextElement.toJSON, omitEmptyString, JVal.render?, renderMoreMembers?, e1]

/-- C21. The convenience operations of the client are pass-throughs: for every
client, time and arguments each of `SendText`, `SendRichText`, `SendImage` and
`SendInteractive` returns what `SendMessage` returns for the message the
matching builder makes. The equality holds for every client, whatever its
transport does with the request it is handed, so the request is the same too. -/
theorem C21_pass_through (c : Client) (now : Int) :
    (∀ t : String, c.SendText now t = c.SendMessage now (NewTextMessage t)) ∧
    (∀ (title : String) (lines : Slice (Slice RichTextElement)),
      c.SendRichText now title lines = c.SendMessage now (NewRichTextMessage title lines)) ∧
    (∀ k : String, c.SendImage now k = c.SendMessage now (NewImageMessage k)) ∧
    (∀ (config : Option CardConfig) (header : Option CardHeader) (elements : Slice JVal),
      c.SendInteractive now config header elements =
        c.SendMessage now (NewInteractiveMessage config header elements)) :=
  ⟨fun _ => rfl, fun _ _ => rfl, fun _ => rfl, fun _ _ _ => rfl⟩

/-- C22. The facade adds no logic: each one-shot function returns what the
matching method returns on the client `NewClient` makes from the same URL and
secrets, each method of `SDK` returns what the method of the same name returns
on the client the `SDK` holds, and `Client()` of the `SDK` made by `New` is the
client `NewClient` makes from the same arguments. -/
theorem C22_facade (resty : Transport) (now : Int) (url : String) (secret : List String) :
    (∀ text : String,
      SendTextMessage resty now url text secret =
        (NewClient resty url secret).SendText now text) ∧
    (∀ (title : String) (lines : Slice (Slice RichTextElement)),
      SendRichTextMessage resty now url title lines secret =
        (NewClient resty url secret).SendRichText now title lines) ∧
    (∀ key : String,
      SendImageMessage resty now url key secret =
        (NewClient resty url secret).SendImage now key) ∧
    (∀ (sdk : SDK) (text : String), sdk.SendText now text = sdk.Client.SendText now text) ∧
    (∀ (sdk : SDK) (title : String) (lines : Slice (Slice RichTextElement)),
      sdk.SendRichText now title lines = sdk.Client.SendRichText now title lines) ∧
    (∀ (sdk : SDK) (key : String), sdk.SendImage now key = sdk.Client.SendImage now key) ∧
    (∀ (sdk : SDK) (config : Option CardConfig) (header : Option CardHeader)
        (elements : Slice JVal),
      sdk.SendInteractive now config header elements =
        sdk.Client.SendInteractive now config header elements) ∧
    (∀ (sdk : SDK) (message : Message),
      sdk.SendMessage now message = sdk.Client.SendMessage now message) ∧
    (New resty url secret).Client = NewClient resty url secret :=
  ⟨fun _ => rfl, fun _ _ => rfl, fun _ => rfl, fun _ _ => rfl, fun _ _ _ => rfl,
    fun _ _ => rfl, fun _ _ _ _ => rfl, fun _ _ => rfl, rfl⟩

/-- C23. For every URL and every list of secrets given, `NewClient` returns a
client whose `WebhookURL` is the URL, whose `Secret` is the first secret given,
the empty string when none is given, and whose HTTP client is the one made for
it; further secrets are not used. `New` wraps the client `NewClient` returns
for the same arguments. -/
theorem C23_new_client (resty : Transport) (url : String) :
    (∀ secret : List String,
      (NewClient resty url secret).WebhookURL = url ∧
      (NewClient resty url secret).Secret = secret.head?.getD "" ∧
      (NewClient resty url secret).client = resty ∧
      (New resty url secret).client = NewClient resty url secret) ∧
    (NewClient resty url []).Secret = "" ∧
    (∀ (s : String) (more : List String), (NewClient resty url (s :: more)).Secret = s) := by
  refine ⟨?_, rfl, fun _ _ => rfl⟩
  intro secret
  cases secret <;> exact ⟨rfl, rfl, rfl, rfl⟩

/-- C24. For every title and template, the empty template among them,
`CreateCardHeader` returns a header whose title has the given title as content
and the fixed tag "plain_text", and whose template is the given template. -/
theorem C24_card_header (title template : String) :
    CreateCardHeader title template =
      { Title := some { Content := title, Tag := "plain_text" }, Template := template } ∧
    (CreateCardHeader title template).Title.map CardHeaderTitle.Content = some title ∧
    (CreateCardHeader title template).Title.map CardHeaderTitle.Tag = some "plain_text" ∧
    (CreateCardHeader title template).Template = template ∧
    (CreateCardHeader title "").Template = "" :=
  ⟨rfl, rfl, rfl, rfl, rfl⟩

/-- A map without an entry under a key has no value for it. -/
theorem StringMap.index_eq_none (m : StringMap) (key : String)
    (h : ∀ kv ∈ m, kv.1 ≠ key) : m.index key = none := by
  induction m with
  | nil => rfl
  | cons kv rest ih =>
    obtain ⟨k, v⟩ := kv
    have hk : (key == k) = false := by
      have := h (k, v) (by simp)
      simpa using fun e : key = k => this e.symm
    have hrest := ih (fun x hx => h x (by simp [hx]))
    simp only [StringMap.index] at hrest ⊢
    simp [List.lookup, hk, hrest]

/-- C25. The outcome of `sendRequest` is decided in a fixed order and is one
of five: a transport failure gives the error of "send request failed: %w"
around its cause; otherwise a status other than 200 gives the status error,
whatever the body; otherwise a body `json.Unmarshal` rejects gives the error of
"parse response failed: %w"; otherwise a `code` that is a number other than
zero gives the webhook error; otherwise there is no error. -/
theorem C25_outcome_order (c : Client) (request : WebhookRequest) :
    (∀ err : LibError,
      c.client c.WebhookURL [("Content-Type", "application/json")] request.toJSON = .error err →
      c.sendRequest request = some (.sendRequestFailed err) ∧
      (SendError.sendRequestFailed err).format = "send request failed: %w") ∧
    (∀ resp : Response,
      c.client c.WebhookURL [("Content-Type", "application/json")] request.toJSON = .ok resp →
      resp.statusCode ≠ 200 →
      c.sendRequest request = some (.requestFailedWithStatus resp.statusCode resp.bodyString)) ∧
    (∀ (resp : Response) (err : JsonError),
      c.client c.WebhookURL [("Content-Type", "application/json")] request.toJSON = .ok resp →
      resp.statusCode = 200 → jsonUnmarshalMap resp.body = .error err →
      c.sendRequest request = some (.parseResponseFailed err)) ∧
    (∀ (resp : Response) (members : List (String × JVal)) (code : ℚ),
      c.client c.WebhookURL [("Content-Type", "application/json")] request.toJSON = .ok resp →
      resp.statusCode = 200 → jsonUnmarshalMap resp.body = .ok members →
      mapIndex members "code" = .number code → code ≠ 0 →
      c.sendRequest request =
        some (.feishuWebhookError (.number code) (mapIndex members "msg"))) ∧
    (∀ (resp : Response) (members : List (String × JVal)),
      c.client c.WebhookURL [("Content-Type", "application/json")] request.toJSON = .ok resp →
      resp.statusCode = 200 → jsonUnmarshalMap resp.body = .ok members →
      (∀ code : ℚ, mapIndex members "code" = .number code → code = 0) →
      c.sendRequest request = none) := by
  refine ⟨?_, ?_, ?_, ?_, ?_⟩
  · intro err hpost
    exact ⟨by simp [Client.sendRequest, hpost], rfl⟩
  · intro resp hpost hstatus
    simp [Client.sendRequest, hpost, hstatus]
  · intro resp err hpost hstatus herr
    simp [Client.sendRequest, hpost, hstatus, herr]
  · intro resp members code hpost hstatus hdec hcode hnz
    rw [sendRequest_of_decoded c request resp members hpost hstatus hdec]
    simp [hcode, hnz]
  · intro resp members hpost hstatus hdec hzero
    rw [sendRequest_of_decoded c request resp members hpost hstatus hdec]
    cases hv : mapIndex members "code" with
    | number x => simp [hzero x hv]
    | null => rfl
    | bool b => rfl
    | str s => rfl
    | arr items => rfl
    | obj ms => rfl
    | unsupported => rfl

/-- Witness of C25: a transport failure; status 500 with the body
`{"code":19001,"msg":"x"}`, reported as a status error and not as a webhook
error; status 404 with a malformed body, reported as a status error and not as
a parse error. -/
theorem C25_outcome_order_witness :
    (Client.sendRequest
        { WebhookURL := "http://invalid-url-that-does-not-exist.com",
          client := fun _ _ _ => .error { text := "dial tcp: no such host" } }
        { MsgType := "text", Content := .text { Text := "test" } } =
      some (.sendRequestFailed { text := "dial tcp: no such host" })) ∧
    ((500 : Int) ≠ 200 ∧
      (NewClient (mockServer 500 "\x7b\"code\":19001,\"msg\":\"x\"\x7d") "https://example.com/hook"
          []).sendRequest { MsgType := "text", Content := .text { Text := "test" } } =
        some (.requestFailedWithStatus 500 "\x7b\"code\":19001,\"msg\":\"x\"\x7d") ∧
      jsonUnmarshalMap "\x7b\"code\":19001,\"msg\":\"x\"\x7d" =
        .ok [("code", .number 19001), ("msg", .str "x")]) ∧
    ((404 : Int) ≠ 200 ∧
      (NewClient (mockServer 404 "invalid json") "https://example.com/hook"
          []).sendRequest { MsgType := "text", Content := .text { Text := "test" } } =
        some (.requestFailedWithStatus 404 "invalid json") ∧
      jsonUnmarshalMap "invalid json" = .error .syntaxError) :=
  ⟨((C25_outcome_order
      { WebhookURL := "http://invalid-url-that-does-not-exist.com",
        client := fun _ _ _ => .error { text := "dial tcp: no such host" } }
      { MsgType := "text", Content := .text { Text := "test" } }).1
      { text := "dial tcp: no such host" } rfl).1,
   ⟨by decide,
    (C25_outcome_order
      (NewClient (mockServer 500 "\x7b\"code\":19001,\"msg\":\"x\"\x7d") "https://example.com/hook" [])
      { MsgType := "text", Content := .text { Text := "test" } }).2.1
      { statusCode := 500, bodyString := "\x7b\"code\":19001,\"msg\":\"x\"\x7d",
        body := "\x7b\"code\":19001,\"msg\":\"x\"\x7d" } rfl (by decide),
    rfl⟩,
   ⟨by decide,
    (C25_outcome_order
      (NewClient (mockServer 404 "invalid json") "https://example.com/hook" [])
      { MsgType := "text", Content := .text { Text := "test" } }).2.1
      { statusCode := 404, bodyString := "invalid json", body := "invalid json" } rfl
      (by decide),
    rfl⟩⟩

/-- C26. The signature does not depend on the message: for every client with
a secret, every time and every two messages, the two signed envelopes carry the
same `timestamp`, the decimal rendering of the time, and the same `sign`, the
result of `GenSign` for the secret and the time; the message enters neither. -/
theorem C26_sign_independent_of_message (c : Client) (now : Int) (m1 m2 : Message)
    (h : c.Secret ≠ "") :
    ∃ sign : String,
      GenSign c.Secret now = .ok sign ∧
      c.SendMessage now m1 = c.sendRequest
        { Timestamp := formatInt now, Sign := sign, MsgType := m1.MsgType,
          Content := m1.Content } ∧
      c.SendMessage now m2 = c.sendRequest
        { Timestamp := formatInt now, Sign := sign, MsgType := m2.MsgType,
          Content := m2.Content } ∧
      (WebhookRequest.toJSON
        { Timestamp := formatInt now, Sign := sign, MsgType := m1.MsgType,
          Content := m1.Content }).get? "timestamp" = some (.str (formatInt now)) ∧
      (WebhookRequest.toJSON
        { Timestamp := formatInt now, Sign := sign, MsgType := m2.MsgType,
          Content := m2.Content }).get? "timestamp" = some (.str (formatInt now)) ∧
      (WebhookRequest.toJSON
        { Timestamp := formatInt now, Sign := sign, MsgType := m1.MsgType,
          Content := m1.Content }).get? "sign" = some (.str sign) ∧
      (WebhookRequest.toJSON
        { Timestamp := formatInt now, Sign := sign, MsgType := m2.MsgType,
          Content := m2.Content }).get? "sign" = some (.str sign) := by
  obtain ⟨sign, hsign, hlen⟩ := GenSign_ok c.Secret now
  have hne : sign ≠ "" := by
    intro h0
    rw [h0] at hlen
    exact absurd hlen (by decide)
  have hsend : ∀ m : Message, c.SendMessage now m = c.sendRequest
      { Timestamp := formatInt now, Sign := sign, MsgType := m.MsgType, Content := m.Content } := by
    intro m
    simp [Client.SendMessage, Client.sendMessageWithSign, h, hsign]
  have hjson : ∀ m : Message,
      WebhookRequest.toJSON
        { Timestamp := formatInt now, Sign := sign, MsgType := m.MsgType, Content := m.Content } =
      .obj [("timestamp", .str (formatInt now)), ("sign", .str sign),
            ("msg_type", .str m.MsgType), ("content", m.Content.toJSON)] :=
    fun m => WebhookRequest.toJSON_signed _ (formatInt_ne_empty now) hne
  refine ⟨sign, hsign, hsend m1, hsend m2, ?_, ?_, ?_, ?_⟩
  · rw [hjson m1]; rfl
  · rw [hjson m2]; rfl
  · rw [hjson m1]; rfl
  · rw [hjson m2]; rfl

/-- Witness of C26: a text message and an image message sent with the secret
"abc" at time 1640995200. -/
theorem C26_sign_independent_of_message_witness :
    (NewClient (mockServer 200 "\x7b\"code\":0\x7d") "https://example.com/hook"
        ["abc"]).Secret ≠ "" ∧
    ∃ sign : String, GenSign "abc" 1640995200 = .ok sign ∧
      (WebhookRequest.toJSON
        { Timestamp := formatInt 1640995200, Sign := sign,
          MsgType := "text", Content := .text { Text := "hi" } }).get? "sign" =
        some (.str sign) ∧
      (WebhookRequest.toJSON
        { Timestamp := formatInt 1640995200, Sign := sign,
          MsgType := "image", Content := .image { ImageKey := "img" } }).get? "sign" =
        some (.str sign) := by
  obtain ⟨sign, h1, _, _, _, _, h6, h7⟩ := C26_sign_independent_of_message
    (NewClient (mockServer 200 "\x7b\"code\":0\x7d") "https://example.com/hook" ["abc"])
    1640995200 (NewTextMessage "hi") (NewImageMessage "img") (by decide)
  exact ⟨by decide, sign, h1, h6, h7⟩

/-- C29. `CreateRichTextElement` reads the first options map only: maps after
the first do not change the result. With no map, with an empty map, and with a
map whose keys are all other than `href`, `user_id`, `user_name` and
`image_key`, the result is the element with the given tag and text and every
other field empty. -/
theorem C29_first_map_only (tag text : String) :
    (∀ (opts : StringMap) (more : List StringMap),
      CreateRichTextElement tag text (opts :: more) = CreateRichTextElement tag text [opts]) ∧
    CreateRichTextElement tag text [] =
      { Tag := tag, Text := text, Href := "", UserId := "", UserName := "", ImageKey := "" } ∧
    CreateRichTextElement tag text [[]] =
      { Tag := tag, Text := text, Href := "", UserId := "", UserName := "", ImageKey := "" } ∧
    (∀ opts : StringMap,
      (∀ kv ∈ opts, kv.1 ≠ "href" ∧ kv.1 ≠ "user_id" ∧ kv.1 ≠ "user_name" ∧
        kv.1 ≠ "image_key") →
      CreateRichTextElement tag text [opts] =
        { Tag := tag, Text := text, Href := "", UserId := "", UserName := "",
          ImageKey := "" }) := by
  refine ⟨fun _ _ => rfl, rfl, rfl, ?_⟩
  intro opts h
  have h1 := StringMap.index_eq_none opts "href" (fun kv hkv => (h kv hkv).1)
  have h2 := StringMap.index_eq_none opts "user_id" (fun kv hkv => (h kv hkv).2.1)
  have h3 := StringMap.index_eq_none opts "user_name" (fun kv hkv => (h kv hkv).2.2.1)
  have h4 := StringMap.index_eq_none opts "image_key" (fun kv hkv => (h kv hkv).2.2.2)
  simp only [CreateRichTextElement, h1, h2, h3, h4]

/-- Witness of C29: a map with the keys `color` and `size`, and a second map
that is not read. -/
theorem C29_first_map_only_witness :
    (∀ kv ∈ ([("color", "red"), ("size", "12")] : StringMap),
      kv.1 ≠ "href" ∧ kv.1 ≠ "user_id" ∧ kv.1 ≠ "user_name" ∧ kv.1 ≠ "image_key") ∧
    CreateRichTextElement "text" "web-server-01" [[("color", "red"), ("size", "12")]] =
      { Tag := "text", Text := "web-server-01" } ∧
    CreateRichTextElement "text" "web-server-01" [[], [("href", "https://example.com")]] =
      { Tag := "text", Text := "web-server-01" } :=
  ⟨by decide,
   (C29_first_map_only "text" "web-server-01").2.2.2 [("color", "red"), ("size", "12")]
     (by decide),
   rfl⟩

end Feishu
